import Mathlib

/-!
Verification of the MarbleBlast rollback/broadphase core.

Shallow embedding of:
  * src/client/ts/game/game_state.ts   (GameState: history, rollback, affection graph)
  * src/unnamed/part_003               (SweepAndPruneBroadphase)
  * src/unnamed/part_004               (Marble: power-ups, reconciliation smoothing)

Modelling conventions:
  * JS numbers that hold frame counters are modelled as `ℤ`; spatial coordinates as `ℚ`
    (exact arithmetic in place of IEEE doubles).
  * `Infinity` / `-Infinity` sentinels are modelled with `WithTop ℤ` / `WithBot ℤ`.
  * JS `Map`s are association lists (insertion-ordered); `Set`s of player ids are `Finset ℕ`.
  * Object identity (reference equality) is modelled by an `id : ℕ` field.
  * Entity "load state" callbacks mutate entity-internal data that is outside the modelled
    state, so they are no-ops here; every effect on the modelled fields is kept.
-/

set_option maxHeartbeats 1000000

/-- `Util.last(arr)`: the last element of an array, or `undefined`.
(Utility from src/client/ts/util.ts, not included under src/; semantics are the
standard "last element" accessor that the call sites rely on.) -/
def Util.last {α : Type} (l : List α) : Option α := l.getLast?

/-- `Util.findLast(arr, pred)`: the last element satisfying `pred`, or `undefined`. -/
def Util.findLast {α : Type} (l : List α) (p : α → Bool) : Option α := l.reverse.find? p

/-- One `while (arr.length > 0 && Util.last(arr).frame > target) arr.pop();` loop,
abstracted over the frame accessor. Used by `GameState.rollBackToFrame`. -/
def popWhileFrameGT {α : Type} (f : α → ℤ) (target : ℤ) (l : List α) : List α :=
  if h : (Util.last l).any (fun x => decide (f x > target)) then
    popWhileFrameGT f target l.dropLast
  else l
termination_by l.length
decreasing_by
  cases l with
  | nil => simp [Util.last] at h
  | cons a as => simp [List.length_dropLast]

/-- `DefaultMap.get(k)` (src/shared/default_map.ts, default `[]`): returns the stored
array, inserting a fresh default into the map when the key is absent. Returns the
value together with the (possibly grown) map. -/
def dmGet {α : Type} (m : List (ℕ × List α)) (k : ℕ) : List α × List (ℕ × List α) :=
  match m.find? (fun p => p.1 == k) with
  | some p => (p.2, m)
  | none => ([], m ++ [(k, [])])

/-- Read-only lookup in a `DefaultMap` (value only). -/
def dmGetVal {α : Type} (m : List (ℕ × List α)) (k : ℕ) : List α :=
  (dmGet m k).1

/-- Store a value back under an existing key of a `DefaultMap`. -/
def dmSet {α : Type} (m : List (ℕ × List α)) (k : ℕ) (v : List α) : List (ℕ × List α) :=
  m.map (fun p => if p.1 = k then (k, v) else p)

/-- `EntityUpdate` (src/shared/game_server_format.ts): the `state` payload is opaque
to the rollback engine; only `null` (`none`) versus non-`null` matters here, so the
payload type is `Unit`. -/
structure EntityUpdate where
  updateId : ℤ
  entityId : ℕ
  frame : ℤ
  state : Option Unit
deriving DecidableEq, Repr

/-- An internal-state history entry `{ frame, state }` (state payload opaque). -/
structure InternalEntry where
  frame : ℤ
  state : Unit
deriving DecidableEq, Repr

/-- An `AffectionEdge` of game_state.ts; `from`/`to` entity references are by id. -/
structure AffectionEdge where
  id : ℕ
  fromId : ℕ
  toId : ℕ
  frame : ℤ
deriving DecidableEq, Repr

/-- A frame-stamped HUD record (`Hud.helpMessages` / `Hud.alerts` entries from
src/client/ts/game/trigger.ts; the `getMessage` closure is irrelevant here). -/
structure HudRecord where
  frame : ℤ
deriving DecidableEq, Repr

/-- An `Entity` as seen by GameState: id, `restartable` and the two dirty flags.
`affectedBy` player sets are stored in `GameState.affectedBy` (keyed by entity id). -/
structure Entity where
  id : ℕ
  restartable : Bool
  stateNeedsStore : Bool
  internalStateNeedsStore : Bool
deriving DecidableEq, Repr

/-- The `GameState` class of src/client/ts/game/game_state.ts, together with the
pieces of its environment it reads and writes: the game's entity list
(`this.game.entities`) and the HUD queues (`G.menu.hud.helpMessages` / `.alerts`). -/
structure GameState where
  frame : ℤ
  maxFrame : ℤ
  restartFrames : List ℤ
  stateHistory : List (ℕ × List EntityUpdate)
  internalStateHistory : List (ℕ × List InternalEntry)
  affectionGraph : List AffectionEdge
  nextUpdateId : ℕ
  nextAffectionEdgeId : ℕ
  entities : List Entity
  affectedBy : ℕ → Finset ℕ
  helpMessages : List HudRecord
  alerts : List HudRecord

/-- Loop body of the `lastRestartFrame` getter: walk `restartFrames`, breaking at the
first entry greater than the current frame, remembering the last one seen. -/
def lastRestartFrameGo (frame : ℤ) : List ℤ → WithBot ℤ → WithBot ℤ
  | [], acc => acc
  | f :: rest, acc => if f > frame then acc else lastRestartFrameGo frame rest (f : ℤ)

/-- `get lastRestartFrame()` (game_state.ts:31-40): starts from `-Infinity` (`⊥`). -/
def GameState.lastRestartFrame (s : GameState) : WithBot ℤ :=
  lastRestartFrameGo s.frame s.restartFrames ⊥

/-- `createInitialUpdate(entity)` (game_state.ts:195-202). -/
def GameState.createInitialUpdate (e : Entity) : EntityUpdate :=
  { updateId := -1, entityId := e.id, frame := 0, state := none }

/-- `getLastEntityUpdate(entity, upToFrame)` (game_state.ts:127-137).
The `DefaultMap.get` it performs can insert an empty history for a fresh id; that
has no observable effect on any history content, so the map growth is not threaded
through.  Note the restart comparison uses `this.lastRestartFrame`, which is
computed from the *current* frame, not from `upToFrame`. -/
def GameState.getLastEntityUpdate (s : GameState) (e : Entity) (upToFrame : ℤ) :
    EntityUpdate :=
  let history := dmGetVal s.stateHistory e.id
  let update :=
    (Util.findLast history (fun x => decide (x.frame ≤ upToFrame))).getD
      (GameState.createInitialUpdate e)
  if e.restartable ∧ (update.frame : WithBot ℤ) < s.lastRestartFrame then
    { GameState.createInitialUpdate e with frame := s.lastRestartFrame.unbot' 0 }
  else update

/-- Loop body of `saveStates()` (game_state.ts:94-125) for a single entity. -/
def GameState.saveStatesEntity (s : GameState) (e : Entity) : GameState :=
  let s :=
    if e.stateNeedsStore then
      let (arr, hist) := dmGet s.stateHistory e.id
      let arr := if (Util.last arr).any (fun u => decide (u.frame = s.frame))
        then arr.dropLast else arr
      let stateUpdate : EntityUpdate :=
        { updateId := (s.nextUpdateId : ℤ), entityId := e.id, frame := s.frame,
          state := some () }
      { s with
        stateHistory := dmSet hist e.id (arr ++ [stateUpdate]),
        nextUpdateId := s.nextUpdateId + 1,
        entities := s.entities.map
          (fun x => if x.id = e.id then { x with stateNeedsStore := false } else x) }
    else s
  if e.internalStateNeedsStore then
    let (arr, hist) := dmGet s.internalStateHistory e.id
    let arr := if (Util.last arr).any (fun u => decide (u.frame = s.frame))
      then arr.dropLast else arr
    let entry : InternalEntry :=
      { frame := if arr.length = 0 then -1 else s.frame, state := () }
    { s with
      internalStateHistory := dmSet hist e.id (arr ++ [entry]),
      entities := s.entities.map
        (fun x => if x.id = e.id then { x with internalStateNeedsStore := false } else x) }
  else s

/-- `saveStates()` (game_state.ts:94-125): iterate over `this.game.entities`. -/
def GameState.saveStates (s : GameState) : GameState :=
  s.entities.foldl GameState.saveStatesEntity s

/-- `rollBackEntityToFrame(entity, frame)` (game_state.ts:174-193): prune the entity's
external-state history; the subsequent `entity.loadState` touches only entity-internal
data outside the modelled state. -/
def GameState.rollBackEntityToFrame (s : GameState) (entityId : ℕ) (frame : ℤ) :
    GameState :=
  let (history, hist) := dmGet s.stateHistory entityId
  let history2 := popWhileFrameGT EntityUpdate.frame frame history
  { s with stateHistory := dmSet hist entityId history2 }

/-- `rollBackToFrame(target)` (game_state.ts:139-172).  Note the source bug at lines
146-148: the local variable named `helpMessages` is assigned `G.menu.hud.alerts`, so
the alerts queue is pruned twice and `hud.helpMessages` is never pruned. -/
def GameState.rollBackToFrame (s : GameState) (target : ℤ) : GameState :=
  if target = s.frame then s else
  let s := { s with frame := target }
  let s := { s with
    affectionGraph := popWhileFrameGT AffectionEdge.frame target s.affectionGraph }
  -- let helpMessages = G.menu.hud.alerts; while (...) helpMessages.pop();
  let s := { s with alerts := popWhileFrameGT HudRecord.frame target s.alerts }
  -- let alerts = G.menu.hud.alerts; while (...) alerts.pop();
  let s := { s with alerts := popWhileFrameGT HudRecord.frame target s.alerts }
  -- prune internal-state histories; `loadInternalState` affects only entity-internal
  -- data outside the modelled state
  let s := { s with
    internalStateHistory := s.internalStateHistory.map
      (fun (p : ℕ × List InternalEntry) =>
        (p.1, popWhileFrameGT InternalEntry.frame target p.2)) }
  -- for (let [entityId] of this.stateHistory) this.rollBackEntityToFrame(...)
  let s := (s.stateHistory.map Prod.fst).foldl
    (fun (acc : GameState) (k : ℕ) => acc.rollBackEntityToFrame k target) s
  s.saveStates

/-- The inner `propagate` closure of `recordEntityInteraction` (game_state.ts:59-80),
operating on the per-entity `affectedBy` player sets.  The affection graph is captured
by the closure and never changes during propagation.  JS recursion is replaced by an
explicit fuel parameter; termination is the subject of claim C8. -/
def propagateFuel (graph : List AffectionEdge) (e1 : ℕ) :
    ℕ → (ℕ → Finset ℕ) → ℕ → (ℕ → Finset ℕ)
  | 0, f, _ => f
  | fuel + 1, f, e =>
    -- keepGoing: some player of e1.affectedBy is missing from e.affectedBy
    let keepGoing := ¬ f e1 ⊆ f e
    -- e.affectedBy.add(player) for every player of e1.affectedBy
    let f2 := Function.update f e (f e ∪ f e1)
    if keepGoing then
      ((graph.filter (fun ed => ed.fromId = e)).map (fun ed => ed.toId)).foldl
        (propagateFuel graph e1 fuel) f2
    else f2

/-- `recordEntityInteraction(e1, e2)` (game_state.ts:59-80): push the new edge, then
flood `affectedBy` from `e2` (fuel-indexed; see claim C8). -/
def GameState.recordEntityInteractionFuel (s : GameState) (e1 e2 : ℕ) (fuel : ℕ) :
    GameState :=
  let edge : AffectionEdge :=
    { id := s.nextAffectionEdgeId, fromId := e1, toId := e2, frame := s.frame }
  let s := { s with
    affectionGraph := s.affectionGraph ++ [edge],
    nextAffectionEdgeId := s.nextAffectionEdgeId + 1 }
  { s with affectedBy := propagateFuel s.affectionGraph e1 fuel s.affectedBy e2 }

/-- The nodes the flood of `propagateFuel` can ever visit: the initial target plus
every edge target. -/
def propagationNodes (graph : List AffectionEdge) (e2 : ℕ) : List ℕ :=
  e2 :: graph.map (fun ed => ed.toId)

/-- Termination potential of the flood: how many pairs (node, player of
`e1.affectedBy`) are still unattributed. Strictly decreases at every recursing call. -/
def propagationPotential (graph : List AffectionEdge) (f : ℕ → Finset ℕ) (e1 e2 : ℕ) :
    ℕ :=
  ((propagationNodes graph e2).map (fun n => (f e1 \ f n).card)).sum

/-- Fuel bound sufficient for `recordEntityInteractionFuel` to reach its fixed point;
the potential is taken over the graph including the freshly pushed edge. -/
def GameState.recordBound (s : GameState) (e1 e2 : ℕ) : ℕ :=
  propagationPotential
    (s.affectionGraph ++ [⟨s.nextAffectionEdgeId, e1, e2, s.frame⟩])
    s.affectedBy e1 e2 + 1

/-- An abstract driver event for `GameState`, covering every operation of the engine
that touches the frame counter or the recorded histories.  `advance` is modelled from
the spec: §4.3 "a single integer `frame` (monotonically advanced during normal play,
may jump backward only through `rollBackToFrame`)" — the tick code that performs the
increment is outside src/.  `markStateDirty`/`markInternalDirty` model entity code
setting the dirty flags before a save. -/
inductive GameOp where
  | advance
  | markStateDirty (id : ℕ)
  | markInternalDirty (id : ℕ)
  | save
  | rollBack (target : ℤ)
  | pushRestartFrame (f : ℤ)
  | interact (e1 e2 : ℕ) (fuel : ℕ)

/-- Apply one driver event. -/
def GameOp.apply (s : GameState) : GameOp → GameState
  | .advance => { s with frame := s.frame + 1 }
  | .markStateDirty i =>
    { s with
      entities := s.entities.map
        (fun x => if x.id = i then { x with stateNeedsStore := true } else x) }
  | .markInternalDirty i =>
    { s with
      entities := s.entities.map
        (fun x => if x.id = i then { x with internalStateNeedsStore := true } else x) }
  | .save => s.saveStates
  | .rollBack t => s.rollBackToFrame t
  | .pushRestartFrame f => { s with restartFrames := s.restartFrames ++ [f] }
  | .interact e1 e2 fuel => s.recordEntityInteractionFuel e1 e2 fuel

/-- The state of a freshly constructed `GameState` (game_state.ts:27-57) owning the
given entities; all histories empty, `frame = -1`. -/
def GameState.init (ents : List Entity) : GameState :=
  { frame := -1, maxFrame := -1, restartFrames := [], stateHistory := [],
    internalStateHistory := [], affectionGraph := [], nextUpdateId := 0,
    nextAffectionEdgeId := 0, entities := ents, affectedBy := fun _ => ∅,
    helpMessages := [], alerts := [] }

/-- Run a sequence of driver events from the initial state. -/
def GameState.run (ents : List Entity) (ops : List GameOp) : GameState :=
  ops.foldl GameOp.apply (GameState.init ents)

/-- `PowerUp`: only its concrete class (`constructor`) and its identity matter to
`pickUpPowerUp`. -/
structure PowerUp where
  classId : ℕ
  instanceId : ℕ
deriving DecidableEq, Repr

/-- `Marble.pickUpPowerUp(powerUp)` (part_004:1158-1166), as a function of the held
power-up: returns the JS boolean result together with the new `heldPowerUp`.
`powerUp.constructor === this.heldPowerUp.constructor` is class equality. -/
def Marble.pickUpPowerUp (held : Option PowerUp) (powerUp : Option PowerUp) :
    Bool × Option PowerUp :=
  match powerUp with
  | none => (false, held)
  | some pu =>
    match held with
    | some h => if pu.classId = h.classId then (false, held) else (true, some pu)
    | none => (true, some pu)

/-- A 3-vector over exact rationals (IEEE doubles idealized). -/
structure Vec3 where
  x : ℚ
  y : ℚ
  z : ℚ
deriving DecidableEq, Repr

/-- three.js `Vector3.addScaledVector(v, s)`. -/
def Vec3.addScaledVector (a v : Vec3) (s : ℚ) : Vec3 :=
  ⟨a.x + v.x * s, a.y + v.y * s, a.z + v.z * s⟩

/-- three.js `Vector3.lerp(target, alpha)`. -/
def Vec3.lerp (a b : Vec3) (alpha : ℚ) : Vec3 :=
  ⟨a.x + (b.x - a.x) * alpha, a.y + (b.y - a.y) * alpha, a.z + (b.z - a.z) * alpha⟩

/-- The marble fields involved in reconciliation smoothing (part_004:206-216,
930-944, 1372-1390).  Orientation follows the identical branch structure via `slerp`
and is not modelled separately. -/
structure MarbleSmoothing where
  bodyPosition : Vec3
  linearVelocity : Vec3
  interpolatedPosition : Vec3
  reconciliationPosition : Vec3
  interpolationRemaining : ℤ
  interpolationStrength : ℚ
deriving DecidableEq, Repr

/-- `Marble.afterReconciliation()` (part_004:1376-1385).  `strengthOf frames` stands
for the transcendental `1 - Math.pow(1 - 0.99, 1 / frames)`, kept abstract;
`distanceTo(...) === 0` holds exactly when the two positions coincide.
`frameGap` is the multiplayer state's observed client/server frame gap. -/
def Marble.afterReconciliation (strengthOf : ℤ → ℚ) (frameGap : ℕ)
    (m : MarbleSmoothing) : MarbleSmoothing :=
  let frames : ℤ := max ((frameGap : ℤ) * 2) 20
  if m.interpolationRemaining > frames then m
  else if m.reconciliationPosition = m.bodyPosition then m
  else { m with
    interpolationRemaining := frames,
    interpolationStrength := strengthOf frames }

/-- `Marble.postUpdate()` (part_004:930-944), position part.  `updateRateInv` is
`1 / GAME_UPDATE_RATE` (constant from src/shared/constants.ts, outside src/).
Note `this.interpolationRemaining--` decrements even when already `≤ 0`. -/
def Marble.postUpdate (updateRateInv : ℚ) (isReconciling : Bool)
    (m : MarbleSmoothing) : MarbleSmoothing :=
  if isReconciling then m
  else
    let rem := m.interpolationRemaining
    let m := { m with interpolationRemaining := rem - 1 }
    if rem ≤ 0 then { m with interpolatedPosition := m.bodyPosition }
    else
      { m with
        interpolatedPosition :=
          (m.interpolatedPosition.addScaledVector m.linearVelocity updateRateInv).lerp
            m.bodyPosition m.interpolationStrength }

/-! ## Frame preservation lemmas for `rollBackToFrame` -/

/-- The pop-from-the-end loop equals dropping the offending suffix. -/
theorem popWhileFrameGT_eq_reverse {α : Type} (f : α → ℤ) (t : ℤ) (l : List α) :
    popWhileFrameGT f t l
      = (l.reverse.dropWhile (fun x => decide (f x > t))).reverse := by
  suffices H : ∀ (n : ℕ) (l : List α), l.length = n →
      popWhileFrameGT f t l
        = (l.reverse.dropWhile (fun x => decide (f x > t))).reverse by
    exact H l.length l rfl
  intro n
  induction n using Nat.strong_induction_on with
  | _ n ih =>
  intro l hn
  rw [popWhileFrameGT]
  rcases List.eq_nil_or_concat l with hl | ⟨l2, a, hl⟩
  · subst hl; rfl
  · subst hl
    rw [List.concat_eq_append] at hn ⊢
    rw [List.reverse_append, List.reverse_singleton, List.singleton_append]
    by_cases hcond : f a > t
    · have hlast : Util.last (l2 ++ [a]) = some a := by
        simp [Util.last]
      rw [dif_pos (by simp [hlast, hcond])]
      rw [List.dropLast_concat]
      rw [List.dropWhile_cons_of_pos (by simpa using hcond)]
      subst hn
      exact ih l2.length (by simp) l2 rfl -- length decreases
    · have hlast : Util.last (l2 ++ [a]) = some a := by
        simp [Util.last]
      rw [dif_neg (by simp [hlast, hcond])]
      rw [List.dropWhile_cons_of_neg (by simpa using hcond)]
      simp

theorem saveStatesEntity_frame (s : GameState) (e : Entity) :
    (s.saveStatesEntity e).frame = s.frame := by
  unfold GameState.saveStatesEntity
  dsimp only
  split <;> split <;> rfl

theorem foldl_saveStatesEntity_frame (l : List Entity) (s : GameState) :
    (l.foldl GameState.saveStatesEntity s).frame = s.frame := by
  induction l generalizing s with
  | nil => rfl
  | cons e rest ih => rw [List.foldl_cons, ih, saveStatesEntity_frame]

theorem saveStates_frame (s : GameState) : s.saveStates.frame = s.frame :=
  foldl_saveStatesEntity_frame s.entities s

theorem rollBackEntityToFrame_frame (s : GameState) (k : ℕ) (t : ℤ) :
    (s.rollBackEntityToFrame k t).frame = s.frame := by
  unfold GameState.rollBackEntityToFrame
  rfl

theorem foldl_rollBackEntity_frame (ks : List ℕ) (s : GameState) (t : ℤ) :
    (ks.foldl (fun (acc : GameState) (k : ℕ) => acc.rollBackEntityToFrame k t) s).frame
      = s.frame := by
  induction ks generalizing s with
  | nil => rfl
  | cons k rest ih => rw [List.foldl_cons, ih, rollBackEntityToFrame_frame]

theorem rollBackToFrame_frame (s : GameState) (t : ℤ) :
    (s.rollBackToFrame t).frame = t := by
  unfold GameState.rollBackToFrame
  split
  · next h => simpa using h.symm
  · rw [saveStates_frame, foldl_rollBackEntity_frame]

/-- C5: `rollBackToFrame(target)` is a no-op when `target` equals the current frame;
consequently calling `rollBackToFrame(F)` twice in a row produces the same state as
calling it once. -/
theorem C5_rollBackToFrame_noop_and_idempotent (s : GameState) (target : ℤ) :
    (target = s.frame → s.rollBackToFrame target = s) ∧
    (s.rollBackToFrame target).rollBackToFrame target = s.rollBackToFrame target := by
  constructor
  · intro h
    unfold GameState.rollBackToFrame
    simp [h]
  · have hf : (s.rollBackToFrame target).frame = target := rollBackToFrame_frame s target
    conv_lhs => rw [GameState.rollBackToFrame]
    simp [hf]

/-- Witness for C5 at a concrete state. -/
theorem C5_witness :
    ((-1 : ℤ) = (GameState.init []).frame →
      (GameState.init []).rollBackToFrame (-1) = GameState.init []) ∧
    (((GameState.init []).rollBackToFrame (-1)).rollBackToFrame (-1)
      = (GameState.init []).rollBackToFrame (-1)) :=
  C5_rollBackToFrame_noop_and_idempotent (GameState.init []) (-1)

/-- The state used to exhibit the help-message pruning bug (C3): one help message and
one alert, both stamped with frame 10, current frame 10. -/
def c3State : GameState :=
  { GameState.init [] with frame := 10, helpMessages := [⟨10⟩], alerts := [⟨10⟩] }

/-- C3: the claim says `rollBackToFrame(target)` removes every HUD help message with
`frame > target`.  The code (game_state.ts:146-148) assigns `G.menu.hud.alerts` to the
variable named `helpMessages`, so the alerts queue is pruned twice and the help-message
queue is never pruned: rolling `c3State` back to frame 5 leaves the frame-10 help
message in place while the frame-10 alert is removed. -/
theorem C3_helpMessages_survive_rollback :
    (c3State.rollBackToFrame 5).helpMessages = [⟨10⟩] ∧
    (c3State.rollBackToFrame 5).alerts = [] := by
  constructor <;>
    simp [c3State, GameState.rollBackToFrame, GameState.init, popWhileFrameGT_eq_reverse,
      GameState.saveStates, List.dropWhile]

/-! ## C9: reconciliation smoothing -/

/-- A marble state about to receive a reconciliation correction of nonzero distance. -/
def c9Marble : MarbleSmoothing :=
  { bodyPosition := ⟨1, 0, 0⟩, linearVelocity := ⟨0, 0, 0⟩,
    interpolatedPosition := ⟨0, 0, 0⟩, reconciliationPosition := ⟨0, 0, 0⟩,
    interpolationRemaining := 0, interpolationStrength := 1 }

/-- C9 counterexample: the correction window is `max(2 * frameGap, 20)`, so it is not
proportional to the frame gap and a larger gap does not always produce a longer
window: gaps 5 and 10 both yield a 20-frame window. -/
theorem C9_counterexample_window_not_proportional :
    (Marble.afterReconciliation (fun _ => (1 : ℚ) / 2) 5 c9Marble).interpolationRemaining
      = 20 ∧
    (Marble.afterReconciliation (fun _ => (1 : ℚ) / 2) 10 c9Marble).interpolationRemaining
      = 20 ∧
    (5 : ℕ) < 10 := by
  refine ⟨?_, ?_, by norm_num⟩ <;> rfl

theorem postUpdate_remaining (u : ℚ) (m : MarbleSmoothing) :
    (Marble.postUpdate u false m).interpolationRemaining
      = m.interpolationRemaining - 1 := by
  unfold Marble.postUpdate
  simp only [Bool.false_eq_true, if_false]
  split <;> rfl

theorem postUpdate_interpolated_of_pos (u : ℚ) (m : MarbleSmoothing)
    (h : ¬ m.interpolationRemaining ≤ 0) :
    (Marble.postUpdate u false m).interpolatedPosition
      = (m.interpolatedPosition.addScaledVector m.linearVelocity u).lerp
          m.bodyPosition m.interpolationStrength := by
  unfold Marble.postUpdate
  simp only [Bool.false_eq_true, if_false]
  rw [if_neg h]

theorem postUpdate_iterate_remaining (u : ℚ) (m : MarbleSmoothing) (k : ℕ) :
    ((Marble.postUpdate u false)^[k] m).interpolationRemaining
      = m.interpolationRemaining - k := by
  induction k generalizing m with
  | zero => simp
  | succ n ih =>
    rw [Function.iterate_succ_apply, ih, postUpdate_remaining]
    push_cast
    ring

/-- C9 amended: after a reconciliation whose corrected position differs from the
predicted one (and with no longer interpolation already running), the window is
`max(2 * frameGap, 20)` frames — nondecreasing in the gap, and proportional to it only
above the 20-frame floor; during all of those frames `postUpdate` keeps a positive
countdown and takes the interpolating branch (lerp towards the corrected pose) instead
of snapping to it. -/
theorem C9_amended_window_and_no_snap (strengthOf : ℤ → ℚ) (u : ℚ) (gap : ℕ)
    (m : MarbleSmoothing)
    (hrem : m.interpolationRemaining ≤ max ((gap : ℤ) * 2) 20)
    (hdiff : m.reconciliationPosition ≠ m.bodyPosition) :
    (Marble.afterReconciliation strengthOf gap m).interpolationRemaining
        = max ((gap : ℤ) * 2) 20 ∧
    (∀ g1 g2 : ℕ, g1 ≤ g2 → max ((g1 : ℤ) * 2) 20 ≤ max ((g2 : ℤ) * 2) 20) ∧
    (∀ k : ℕ, (k : ℤ) < max ((gap : ℤ) * 2) 20 →
      0 < ((Marble.postUpdate u false)^[k]
            (Marble.afterReconciliation strengthOf gap m)).interpolationRemaining ∧
      MarbleSmoothing.interpolatedPosition
          (Marble.postUpdate u false
            ((Marble.postUpdate u false)^[k] (Marble.afterReconciliation strengthOf gap m)))
        = (((Marble.postUpdate u false)^[k]
              (Marble.afterReconciliation strengthOf gap m)).interpolatedPosition.addScaledVector
            ((Marble.postUpdate u false)^[k]
              (Marble.afterReconciliation strengthOf gap m)).linearVelocity u).lerp
            ((Marble.postUpdate u false)^[k]
              (Marble.afterReconciliation strengthOf gap m)).bodyPosition
            ((Marble.postUpdate u false)^[k]
              (Marble.afterReconciliation strengthOf gap m)).interpolationStrength) := by
  have hwin : (Marble.afterReconciliation strengthOf gap m).interpolationRemaining
      = max ((gap : ℤ) * 2) 20 := by
    unfold Marble.afterReconciliation
    dsimp only
    rw [if_neg (by omega), if_neg hdiff]
  refine ⟨hwin, ?_, fun k hk => ?_⟩
  · intro g1 g2 h
    have hz : (g1 : ℤ) ≤ (g2 : ℤ) := Int.ofNat_le.mpr h
    omega
  have hit : ((Marble.postUpdate u false)^[k]
      (Marble.afterReconciliation strengthOf gap m)).interpolationRemaining
      = max ((gap : ℤ) * 2) 20 - k := by
    rw [postUpdate_iterate_remaining, hwin]
  refine ⟨by omega, ?_⟩
  exact postUpdate_interpolated_of_pos u _ (by omega)

/-- Witness for C9's amended theorem at gap 5 and `c9Marble`. -/
theorem C9_amended_witness :
    (Marble.afterReconciliation (fun _ => (1 : ℚ) / 2) 5 c9Marble).interpolationRemaining
        = max ((5 : ℤ) * 2) 20 ∧
    (∀ g1 g2 : ℕ, g1 ≤ g2 → max ((g1 : ℤ) * 2) 20 ≤ max ((g2 : ℤ) * 2) 20) ∧
    (∀ k : ℕ, (k : ℤ) < max ((5 : ℤ) * 2) 20 →
      0 < ((Marble.postUpdate ((1 : ℚ) / 60) false)^[k]
            (Marble.afterReconciliation (fun _ => (1 : ℚ) / 2) 5 c9Marble)).interpolationRemaining ∧
      (Marble.postUpdate ((1 : ℚ) / 60) false
          ((Marble.postUpdate ((1 : ℚ) / 60) false)^[k]
            (Marble.afterReconciliation (fun _ => (1 : ℚ) / 2) 5 c9Marble))).interpolatedPosition
        = (((Marble.postUpdate ((1 : ℚ) / 60) false)^[k]
              (Marble.afterReconciliation (fun _ => (1 : ℚ) / 2) 5 c9Marble)).interpolatedPosition.addScaledVector
            ((Marble.postUpdate ((1 : ℚ) / 60) false)^[k]
              (Marble.afterReconciliation (fun _ => (1 : ℚ) / 2) 5 c9Marble)).linearVelocity ((1 : ℚ) / 60)).lerp
            ((Marble.postUpdate ((1 : ℚ) / 60) false)^[k]
              (Marble.afterReconciliation (fun _ => (1 : ℚ) / 2) 5 c9Marble)).bodyPosition
            ((Marble.postUpdate ((1 : ℚ) / 60) false)^[k]
              (Marble.afterReconciliation (fun _ => (1 : ℚ) / 2) 5 c9Marble)).interpolationStrength) :=
  C9_amended_window_and_no_snap (fun _ => (1 : ℚ) / 2) ((1 : ℚ) / 60) 5 c9Marble
    (by decide) (by decide)

/-- C10: `pickUpPowerUp(p)` returns `false` and keeps the held power-up when `p` is
null or has the same concrete class as the held power-up (even for a different
instance); for any other non-null `p` it stores `p` (silently replacing a held
power-up of a different class) and returns `true`. -/
theorem C10_pickUpPowerUp_behavior (held powerUp : Option PowerUp) :
    (powerUp = none → Marble.pickUpPowerUp held powerUp = (false, held)) ∧
    (∀ pu h, powerUp = some pu → held = some h → pu.classId = h.classId →
      Marble.pickUpPowerUp held powerUp = (false, held)) ∧
    (∀ pu, powerUp = some pu → (∀ h, held = some h → pu.classId ≠ h.classId) →
      Marble.pickUpPowerUp held powerUp = (true, some pu)) := by
  refine ⟨fun h => by subst h; rfl, fun pu h hp hh heq => ?_, fun pu hp hcls => ?_⟩
  · subst hp; subst hh
    simp [Marble.pickUpPowerUp, heq]
  · subst hp
    cases held with
    | none => rfl
    | some h => simp [Marble.pickUpPowerUp, hcls h rfl]

/-- Witness for C10: same class, different instance is refused; a different class is
silently replaced. -/
theorem C10_witness :
    Marble.pickUpPowerUp (some ⟨1, 1⟩) (some ⟨1, 2⟩) = (false, some ⟨1, 1⟩) ∧
    Marble.pickUpPowerUp (some ⟨1, 1⟩) (some ⟨2, 2⟩) = (true, some ⟨2, 2⟩) :=
  ⟨(C10_pickUpPowerUp_behavior (some ⟨1, 1⟩) (some ⟨1, 2⟩)).2.1 ⟨1, 2⟩ ⟨1, 1⟩ rfl rfl rfl,
   (C10_pickUpPowerUp_behavior (some ⟨1, 1⟩) (some ⟨2, 2⟩)).2.2 ⟨2, 2⟩ rfl
     (fun h hh => by cases hh; decide)⟩

/-! ## C2: `getLastEntityUpdate` -/

/-- `Util.findLast` over a snoc list inspects the appended element first. -/
theorem findLast_concat {α : Type} (l : List α) (a : α) (p : α → Bool) :
    Util.findLast (l ++ [a]) p = if p a then some a else Util.findLast l p := by
  by_cases hpa : p a
  · simp [Util.findLast, List.reverse_append, List.find?_cons_of_pos, hpa]
  · simp [Util.findLast, List.reverse_append, List.find?_cons_of_neg, hpa]

theorem findLast_eq_some {α : Type} {l : List α} {p : α → Bool} {u : α}
    (h : Util.findLast l p = some u) : u ∈ l ∧ p u = true := by
  unfold Util.findLast at h
  exact ⟨List.mem_reverse.mp (List.mem_of_find?_eq_some h), List.find?_some h⟩

theorem findLast_isSome {α : Type} {l : List α} {p : α → Bool}
    (h : ∃ x ∈ l, p x = true) : (Util.findLast l p).isSome := by
  unfold Util.findLast
  rw [List.find?_isSome]
  obtain ⟨x, hx, hpx⟩ := h
  exact ⟨x, List.mem_reverse.mpr hx, hpx⟩

theorem findLast_eq_none {α : Type} {l : List α} {p : α → Bool}
    (h : ∀ x ∈ l, ¬ p x = true) : Util.findLast l p = none := by
  unfold Util.findLast
  rw [List.find?_eq_none]
  intro x hx
  exact h x (List.mem_reverse.mp hx)

/-- `Util.findLast` returns the *last* entry satisfying the predicate: the found
element sits at an index after which no entry satisfies it. -/
theorem findLast_last_match {α : Type} :
    ∀ (l : List α) (p : α → Bool) (u : α), Util.findLast l p = some u →
      ∃ k : ℕ, l[k]? = some u ∧
        ∀ k2 : ℕ, ∀ v : α, k < k2 → l[k2]? = some v → p v = false := by
  intro l
  induction l using List.reverseRecOn with
  | nil => intro p u hu; simp [Util.findLast] at hu
  | append_singleton l2 a ih =>
    intro p u hu
    rw [findLast_concat] at hu
    by_cases hpa : p a = true
    · rw [if_pos hpa] at hu
      have hau : a = u := by simpa using hu
      refine ⟨l2.length, ?_, ?_⟩
      · rw [← hau]
        exact List.getElem?_concat_length l2 a
      · intro k2 v hlt hk2
        exfalso
        have hlen : (l2 ++ [a]).length ≤ k2 := by
          simp only [List.length_append, List.length_singleton]
          omega
        rw [List.getElem?_eq_none hlen] at hk2
        exact Option.noConfusion hk2
    · rw [if_neg hpa] at hu
      obtain ⟨k, hk, hlater⟩ := ih p u hu
      have hklt : k < l2.length := by
        by_contra hge
        rw [List.getElem?_eq_none (Nat.le_of_not_lt hge)] at hk
        exact Option.noConfusion hk
      refine ⟨k, ?_, ?_⟩
      · rw [List.getElem?_append_left hklt]
        exact hk
      · intro k2 v hlt hk2
        by_cases hk2l : k2 < l2.length
        · rw [List.getElem?_append_left hk2l] at hk2
          exact hlater k2 v hlt hk2
        · by_cases hk2e : k2 = l2.length
          · subst hk2e
            rw [List.getElem?_concat_length] at hk2
            cases hk2
            exact eq_false_of_ne_true hpa
          · exfalso
            have hlen : (l2 ++ [a]).length ≤ k2 := by
              simp only [List.length_append, List.length_singleton]
              omega
            rw [List.getElem?_eq_none hlen] at hk2
            exact Option.noConfusion hk2

/-- The update that `getLastEntityUpdate` locates before the restart cutoff is
applied: last history entry with `frame ≤ upToFrame`, else the initial update. -/
def foundUpdate (s : GameState) (e : Entity) (upToFrame : ℤ) : EntityUpdate :=
  (Util.findLast (dmGetVal s.stateHistory e.id)
      (fun x => decide (x.frame ≤ upToFrame))).getD
    (GameState.createInitialUpdate e)

/-- Modelled from the spec: `getLastEntityUpdate` exactly as §4.3 words it, with the
restart cutoff taken as the most recent restart *at or before `upToFrame`*.  This
definition exists solely as the comparison point for claim C2; the code's version
(`GameState.getLastEntityUpdate`) instead cuts at the most recent restart at or
before the current frame. -/
def specGetLastEntityUpdate (s : GameState) (e : Entity) (upToFrame : ℤ) :
    EntityUpdate :=
  let update := foundUpdate s e upToFrame
  let restartCut := lastRestartFrameGo upToFrame s.restartFrames ⊥
  if e.restartable ∧ (update.frame : WithBot ℤ) < restartCut then
    { GameState.createInitialUpdate e with frame := restartCut.unbot' 0 }
  else update

/-- State separating the code from the spec's wording of C2: current frame 3, one
restart recorded at frame 5, entity 1 restartable with a single update at frame 0. -/
def c2State : GameState :=
  { GameState.init [] with
    frame := 3, restartFrames := [5],
    stateHistory := [(1, [⟨0, 1, 0, some ()⟩])] }

/-- The restartable entity used in the C2 counterexample. -/
def c2Entity : Entity := ⟨1, true, false, false⟩

/-- Second state separating the code from the spec's wording of C2, in the opposite
direction: current frame 10, a restart recorded at frame 8, entity 1 restartable
with a single update at frame 3, queried with `upToFrame = 5`. -/
def c2State2 : GameState :=
  { GameState.init [] with
    frame := 10, restartFrames := [8],
    stateHistory := [(1, [⟨0, 1, 3, some ()⟩])] }

/-- C2 counterexample, both directions of the divergence.  (i) Querying
`upToFrame = 10` while the current frame is 3: the spec's reading (restart cutoff at
or before `upToFrame`) discards the frame-0 update in favour of an initial update
pinned to restart frame 5, but the code cuts at the restart at or before the
*current* frame (none, i.e. `-Infinity`) and returns the frame-0 update unchanged.
(ii) Querying `upToFrame = 5` while the current frame is 10 and a restart sits at
frame 8: the code pins the result to restart frame 8, returning an update whose
frame *exceeds* `upToFrame`, while the spec's reading returns the recorded frame-3
update. -/
theorem C2_counterexample_restart_cutoff :
    ((c2State.getLastEntityUpdate c2Entity 10).updateId = 0 ∧
     (specGetLastEntityUpdate c2State c2Entity 10).updateId = -1 ∧
     (specGetLastEntityUpdate c2State c2Entity 10).frame = 5) ∧
    ((c2State2.getLastEntityUpdate c2Entity 5).updateId = -1 ∧
     (c2State2.getLastEntityUpdate c2Entity 5).frame = 8 ∧
     ¬ (c2State2.getLastEntityUpdate c2Entity 5).frame ≤ 5 ∧
     (specGetLastEntityUpdate c2State2 c2Entity 5).updateId = 0 ∧
     (specGetLastEntityUpdate c2State2 c2Entity 5).frame = 3) := by
  refine ⟨⟨?_, ?_, ?_⟩, ?_, ?_, ?_, ?_, ?_⟩ <;> decide

/-- C2 amended: for every state, entity and frame `upToFrame`, the update that
`getLastEntityUpdate` locates is the most *recently recorded* update of the entity
with `frame ≤ upToFrame` — it sits at a history index after which no entry has
`frame ≤ upToFrame` — or the synthesized initial update (`updateId = -1`,
`state = null`) when no entry qualifies.  If the entity is restartable and the
located update's frame is earlier than the most recent restart frame at or before
the *current* frame (the `lastRestartFrame` getter, not `upToFrame`), the function
returns an initial update (`updateId = -1`, the entity's id, `state = null`) whose
frame equals that restart frame; otherwise it returns the located update. -/
theorem C2_amended_getLastEntityUpdate (s : GameState) (e : Entity) (upToFrame : ℤ) :
    ((∃ x ∈ dmGetVal s.stateHistory e.id, x.frame ≤ upToFrame) →
      ∃ k : ℕ, (dmGetVal s.stateHistory e.id)[k]? = some (foundUpdate s e upToFrame) ∧
        (foundUpdate s e upToFrame).frame ≤ upToFrame ∧
        ∀ k2 : ℕ, ∀ x : EntityUpdate, k < k2 →
          (dmGetVal s.stateHistory e.id)[k2]? = some x → ¬ x.frame ≤ upToFrame) ∧
    ((∀ x ∈ dmGetVal s.stateHistory e.id, ¬ x.frame ≤ upToFrame) →
      foundUpdate s e upToFrame = GameState.createInitialUpdate e) ∧
    (e.restartable ∧ ((foundUpdate s e upToFrame).frame : WithBot ℤ) < s.lastRestartFrame →
      (s.getLastEntityUpdate e upToFrame).updateId = -1 ∧
      (s.getLastEntityUpdate e upToFrame).entityId = e.id ∧
      (s.getLastEntityUpdate e upToFrame).state = none ∧
      ((s.getLastEntityUpdate e upToFrame).frame : WithBot ℤ) = s.lastRestartFrame) ∧
    (¬ (e.restartable ∧ ((foundUpdate s e upToFrame).frame : WithBot ℤ) < s.lastRestartFrame) →
      s.getLastEntityUpdate e upToFrame = foundUpdate s e upToFrame) := by
  refine ⟨?_, ?_, ?_, ?_⟩
  · intro hex
    have hsome := findLast_isSome (l := dmGetVal s.stateHistory e.id)
      (p := fun x => decide (x.frame ≤ upToFrame))
      (by obtain ⟨x, hx, hxf⟩ := hex; exact ⟨x, hx, by simpa using hxf⟩)
    obtain ⟨u, hu⟩ := Option.isSome_iff_exists.mp hsome
    have hfu : foundUpdate s e upToFrame = u := by
      unfold foundUpdate
      rw [hu]
      rfl
    obtain ⟨k, hk, hlater⟩ := findLast_last_match (dmGetVal s.stateHistory e.id) _ u hu
    refine ⟨k, ?_, ?_, ?_⟩
    · rw [hfu]; exact hk
    · rw [hfu]; simpa using (findLast_eq_some hu).2
    · intro k2 x hlt hk2
      have := hlater k2 x hlt hk2
      simpa using this
  · intro hnone
    unfold foundUpdate
    rw [findLast_eq_none (by intro x hx; simpa using hnone x hx)]
    rfl
  · intro hcut
    have heq : s.getLastEntityUpdate e upToFrame
        = { GameState.createInitialUpdate e with frame := s.lastRestartFrame.unbot' 0 } := by
      unfold GameState.getLastEntityUpdate
      rw [if_pos (by exact hcut)]
    rw [heq]
    refine ⟨rfl, rfl, rfl, ?_⟩
    cases hl : s.lastRestartFrame with
    | bot =>
      exfalso
      rw [hl] at hcut
      exact absurd hcut.2 (by simp)
    | coe c =>
      rfl
  · intro hcut
    unfold GameState.getLastEntityUpdate
    rw [if_neg (by exact hcut)]
    rfl

/-- Witness for the amended C2 at the concrete state `c2State2` with
`upToFrame = 5`: the history holds a qualifying update (frame 3, last such entry),
the restart cutoff (frame 8, from current frame 10) applies, and the function
returns an initial update pinned to restart frame 8. -/
theorem C2_amended_witness :
    (∃ x ∈ dmGetVal c2State2.stateHistory c2Entity.id, x.frame ≤ (5 : ℤ)) ∧
    (∃ k : ℕ, (dmGetVal c2State2.stateHistory c2Entity.id)[k]?
            = some (foundUpdate c2State2 c2Entity 5) ∧
      (foundUpdate c2State2 c2Entity 5).frame ≤ 5 ∧
      ∀ k2 : ℕ, ∀ x : EntityUpdate, k < k2 →
        (dmGetVal c2State2.stateHistory c2Entity.id)[k2]? = some x → ¬ x.frame ≤ 5) ∧
    (c2Entity.restartable
      ∧ ((foundUpdate c2State2 c2Entity 5).frame : WithBot ℤ) < c2State2.lastRestartFrame) ∧
    ((c2State2.getLastEntityUpdate c2Entity 5).updateId = -1 ∧
     (c2State2.getLastEntityUpdate c2Entity 5).entityId = c2Entity.id ∧
     (c2State2.getLastEntityUpdate c2Entity 5).state = none ∧
     ((c2State2.getLastEntityUpdate c2Entity 5).frame : WithBot ℤ)
        = c2State2.lastRestartFrame) :=
  ⟨by decide,
   (C2_amended_getLastEntityUpdate c2State2 c2Entity 5).1 (by decide),
   by decide,
   (C2_amended_getLastEntityUpdate c2State2 c2Entity 5).2.2.1 (by decide)⟩

/-! ## C4: history frames strictly increase in every reachable state -/

/-- Membership in a `dmSet` image. -/
theorem mem_dmSet {α : Type} {m : List (ℕ × List α)} {k : ℕ} {v : List α}
    {q : ℕ × List α} (h : q ∈ dmSet m k v) :
    q = (k, v) ∨ (q ∈ m ∧ q.1 ≠ k) := by
  unfold dmSet at h
  obtain ⟨p, hp, hq⟩ := List.mem_map.mp h
  by_cases hk : p.1 = k
  · left; rw [if_pos hk] at hq; exact hq.symm
  · right; rw [if_neg hk] at hq; subst hq; exact ⟨hp, hk⟩

/-- The map returned by `dmGet` is the original one, possibly with a fresh empty
entry appended. -/
theorem dmGet_snd_cases {α : Type} (m : List (ℕ × List α)) (k : ℕ) :
    (dmGet m k).2 = m ∨ (dmGet m k).2 = m ++ [(k, [])] := by
  unfold dmGet
  cases m.find? (fun p => p.1 == k) with
  | none => right; rfl
  | some p => left; rfl

/-- The value returned by `dmGet` is empty or one stored in the map. -/
theorem dmGet_fst_cases {α : Type} (m : List (ℕ × List α)) (k : ℕ) :
    (dmGet m k).1 = [] ∨ ∃ p ∈ m, (dmGet m k).1 = p.2 := by
  unfold dmGet
  cases hf : m.find? (fun p => p.1 == k) with
  | none => left; rfl
  | some p => right; exact ⟨p, List.mem_of_find?_eq_some hf, rfl⟩

/-- Appending the current frame's update after the conditional `pop` keeps frames
strictly increasing and bounded by the current frame. -/
theorem chainInv_snoc (arr : List EntityUpdate) (F : ℤ) (upd : EntityUpdate)
    (hupd : upd.frame = F)
    (hc : arr.Pairwise (fun a b => a.frame < b.frame))
    (hb : ∀ u ∈ arr, u.frame ≤ F) :
    (((if (Util.last arr).any (fun u => decide (u.frame = F)) then arr.dropLast
        else arr) ++ [upd]).Pairwise (fun a b => a.frame < b.frame)) ∧
    ∀ u ∈ ((if (Util.last arr).any (fun u => decide (u.frame = F)) then arr.dropLast
        else arr) ++ [upd]), u.frame ≤ F := by
  have key : ∀ a ∈ (if (Util.last arr).any (fun u => decide (u.frame = F))
      then arr.dropLast else arr), a.frame < F := by
    split
    · next hcond =>
      rcases List.eq_nil_or_concat arr with rfl | ⟨l2, L, rfl⟩
      · simp
      · simp only [List.concat_eq_append] at hcond hc ⊢
        have hlast : Util.last (l2 ++ [L]) = some L := by simp [Util.last]
        rw [hlast] at hcond
        have hLF : L.frame = F := by simpa using hcond
        intro a ha
        rw [List.dropLast_concat] at ha
        have := (List.pairwise_append.mp hc).2.2 a ha L (by simp)
        omega
    · next hcond =>
      rcases List.eq_nil_or_concat arr with rfl | ⟨l2, L, rfl⟩
      · simp
      · simp only [List.concat_eq_append] at hcond hc hb ⊢
        have hlast : Util.last (l2 ++ [L]) = some L := by simp [Util.last]
        rw [hlast] at hcond
        have hLF : ¬ L.frame = F := by simpa using hcond
        have hLle : L.frame ≤ F := hb L (by simp)
        intro a ha
        rcases List.mem_append.mp ha with ha2 | haL
        · have := (List.pairwise_append.mp hc).2.2 a ha2 L (by simp)
          omega
        · have : a = L := by simpa using haL
          subst this
          omega
  constructor
  · rw [List.pairwise_append]
    refine ⟨?_, by simp, ?_⟩
    · split
      · exact hc.sublist (List.dropLast_sublist arr)
      · exact hc
    · intro a ha b hb2
      have : b = upd := by simpa using hb2
      subst this
      rw [hupd]
      exact key a ha
  · intro u hu
    rcases List.mem_append.mp hu with h2 | h2
    · exact le_of_lt (key u h2)
    · have : u = upd := by simpa using h2
      subst this
      omega

/-- The inductive invariant for C4: per-entity histories have strictly increasing
frames, all bounded by the current frame. -/
def histInv (s : GameState) : Prop :=
  ∀ p ∈ s.stateHistory, p.2.Pairwise (fun a b => a.frame < b.frame) ∧
    ∀ u ∈ p.2, u.frame ≤ s.frame

/-- The external-state history after `saveStatesEntity`, as an explicit expression. -/
theorem saveStatesEntity_stateHistory (s : GameState) (e : Entity) :
    (s.saveStatesEntity e).stateHistory =
      if e.stateNeedsStore then
        dmSet (dmGet s.stateHistory e.id).2 e.id
          ((if (Util.last (dmGet s.stateHistory e.id).1).any
                (fun u => decide (u.frame = s.frame))
              then (dmGet s.stateHistory e.id).1.dropLast
              else (dmGet s.stateHistory e.id).1)
            ++ [⟨(s.nextUpdateId : ℤ), e.id, s.frame, some ()⟩])
      else s.stateHistory := by
  unfold GameState.saveStatesEntity
  dsimp only
  split <;> split <;> rfl

theorem saveStatesEntity_histInv (s : GameState) (e : Entity) (h : histInv s) :
    histInv (s.saveStatesEntity e) := by
  intro p hp
  rw [saveStatesEntity_stateHistory] at hp
  rw [saveStatesEntity_frame]
  split at hp
  · rcases mem_dmSet hp with hq | ⟨hq, _⟩
    · subst hq
      dsimp only
      have harr : (dmGet s.stateHistory e.id).1.Pairwise
            (fun a b => a.frame < b.frame) ∧
          ∀ u ∈ (dmGet s.stateHistory e.id).1, u.frame ≤ s.frame := by
        rcases dmGet_fst_cases s.stateHistory e.id with he | ⟨p0, hp0, he⟩
        · rw [he]; exact ⟨List.Pairwise.nil, by simp⟩
        · rw [he]; exact h p0 hp0
      exact chainInv_snoc (dmGet s.stateHistory e.id).1 s.frame _ rfl harr.1 harr.2
    · rcases dmGet_snd_cases s.stateHistory e.id with hm | hm
      · rw [hm] at hq; exact h p hq
      · rw [hm] at hq
        rcases List.mem_append.mp hq with hq2 | hq2
        · exact h p hq2
        · have : p = (e.id, []) := by simpa using hq2
          subst this
          exact ⟨List.Pairwise.nil, by simp⟩
  · exact h p hp

theorem saveStates_histInv (s : GameState) (h : histInv s) : histInv s.saveStates := by
  unfold GameState.saveStates
  suffices H : ∀ (l : List Entity) (s : GameState), histInv s →
      histInv (l.foldl GameState.saveStatesEntity s) by
    exact H s.entities s h
  intro l
  induction l with
  | nil => intro s hs; exact hs
  | cons e rest ih =>
    intro s hs
    exact ih _ (saveStatesEntity_histInv s e hs)

/-- `popWhileFrameGT` yields a sublist of its input. -/
theorem popWhileFrameGT_sublist {α : Type} (f : α → ℤ) (t : ℤ) (l : List α) :
    (popWhileFrameGT f t l).Sublist l := by
  rw [popWhileFrameGT_eq_reverse]
  have h1 : (l.reverse.dropWhile (fun x => decide (f x > t))).Sublist l.reverse :=
    List.dropWhile_sublist _
  simpa using h1.reverse

/-- The head of `dropWhile p` fails `p`. -/
theorem head_dropWhile_false {α : Type} (p : α → Bool) (l : List α) :
    ∀ x, (l.dropWhile p).head? = some x → p x = false := by
  induction l with
  | nil => simp
  | cons a as ih =>
    intro x hx
    by_cases hpa : p a
    · rw [List.dropWhile_cons_of_pos hpa] at hx
      exact ih x hx
    · rw [List.dropWhile_cons_of_neg hpa] at hx
      have : a = x := by simpa using hx
      subst this
      simpa using hpa

/-- The last survivor of `popWhileFrameGT` does not exceed the target. -/
theorem popWhileFrameGT_last_le {α : Type} (f : α → ℤ) (t : ℤ) (l : List α) :
    ∀ L, (popWhileFrameGT f t l).getLast? = some L → f L ≤ t := by
  intro L hL
  rw [popWhileFrameGT_eq_reverse] at hL
  rw [List.getLast?_reverse] at hL
  have := head_dropWhile_false (fun x => decide (f x > t)) l.reverse L hL
  simpa using this

/-- Strictly increasing frames plus a bounded last element bound the whole list. -/
theorem all_le_of_chain_last (l : List EntityUpdate) (t : ℤ)
    (hc : l.Pairwise (fun a b => a.frame < b.frame))
    (hlast : ∀ L, l.getLast? = some L → L.frame ≤ t) :
    ∀ u ∈ l, u.frame ≤ t := by
  rcases List.eq_nil_or_concat l with rfl | ⟨l2, L, rfl⟩
  · simp
  · simp only [List.concat_eq_append] at hc hlast ⊢
    have hL : L.frame ≤ t := hlast L (by simp)
    intro u hu
    rcases List.mem_append.mp hu with h2 | h2
    · have := (List.pairwise_append.mp hc).2.2 u h2 L (by simp)
      omega
    · have : u = L := by simpa using h2
      subst this
      omega

/-- `rollBackEntityToFrame` as an explicit history transformation. -/
theorem rollBackEntityToFrame_stateHistory (s : GameState) (k : ℕ) (t : ℤ) :
    (s.rollBackEntityToFrame k t).stateHistory
      = dmSet (dmGet s.stateHistory k).2 k
          (popWhileFrameGT EntityUpdate.frame t (dmGet s.stateHistory k).1) := rfl

/-- The per-entity pruning pass of `rollBackToFrame`: after folding over a key list
covering every entry, all histories are strictly increasing and bounded by the
rollback target. -/
theorem rollBackFold_inv (t B : ℤ) :
    ∀ (keys : List ℕ) (s : GameState),
      (∀ p ∈ s.stateHistory, p.2.Pairwise (fun a b => a.frame < b.frame) ∧
        ((∀ u ∈ p.2, u.frame ≤ t) ∨ (p.1 ∈ keys ∧ ∀ u ∈ p.2, u.frame ≤ B))) →
      ∀ p ∈ (keys.foldl (fun (acc : GameState) (k : ℕ) =>
          acc.rollBackEntityToFrame k t) s).stateHistory,
        p.2.Pairwise (fun a b => a.frame < b.frame) ∧ ∀ u ∈ p.2, u.frame ≤ t := by
  intro keys
  induction keys with
  | nil =>
    intro s hinv p hp
    obtain ⟨hc, hd⟩ := hinv p hp
    rcases hd with hd | ⟨hk, _⟩
    · exact ⟨hc, hd⟩
    · simp at hk
  | cons k ks ih =>
    intro s hinv
    rw [List.foldl_cons]
    apply ih
    intro p hp
    rw [rollBackEntityToFrame_stateHistory] at hp
    rcases mem_dmSet hp with hq | ⟨hq, hqk⟩
    · subst hq
      dsimp only
      have harr : (dmGet s.stateHistory k).1.Pairwise
          (fun a b => a.frame < b.frame) := by
        rcases dmGet_fst_cases s.stateHistory k with he | ⟨p0, hp0, he⟩
        · rw [he]; exact List.Pairwise.nil
        · rw [he]; exact (hinv p0 hp0).1
      have hchain : (popWhileFrameGT EntityUpdate.frame t
          (dmGet s.stateHistory k).1).Pairwise (fun a b => a.frame < b.frame) :=
        harr.sublist (popWhileFrameGT_sublist _ _ _)
      refine ⟨hchain, Or.inl ?_⟩
      exact all_le_of_chain_last _ t hchain
        (popWhileFrameGT_last_le EntityUpdate.frame t _)
    · rcases dmGet_snd_cases s.stateHistory k with hm | hm
      · rw [hm] at hq
        obtain ⟨hc, hd⟩ := hinv p hq
        refine ⟨hc, ?_⟩
        rcases hd with hd | ⟨hk2, hb⟩
        · exact Or.inl hd
        · refine Or.inr ⟨?_, hb⟩
          rcases List.mem_cons.mp hk2 with h1 | h1
          · exact absurd h1 hqk
          · exact h1
      · rw [hm] at hq
        rcases List.mem_append.mp hq with hq2 | hq2
        · obtain ⟨hc, hd⟩ := hinv p hq2
          refine ⟨hc, ?_⟩
          rcases hd with hd | ⟨hk2, hb⟩
          · exact Or.inl hd
          · refine Or.inr ⟨?_, hb⟩
            rcases List.mem_cons.mp hk2 with h1 | h1
            · exact absurd h1 hqk
            · exact h1
        · have : p = (k, []) := by simpa using hq2
          subst this
          exact ⟨List.Pairwise.nil, Or.inl (by simp)⟩

theorem rollBackToFrame_histInv (s : GameState) (t : ℤ) (h : histInv s) :
    histInv (s.rollBackToFrame t) := by
  unfold GameState.rollBackToFrame
  split
  · exact h
  · dsimp only
    apply saveStates_histInv
    intro p hp
    have hmain := rollBackFold_inv t s.frame (s.stateHistory.map Prod.fst) _ ?_ p hp
    · refine ⟨hmain.1, ?_⟩
      rw [foldl_rollBackEntity_frame]
      exact hmain.2
    · intro q hq
      obtain ⟨hc, hb⟩ := h q hq
      exact ⟨hc, Or.inr ⟨List.mem_map_of_mem Prod.fst hq, hb⟩⟩

theorem op_apply_histInv (s : GameState) (op : GameOp) (h : histInv s) :
    histInv (op.apply s) := by
  cases op with
  | advance =>
    intro p hp
    obtain ⟨hc, hb⟩ := h p hp
    exact ⟨hc, fun u hu => by have := hb u hu; dsimp only [GameOp.apply]; omega⟩
  | markStateDirty i => exact h
  | markInternalDirty i => exact h
  | save => exact saveStates_histInv s h
  | rollBack t => exact rollBackToFrame_histInv s t h
  | pushRestartFrame f => exact h
  | interact e1 e2 fuel => exact h

theorem run_histInv (ents : List Entity) (ops : List GameOp) :
    histInv (GameState.run ents ops) := by
  unfold GameState.run
  suffices H : ∀ (l : List GameOp) (s : GameState), histInv s →
      histInv (l.foldl GameOp.apply s) by
    exact H ops (GameState.init ents) (by intro p hp; simp [GameState.init] at hp)
  intro l
  induction l with
  | nil => intro s hs; exact hs
  | cons op rest ih => intro s hs; exact ih _ (op_apply_histInv s op hs)

/-- C4: in every reachable state (any sequence of engine events starting from a fresh
`GameState`), every entity's recorded state history has strictly increasing frames,
and hence at most one recorded update per frame — a second `saveStates()` at the same
frame replaces the existing entry rather than appending one. -/
theorem C4_history_frames_strictly_increasing (ents : List Entity) (ops : List GameOp)
    (k : ℕ) (hist : List EntityUpdate)
    (hmem : (k, hist) ∈ (GameState.run ents ops).stateHistory) :
    hist.Pairwise (fun a b => a.frame < b.frame) ∧
    ∀ f : ℤ, (hist.filter (fun u => decide (u.frame = f))).length ≤ 1 := by
  obtain ⟨hc, _⟩ := run_histInv ents ops (k, hist) hmem
  refine ⟨hc, fun f => ?_⟩
  have hcf : (hist.filter (fun u => decide (u.frame = f))).Pairwise
      (fun a b => a.frame < b.frame) := hc.sublist (List.filter_sublist hist)
  rcases hl : hist.filter (fun u => decide (u.frame = f)) with _ | ⟨x, xs⟩
  · rw [hl]; simp
  · rcases xs with _ | ⟨y, ys⟩
    · rw [hl]; simp
    · exfalso
      rw [hl] at hcf
      have hxy := (List.pairwise_cons.mp hcf).1 y (by simp)
      have hx : x ∈ hist.filter (fun u => decide (u.frame = f)) := by rw [hl]; simp
      have hy : y ∈ hist.filter (fun u => decide (u.frame = f)) := by rw [hl]; simp
      have hxf : x.frame = f := by simpa using (List.mem_filter.mp hx).2
      have hyf : y.frame = f := by simpa using (List.mem_filter.mp hy).2
      omega

/-- Witness for C4: advance once, save, re-flag the entity, save again in the same
frame — the history holds a single frame-0 entry. -/
theorem C4_witness :
    ((1 : ℕ), [(⟨1, 1, 0, some ()⟩ : EntityUpdate)])
        ∈ (GameState.run [⟨1, false, true, true⟩]
            [.advance, .save, .markStateDirty 1, .save]).stateHistory ∧
    ([(⟨1, 1, 0, some ()⟩ : EntityUpdate)].Pairwise (fun a b => a.frame < b.frame) ∧
      ∀ f : ℤ,
        ([(⟨1, 1, 0, some ()⟩ : EntityUpdate)].filter
          (fun u => decide (u.frame = f))).length ≤ 1) :=
  ⟨by decide,
   C4_history_frames_strictly_increasing [⟨1, false, true, true⟩]
     [.advance, .save, .markStateDirty 1, .save] 1 [⟨1, 1, 0, some ()⟩] (by decide)⟩

/-! ## C8: termination of the affection flood -/

/-- Unattributed (node, player) pairs over an explicit node list. -/
def potOver (N : List ℕ) (f : ℕ → Finset ℕ) (e1 : ℕ) : ℕ :=
  (N.map (fun n => (f e1 \ f n).card)).sum

theorem propagationPotential_eq (graph : List AffectionEdge) (f : ℕ → Finset ℕ)
    (e1 e2 : ℕ) :
    propagationPotential graph f e1 e2 = potOver (propagationNodes graph e2) f e1 :=
  rfl

/-- Adding `e1`'s players to any node leaves `e1`'s own set unchanged. -/
theorem update_union_e1 (f : ℕ → Finset ℕ) (e e1 : ℕ) :
    Function.update f e (f e ∪ f e1) e1 = f e1 := by
  by_cases he : e1 = e
  · subst he
    rw [Function.update_same]
    exact Finset.union_self _
  · rw [Function.update_noteq he]

theorem update_union_superset (f : ℕ → Finset ℕ) (e e1 n : ℕ) :
    f n ⊆ Function.update f e (f e ∪ f e1) n := by
  by_cases hn : n = e
  · subst hn
    rw [Function.update_same]
    exact Finset.subset_union_left
  · rw [Function.update_noteq hn]

theorem foldl_pointwise_superset (g : (ℕ → Finset ℕ) → ℕ → (ℕ → Finset ℕ))
    (hg : ∀ f t n, f n ⊆ g f t n) :
    ∀ (ts : List ℕ) (f : ℕ → Finset ℕ) (n : ℕ), f n ⊆ ts.foldl g f n := by
  intro ts
  induction ts with
  | nil => intro f n; exact subset_rfl
  | cons t rest ih =>
    intro f n
    rw [List.foldl_cons]
    exact (hg f t n).trans (ih (g f t) n)

theorem foldl_pointwise_eq (e1 : ℕ) (g : (ℕ → Finset ℕ) → ℕ → (ℕ → Finset ℕ))
    (hg : ∀ f t, g f t e1 = f e1) :
    ∀ (ts : List ℕ) (f : ℕ → Finset ℕ), ts.foldl g f e1 = f e1 := by
  intro ts
  induction ts with
  | nil => intro f; rfl
  | cons t rest ih =>
    intro f
    rw [List.foldl_cons, ih (g f t), hg f t]

/-- The flood only ever grows the `affectedBy` sets. -/
theorem propagateFuel_superset (graph : List AffectionEdge) (e1 : ℕ) :
    ∀ (fuel : ℕ) (f : ℕ → Finset ℕ) (e n : ℕ),
      f n ⊆ propagateFuel graph e1 fuel f e n := by
  intro fuel
  induction fuel with
  | zero => intro f e n; exact subset_rfl
  | succ m ih =>
    intro f e n
    unfold propagateFuel
    dsimp only
    split
    · exact (update_union_superset f e e1 n).trans
        (foldl_pointwise_superset _ (fun f2 t n2 => ih f2 t n2) _ _ n)
    · exact update_union_superset f e e1 n

/-- The flood never changes `e1`'s own player set. -/
theorem propagateFuel_e1_eq (graph : List AffectionEdge) (e1 : ℕ) :
    ∀ (fuel : ℕ) (f : ℕ → Finset ℕ) (e : ℕ),
      propagateFuel graph e1 fuel f e e1 = f e1 := by
  intro fuel
  induction fuel with
  | zero => intro f e; rfl
  | succ m ih =>
    intro f e
    unfold propagateFuel
    dsimp only
    split
    · rw [foldl_pointwise_eq e1 _ (fun f2 t => ih f2 t), update_union_e1]
    · exact update_union_e1 f e e1

/-- Pointwise growth with a fixed source set shrinks the potential. -/
theorem potOver_anti (N : List ℕ) (f g : ℕ → Finset ℕ) (e1 : ℕ)
    (hsub : ∀ n, f n ⊆ g n) (he1 : g e1 = f e1) :
    potOver N g e1 ≤ potOver N f e1 := by
  unfold potOver
  apply List.sum_le_sum
  intro n _
  apply Finset.card_le_card
  rw [he1]
  exact Finset.sdiff_subset_sdiff subset_rfl (hsub n)

theorem propagateFuel_pot_le (graph : List AffectionEdge) (e1 : ℕ) (N : List ℕ)
    (fuel : ℕ) (f : ℕ → Finset ℕ) (e : ℕ) :
    potOver N (propagateFuel graph e1 fuel f e) e1 ≤ potOver N f e1 :=
  potOver_anti N f _ e1 (fun n => propagateFuel_superset graph e1 fuel f e n)
    (propagateFuel_e1_eq graph e1 fuel f e)

/-- A visit that actually adds a player strictly decreases the potential. -/
theorem potOver_update_lt (N : List ℕ) (f : ℕ → Finset ℕ) (e e1 : ℕ)
    (he : e ∈ N) (hkeep : ¬ f e1 ⊆ f e) :
    potOver N (Function.update f e (f e ∪ f e1)) e1 + 1 ≤ potOver N f e1 := by
  obtain ⟨N1, N2, rfl⟩ := List.append_of_mem he
  unfold potOver
  rw [List.map_append, List.map_cons, List.sum_append, List.sum_cons,
    List.map_append, List.map_cons, List.sum_append, List.sum_cons]
  have hterm0 : (Function.update f e (f e ∪ f e1) e1
      \ Function.update f e (f e ∪ f e1) e).card = 0 := by
    rw [update_union_e1, Function.update_same]
    simp [Finset.sdiff_eq_empty_iff_subset]
  have hterm1 : 1 ≤ (f e1 \ f e).card := by
    rw [Nat.one_le_iff_ne_zero, ← Nat.pos_iff_ne_zero, Finset.card_pos,
      Finset.sdiff_nonempty]
    exact hkeep
  have hN1 : ((N1.map (fun n => (Function.update f e (f e ∪ f e1) e1
      \ Function.update f e (f e ∪ f e1) n).card)).sum)
      ≤ (N1.map (fun n => (f e1 \ f n).card)).sum := by
    apply List.sum_le_sum
    intro n _
    apply Finset.card_le_card
    rw [update_union_e1]
    exact Finset.sdiff_subset_sdiff subset_rfl (update_union_superset f e e1 n)
  have hN2 : ((N2.map (fun n => (Function.update f e (f e ∪ f e1) e1
      \ Function.update f e (f e ∪ f e1) n).card)).sum)
      ≤ (N2.map (fun n => (f e1 \ f n).card)).sum := by
    apply List.sum_le_sum
    intro n _
    apply Finset.card_le_card
    rw [update_union_e1]
    exact Finset.sdiff_subset_sdiff subset_rfl (update_union_superset f e e1 n)
  omega

/-- Stability of a fold of equal-step functions along decreasing potential. -/
theorem fold_stable (graph : List AffectionEdge) (e1 : ℕ) (N : List ℕ) (a b P2 : ℕ)
    (hstab : ∀ (f : ℕ → Finset ℕ) (e : ℕ), potOver N f e1 ≤ P2 → e ∈ N →
      propagateFuel graph e1 a f e = propagateFuel graph e1 b f e) :
    ∀ (ts : List ℕ), (∀ t ∈ ts, t ∈ N) →
      ∀ (f : ℕ → Finset ℕ), potOver N f e1 ≤ P2 →
      ts.foldl (propagateFuel graph e1 a) f = ts.foldl (propagateFuel graph e1 b) f := by
  intro ts
  induction ts with
  | nil => intro _ f _; rfl
  | cons t rest ih =>
    intro hts f hf
    rw [List.foldl_cons, List.foldl_cons]
    have h1 : propagateFuel graph e1 a f t = propagateFuel graph e1 b f t :=
      hstab f t hf (hts t (by simp))
    rw [← h1]
    exact ih (fun x hx => hts x (by simp [hx]))
      (propagateFuel graph e1 a f t)
      ((propagateFuel_pot_le graph e1 N a f t).trans hf)

/-- Core stabilization: with fuel exceeding the potential, the flood's result no
longer depends on the fuel. -/
theorem propagateFuel_stable (graph : List AffectionEdge) (e1 : ℕ) (N : List ℕ)
    (hclosed : ∀ ed ∈ graph, ed.toId ∈ N) :
    ∀ (P : ℕ) (f : ℕ → Finset ℕ), potOver N f e1 ≤ P →
      ∀ (e : ℕ), e ∈ N → ∀ (n1 n2 : ℕ), P < n1 → P < n2 →
      propagateFuel graph e1 n1 f e = propagateFuel graph e1 n2 f e := by
  intro P
  induction P using Nat.strong_induction_on with
  | _ P ihP =>
  intro f hf e he n1 n2 h1 h2
  obtain ⟨a, rfl⟩ : ∃ a, n1 = a + 1 := ⟨n1 - 1, by omega⟩
  obtain ⟨b, rfl⟩ : ∃ b, n2 = b + 1 := ⟨n2 - 1, by omega⟩
  show propagateFuel graph e1 (a + 1) f e = propagateFuel graph e1 (b + 1) f e
  unfold propagateFuel
  dsimp only
  by_cases hkeep : ¬ f e1 ⊆ f e
  · rw [if_pos hkeep, if_pos hkeep]
    have hpot : potOver N (Function.update f e (f e ∪ f e1)) e1 + 1 ≤ potOver N f e1 :=
      potOver_update_lt N f e e1 he hkeep
    have hPpos : 1 ≤ P := by omega
    apply fold_stable graph e1 N a b (P - 1)
    · intro f2 e2 hf2 he2
      exact ihP (P - 1) (by omega) f2 hf2 e2 he2 a b (by omega) (by omega)
    · intro x hx
      obtain ⟨ed, hed, rfl⟩ := List.mem_map.mp hx
      exact hclosed ed (List.mem_of_mem_filter hed)
    · omega
  · rw [if_neg hkeep, if_neg hkeep]

/-- Stabilization of the flood from `e2`, phrased against `propagationPotential`. -/
theorem propagate_stable_of_potential (graph : List AffectionEdge) (e1 e2 : ℕ)
    (f : ℕ → Finset ℕ) (n1 n2 : ℕ)
    (h1 : propagationPotential graph f e1 e2 < n1)
    (h2 : propagationPotential graph f e1 e2 < n2) :
    propagateFuel graph e1 n1 f e2 = propagateFuel graph e1 n2 f e2 := by
  apply propagateFuel_stable graph e1 (propagationNodes graph e2)
    (fun ed hed => by
      unfold propagationNodes
      exact List.mem_cons_of_mem _ (List.mem_map_of_mem _ hed))
    (propagationPotential graph f e1 e2) f
    (le_of_eq (propagationPotential_eq graph f e1 e2).symm) e2
    (by unfold propagationNodes; exact List.mem_cons_self _ _)
    n1 n2 h1 h2

/-- C8: `recordEntityInteraction(e1, e2)` terminates on every finite affection graph,
cyclic ones included — the flood recurses from a node only when the visit added a new
contributing player, so it reaches a fixed point: beyond the explicit potential bound
`recordBound`, the amount of fuel no longer changes the resulting state. -/
theorem C8_recordEntityInteraction_fixed_point (s : GameState) (e1 e2 : ℕ)
    (n1 n2 : ℕ) (h1 : s.recordBound e1 e2 ≤ n1) (h2 : s.recordBound e1 e2 ≤ n2) :
    s.recordEntityInteractionFuel e1 e2 n1 = s.recordEntityInteractionFuel e1 e2 n2 := by
  unfold GameState.recordEntityInteractionFuel
  dsimp only
  congr 1
  exact propagate_stable_of_potential
    (s.affectionGraph ++ [⟨s.nextAffectionEdgeId, e1, e2, s.frame⟩]) e1 e2
    s.affectedBy n1 n2
    (by unfold GameState.recordBound at h1; omega)
    (by unfold GameState.recordBound at h2; omega)

/-- A state with a cyclic affection graph (1 → 2 → 1) for the C8 witness; entity 1
is attributed to player 7. -/
def c8State : GameState :=
  { GameState.init [] with
    affectionGraph := [⟨0, 1, 2, 0⟩, ⟨1, 2, 1, 0⟩],
    nextAffectionEdgeId := 2,
    affectedBy := fun n => if n = 1 then {7} else ∅ }

/-- Witness for C8 on the cyclic graph `c8State`. -/
theorem C8_witness :
    c8State.recordBound 1 2 ≤ 4 ∧ c8State.recordBound 1 2 ≤ 7 ∧
    c8State.recordEntityInteractionFuel 1 2 4
      = c8State.recordEntityInteractionFuel 1 2 7 :=
  ⟨by decide, by decide,
   C8_recordEntityInteraction_fixed_point c8State 1 2 4 7 (by decide) (by decide)⟩

/-! ## Sweep-and-prune broadphase (src/unnamed/part_003) -/

/-- `Vector3.getComponent(index)` (`Vec3` doubles as the three.js `Vector3`). -/
def Vec3.getComponent (v : Vec3) : ℕ → ℚ
  | 0 => v.x
  | 1 => v.y
  | _ => v.z

/-- A three.js `Box3`: min and max corner. -/
structure Box3 where
  min : Vec3
  max : Vec3
deriving DecidableEq, Repr

/-- A `BroadphaseObject` (the world interface the broadphase consumes): bounding box,
collision mask, dynamic flag; `id` stands for JS reference identity. -/
structure BroadphaseObject where
  id : ℕ
  boundingBox : Box3
  collisionDetectionMask : ℕ
  dynamic : Bool
deriving DecidableEq, Repr

/-- An `ObjectProxy` (part_003:39-48).  The `object` back-reference is kept as
`objectId`; the per-object `intersections` array is dead code in the source (used
only by the commented-out `getIntersections`) and is omitted. -/
structure ObjectProxy where
  objectIndex : ℕ
  objectId : ℕ
  min : Bool
  value : ℚ
  index : ℤ
  mask : ℕ
  dynamic : Bool
deriving DecidableEq, Repr

/-- Placeholder for out-of-range list reads; the loops below keep indices in bounds
wherever the source does. -/
def dummyProxy : ObjectProxy :=
  { objectIndex := 0, objectId := 0, min := true, value := 0, index := -1,
    mask := 0, dynamic := false }

/-- The `SweepAndPruneBroadphase` state (part_003:50-59).
`objectToProxies` keeps the inserted object ids in insertion order (the WeakMap
keys; an object's proxies live in `lists` and are found by their `objectIndex`,
which equals the id's position here — meaningful when each object is inserted once).
`flags` is the `Uint8Array` as a byte list.  `intersections` is the flat array the
source pushes object pairs onto two elements at a time and splices two at a time,
modelled as a list of id pairs. -/
structure SweepAndPruneBroadphase where
  lists : List (List ObjectProxy)
  objectToProxies : List ℕ
  objectCount : ℕ
  flags : List ℕ
  anyFlagSet : Bool
  needsSort : Bool
  sortStarts : List (WithTop ℤ)
  sortEnds : List (WithBot ℤ)
  intersections : List (ℕ × ℕ)
deriving DecidableEq

/-- Read `flags[i]`: negative or past-the-end indices give `undefined`, which every
use site coerces to 0. -/
def flagsRead (flags : List ℕ) (i : ℤ) : ℕ :=
  if 0 ≤ i then flags.getD i.toNat 0 else 0

/-- Write `flags[i] = v`: typed arrays drop out-of-range writes and store mod 256. -/
def flagsWrite (flags : List ℕ) (i : ℤ) (v : ℕ) : List ℕ :=
  if 0 ≤ i then flags.set i.toNat (v % 256) else flags

/-- `insert(object)` (part_003:61-114): allocate the 6 proxies, append min then max
to each per-axis list recording their indices, reallocate the triangular flag array
(running the migration loop verbatim only when a flag is set), and mark a full
re-sort with windows covering the whole lists. -/
def SweepAndPruneBroadphase.insert (s : SweepAndPruneBroadphase)
    (object : BroadphaseObject) : SweepAndPruneBroadphase :=
  let objectCount := s.objectCount + 1
  let objectIndex := objectCount - 1
  let mkProxy : Bool → ℕ → ObjectProxy := fun mn dim =>
    { objectIndex := objectIndex, objectId := object.id, min := mn,
      value := (if mn then object.boundingBox.min else object.boundingBox.max).getComponent dim,
      index := -1, mask := object.collisionDetectionMask, dynamic := object.dynamic }
  -- for (i = 0; i < 6; i++) { lists[i % 3].push(proxy); proxy.index = length - 1 }
  let pushPair : List ObjectProxy → ℕ → List ObjectProxy := fun l dim =>
    let l := l ++ [{ mkProxy true dim with index := (l.length : ℤ) }]
    l ++ [{ mkProxy false dim with index := (l.length : ℤ) }]
  let lists := ((s.lists.set 0 (pushPair (s.lists.getD 0 []) 0)).set 1
      (pushPair (s.lists.getD 1 []) 1)).set 2 (pushPair (s.lists.getD 2 []) 2)
  let oldFlags := s.flags
  let n := objectCount - 1
  let newFlags0 := List.replicate ((n * n + n) / 2) 0
  let flags :=
    if s.anyFlagSet then
      (List.range (objectCount - 1)).foldl (fun facc o1 =>
        (List.range' (o1 + 1) (objectCount - 2 - (o1 + 1))).foldl (fun facc2 o2 =>
          let oldN : ℤ := (n : ℤ) - 1
          let oldIndex := (oldN * (oldN - 1)) / 2
            - ((oldN - (o2 : ℤ)) * ((oldN - (o2 : ℤ)) - 1)) / 2 + (o1 : ℤ) - (o2 : ℤ) - 1
          let newIndex := ((n : ℤ) * ((n : ℤ) - 1)) / 2
            - (((n : ℤ) - (o2 : ℤ)) * (((n : ℤ) - (o2 : ℤ)) - 1)) / 2
            + (o1 : ℤ) - (o2 : ℤ) - 1
          flagsWrite facc2 newIndex (flagsRead oldFlags oldIndex)) facc) newFlags0
    else newFlags0
  { s with
    objectCount := objectCount,
    objectToProxies := s.objectToProxies ++ [object.id],
    lists := lists,
    flags := flags,
    needsSort := true,
    sortStarts := [((0 : ℤ) : WithTop ℤ), ((0 : ℤ) : WithTop ℤ), ((0 : ℤ) : WithTop ℤ)],
    sortEnds :=
      [((((lists.getD 0 []).length : ℤ) - 1 : ℤ) : WithBot ℤ),
       ((((lists.getD 0 []).length : ℤ) - 1 : ℤ) : WithBot ℤ),
       ((((lists.getD 0 []).length : ℤ) - 1 : ℤ) : WithBot ℤ)] }

/-- Remove the first stored occurrence of an object pair from the flat intersections
array (the splice scan of part_003:163-168). -/
def removeFirstPair : List (ℕ × ℕ) → ℕ × ℕ → List (ℕ × ℕ)
  | [], _ => []
  | p :: rest, q => if p = q then rest else p :: removeFirstPair rest q

/-- The flag-toggling side effect of one adjacent swap (part_003:140-180), given the
swapped proxies `a0 = list[j-1]`, `b0 = list[j]` (post-swap).  The pair is
canonicalized so `a` carries the larger `objectIndex`.  `flags & ~(1 << dim)` equals
`flags &&& (255 ^^^ (1 <<< dim))` for the sub-256 values a `Uint8Array` stores. -/
def applyToggle (dim : ℕ) (a0 b0 : ObjectProxy) (s : SweepAndPruneBroadphase) :
    SweepAndPruneBroadphase :=
  let ab := if b0.objectIndex > a0.objectIndex then (b0, a0) else (a0, b0)
  let a := ab.1
  let b := ab.2
  let i1 : ℤ := (a.objectIndex : ℤ)
  let i2 : ℤ := (b.objectIndex : ℤ)
  let n : ℤ := (s.objectCount : ℤ)
  let flagIndex := n * (n - 1) / 2 - (n - i2) * (n - i2 - 1) / 2 + i1 - i2 - 1
  let flags := flagsRead s.flags flagIndex
  let s :=
    if flags &&& (1 <<< dim) ≠ 0 then
      let needsDelete := flags = 7
      let flags2 := flags &&& (255 ^^^ (1 <<< dim))
      let s := { s with flags := flagsWrite s.flags flagIndex flags2 }
      if needsDelete then
        { s with intersections := removeFirstPair s.intersections (a.objectId, b.objectId) }
      else s
    else
      let flags2 := flags ||| (1 <<< dim)
      let s := { s with flags := flagsWrite s.flags flagIndex flags2 }
      if flags2 = 7 then
        { s with intersections := s.intersections ++ [(a.objectId, b.objectId)] }
      else s
  { s with anyFlagSet := true }

/-- The inner `while (j > start && list[j-1].value > list[j].value)` loop of `sort`
(part_003:127-181): swap the adjacent proxies, refresh their `index` fields, apply
the toggle when the swap crosses a min and a max proxy of two maskable objects, and
continue at `j - 1`; the guard fails at `j = 0`. -/
def sortInner (dim : ℕ) (start : ℕ) :
    ℕ → SweepAndPruneBroadphase → SweepAndPruneBroadphase
  | 0, s => s
  | j + 1, s =>
    let list := s.lists.getD dim []
    if start < j + 1 ∧
        (list.getD j dummyProxy).value > (list.getD (j + 1) dummyProxy).value then
      let temp := list.getD j dummyProxy
      let list2 := (list.set j (list.getD (j + 1) dummyProxy)).set (j + 1) temp
      let a0 := { list2.getD j dummyProxy with index := (j : ℤ) }
      let b0 := { list2.getD (j + 1) dummyProxy with index := (j : ℤ) + 1 }
      let list3 := (list2.set j a0).set (j + 1) b0
      let s := { s with lists := s.lists.set dim list3 }
      let toggle := a0.objectId ≠ b0.objectId ∧ a0.min ≠ b0.min ∧
        (a0.mask &&& b0.mask) ≠ 0 ∧ (a0.dynamic || b0.dynamic)
      let s := if toggle then applyToggle dim a0 b0 s else s
      sortInner dim start j s
    else s

/-- `sort(dimension)` (part_003:116-186): reset every sort window to the whole list
(lines 117-118), read `start`/`end` back from the just-assigned windows (0 and
`lists[0].length - 1`), run the insertion-sort pass over `[start, end]`, then park
this dimension's window at `Infinity`/`-Infinity`. -/
def SweepAndPruneBroadphase.sort (s : SweepAndPruneBroadphase) (dim : ℕ) :
    SweepAndPruneBroadphase :=
  let e : WithBot ℤ := ((((s.lists.getD 0 []).length : ℤ) - 1 : ℤ) : WithBot ℤ)
  let s := { s with
    sortStarts := [((0 : ℤ) : WithTop ℤ), ((0 : ℤ) : WithTop ℤ), ((0 : ℤ) : WithTop ℤ)],
    sortEnds := [e, e, e] }
  let start : ℕ := 0
  let endN : ℕ := (s.lists.getD 0 []).length - 1
  -- for (let i = start + 1; i <= end; i++) { inner while starting at j = i }
  let s := (List.range' (start + 1) (endN - start)).foldl
    (fun acc i => sortInner dim start i acc) s
  { s with
    sortStarts := s.sortStarts.set dim ⊤,
    sortEnds := s.sortEnds.set dim ⊥ }

/-- `Math.min(sortStarts[dim], idx)` where the stored window may be `Infinity`. -/
def jsMinT (w : WithTop ℤ) (x : ℤ) : ℤ := min (WithTop.untop' x w) x

/-- `Math.max(sortEnds[dim], idx)` where the stored window may be `-Infinity`. -/
def jsMaxB (w : WithBot ℤ) (x : ℤ) : ℤ := max (WithBot.unbot' x w) x

/-- `while (start > 0 && list[start - 1].value > minProxy.value) start--;`
(part_003:205), peeled into a structural descent from `start.toNat`. -/
def expandStartGo (list : List ObjectProxy) (minVal : ℚ) : ℕ → ℕ
  | 0 => 0
  | k + 1 =>
    if (list.getD k dummyProxy).value > minVal then expandStartGo list minVal k
    else k + 1

/-- The `start` expansion loop; non-positive starts fail the guard at once. -/
def expandStart (list : List ObjectProxy) (minVal : ℚ) (start : ℤ) : ℤ :=
  if start ≤ 0 then start else (expandStartGo list minVal start.toNat : ℤ)

/-- `while (end < list.length - 2 && list[end + 1].value < maxProxy.value) end++;`
(part_003:206); the fuel `(list.length - 2 - end).toNat` is exactly the number of
steps the first conjunct of the guard can still allow. -/
def expandEndGo (list : List ObjectProxy) (maxVal : ℚ) : ℕ → ℤ → ℤ
  | 0, endI => endI
  | k + 1, endI =>
    if endI < (list.length : ℤ) - 2 ∧
        (list.getD (endI + 1).toNat dummyProxy).value < maxVal then
      expandEndGo list maxVal k (endI + 1)
    else endI

/-- The `end` expansion loop of `update`. -/
def expandEnd (list : List ObjectProxy) (maxVal : ℚ) (endI : ℤ) : ℤ :=
  expandEndGo list maxVal (((list.length : ℤ) - 2 - endI).toNat) endI

/-- One dimension of `update(object)` (part_003:195-210): write the object's new
interval endpoints into its two proxies, then widen this dimension's dirty window to
cover the proxies' stored indices and the new values' sorted destinations.  The
object's two proxies in this list are located by `objectIndex` (unique per inserted
object). -/
def updateDim (oIdx : ℕ) (box : Box3) (dim : ℕ) (s : SweepAndPruneBroadphase) :
    SweepAndPruneBroadphase :=
  let list := (s.lists.getD dim []).map (fun p =>
    if p.objectIndex = oIdx then
      { p with value := (if p.min then box.min else box.max).getComponent dim }
    else p)
  let minProxy := (list.find? (fun p => p.objectIndex == oIdx && p.min)).getD dummyProxy
  let maxProxy := (list.find? (fun p => p.objectIndex == oIdx && !p.min)).getD dummyProxy
  let start := jsMinT (s.sortStarts.getD dim ⊤) minProxy.index
  let endI := jsMaxB (s.sortEnds.getD dim ⊥) maxProxy.index
  let start := expandStart list minProxy.value start
  let endI := expandEnd list maxProxy.value endI
  { s with
    lists := s.lists.set dim list,
    sortStarts := s.sortStarts.set dim ((start : ℤ) : WithTop ℤ),
    sortEnds := s.sortEnds.set dim ((endI : ℤ) : WithBot ℤ) }

/-- `update(object)` (part_003:188-213): transparently insert unknown objects,
otherwise refresh the three per-axis proxy values and windows and mark a re-sort. -/
def SweepAndPruneBroadphase.update (s : SweepAndPruneBroadphase)
    (object : BroadphaseObject) : SweepAndPruneBroadphase :=
  match s.objectToProxies.findIdx? (fun x => x == object.id) with
  | none => s.insert object
  | some oIdx =>
    let s := updateDim oIdx object.boundingBox 0 s
    let s := updateDim oIdx object.boundingBox 1 s
    let s := updateDim oIdx object.boundingBox 2 s
    { s with needsSort := true }

/-- `recompute()` (part_003:215-222). -/
def SweepAndPruneBroadphase.recompute (s : SweepAndPruneBroadphase) :
    SweepAndPruneBroadphase :=
  if s.needsSort then
    let s := ((s.sort 0).sort 1).sort 2
    { s with needsSort := false }
  else s

/-- A freshly constructed broadphase (part_003:51-59). -/
def SweepAndPruneBroadphase.init : SweepAndPruneBroadphase :=
  { lists := [[], [], []], objectToProxies := [], objectCount := 0,
    flags := [], anyFlagSet := false, needsSort := false,
    sortStarts := [⊤, ⊤, ⊤], sortEnds := [⊥, ⊥, ⊥], intersections := [] }

set_option maxRecDepth 100000

/-- Insert a batch of objects (level load). -/
def runInserts (s : SweepAndPruneBroadphase) (objs : List BroadphaseObject) :
    SweepAndPruneBroadphase :=
  objs.foldl SweepAndPruneBroadphase.insert s

/-- Apply a batch of `update` calls; each entry is the (mutated) object passed to
`update`, carrying its current bounding box. -/
def runUpdates (s : SweepAndPruneBroadphase) (ups : List BroadphaseObject) :
    SweepAndPruneBroadphase :=
  ups.foldl SweepAndPruneBroadphase.update s

/-- The scenario of claim C1: a fresh broadphase, a sequence of inserts, then a
sequence of updates, then one `recompute()`. -/
def runScenario (objs ups : List BroadphaseObject) : SweepAndPruneBroadphase :=
  (runUpdates (runInserts SweepAndPruneBroadphase.init objs) ups).recompute

/-- Box `[0,1]³`, id 10. -/
def c1A : BroadphaseObject := ⟨10, ⟨⟨0, 0, 0⟩, ⟨1, 1, 1⟩⟩, 1, true⟩

/-- Box `[1,2]³` touching `c1A`, id 20. -/
def c1B : BroadphaseObject := ⟨20, ⟨⟨1, 1, 1⟩, ⟨2, 2, 2⟩⟩, 1, true⟩

/-- C1 counterexample: the boxes `[0,1]³` and `[1,2]³` (identical masks, both
dynamic) produce an empty intersection list when inserted as A, B but report the
pair when inserted as B, A.  The reported set therefore depends on insertion order,
while any brute-force all-pairs overlap test is a function of the box set alone — so
the claimed equality fails for at least one of the two runs, whichever convention
("touching counts" or strict overlap) the brute force uses. -/
theorem C1_counterexample_order_dependence :
    (runScenario [c1A, c1B] []).intersections = [] ∧
    (runScenario [c1B, c1A] []).intersections = [(10, 20)] := by
  constructor <;> decide

/-- The moved copy of `c1A`: box `[4,5]³`, beyond `c6B`. -/
def c6A2 : BroadphaseObject := ⟨10, ⟨⟨4, 4, 4⟩, ⟨5, 5, 5⟩⟩, 1, true⟩

/-- Box `[2,3]³`, id 20, for the C6 scenario. -/
def c6B : BroadphaseObject := ⟨20, ⟨⟨2, 2, 2⟩, ⟨3, 3, 3⟩⟩, 1, true⟩

/-- Insert `[0,1]³` and `[2,3]³`, recompute (leaving axis 2's window parked at
`Infinity`/`-Infinity`), then move the first box to `[4,5]³`. -/
def c6State : SweepAndPruneBroadphase :=
  (((SweepAndPruneBroadphase.init.insert c1A).insert c6B).recompute).update c6A2

/-- C6 counterexample: after `c6State`'s update, axis 2's accumulated dirty window is
`[0, 2]` (the `end < list.length - 2` guard stops the expansion before the last
slot), yet `sort(2)` re-sorts the whole list: the proxy stored at position 3 —
outside the window — changes.  So `sort` neither restricts its pass to the
accumulated window (it resets the window to the full range at entry, part_003:117-118)
nor leaves the order outside that window untouched. -/
theorem C6_counterexample_window_ignored :
    c6State.sortStarts.getD 2 ⊤ = ((0 : ℤ) : WithTop ℤ) ∧
    c6State.sortEnds.getD 2 ⊥ = ((2 : ℤ) : WithBot ℤ) ∧
    ((c6State.sort 2).lists.getD 2 []).getD 3 dummyProxy
      ≠ ((c6State.lists.getD 2 []).getD 3 dummyProxy) := by
  refine ⟨by decide, by decide, by decide⟩

/-! ## Triangular flag-index arithmetic -/

/-- `k * (k - 1) / 2` over `ℤ` (the triangular-number prefix the sort uses). -/
def triZ (k : ℤ) : ℤ := k * (k - 1) / 2

theorem triZ_succ (k : ℤ) : triZ (k + 1) = triZ k + k := by
  unfold triZ
  have h : (k + 1) * (k + 1 - 1) = k * (k - 1) + k * 2 := by ring
  rw [h, Int.add_mul_ediv_right _ _ (by norm_num)]

/-- The flag slot used for the pair `(i1, i2)` with `i2 < i1 < n`
(part_003:153). -/
def flagIndexZ (n i1 i2 : ℤ) : ℤ :=
  n * (n - 1) / 2 - (n - i2) * (n - i2 - 1) / 2 + i1 - i2 - 1

theorem flagIndexZ_eq (n i1 i2 : ℤ) :
    flagIndexZ n i1 i2 = triZ n - triZ (n - i2) + i1 - i2 - 1 := by
  unfold flagIndexZ triZ
  ring_nf

/-- `triZ n - triZ (n - k)`: the base offset of row `k`. -/
def triBase (n k : ℤ) : ℤ := triZ n - triZ (n - k)

theorem triBase_zero (n : ℤ) : triBase n 0 = 0 := by
  unfold triBase
  simp

theorem triBase_succ (n k : ℤ) : triBase n (k + 1) = triBase n k + (n - k - 1) := by
  unfold triBase
  have h : n - k = (n - k - 1) + 1 := by ring
  rw [h, triZ_succ]
  ring

theorem triBase_mono (n : ℤ) : ∀ (c : ℕ) (a : ℤ), 0 ≤ a → a + c ≤ n →
    triBase n a ≤ triBase n (a + c) := by
  intro c
  induction c with
  | zero => intro a _ _; simp
  | succ m ih =>
    intro a ha hc
    push_cast at hc
    have h1 : triBase n a ≤ triBase n (a + m) := ih a ha (by omega)
    have h2 : triBase n (a + m + 1) = triBase n (a + m) + (n - (a + m) - 1) :=
      triBase_succ n (a + m)
    have h3 : a + ((m + 1 : ℕ) : ℤ) = a + m + 1 := by push_cast; ring
    rw [h3, h2]
    omega

theorem triBase_nonneg (n a : ℤ) (ha : 0 ≤ a) (han : a ≤ n) : 0 ≤ triBase n a := by
  have h0 : triBase n 0 ≤ triBase n (0 + a.toNat) := by
    apply triBase_mono n a.toNat 0 le_rfl
    omega
  rw [triBase_zero] at h0
  have : ((a.toNat : ℤ)) = a := by omega
  rw [this] at h0
  simpa using h0

/-- The flag slot of a valid pair sits between its row's base and the next row's. -/
theorem flagIndexZ_bracket (n i1 i2 : ℤ) (h2 : 0 ≤ i2) (h12 : i2 < i1) (h1 : i1 < n) :
    triBase n i2 ≤ flagIndexZ n i1 i2 ∧ flagIndexZ n i1 i2 < triBase n (i2 + 1) := by
  rw [flagIndexZ_eq]
  have hb : triZ n - triZ (n - i2) = triBase n i2 := rfl
  constructor
  · omega
  · rw [triBase_succ]
    omega

theorem flagIndexZ_nonneg (n i1 i2 : ℤ) (h2 : 0 ≤ i2) (h12 : i2 < i1) (h1 : i1 < n) :
    0 ≤ flagIndexZ n i1 i2 :=
  le_trans (triBase_nonneg n i2 h2 (by omega)) (flagIndexZ_bracket n i1 i2 h2 h12 h1).1

theorem flagIndexZ_lt (n i1 i2 : ℤ) (h2 : 0 ≤ i2) (h12 : i2 < i1) (h1 : i1 < n) :
    flagIndexZ n i1 i2 < triZ n := by
  have hbr := (flagIndexZ_bracket n i1 i2 h2 h12 h1).2
  have hle : triBase n (i2 + 1) ≤ triBase n ((i2 + 1) + (n - (i2 + 1)).toNat) := by
    apply triBase_mono n _ (i2 + 1) (by omega)
    omega
  have hni : (i2 + 1) + ((n - (i2 + 1)).toNat : ℤ) = n := by omega
  rw [hni] at hle
  have hn : triBase n n = triZ n := by
    unfold triBase triZ
    simp
  omega

/-- Distinct valid pairs use distinct flag slots. -/
theorem flagIndexZ_inj (n i1 i2 j1 j2 : ℤ)
    (hi2 : 0 ≤ i2) (hi12 : i2 < i1) (hi1 : i1 < n)
    (hj2 : 0 ≤ j2) (hj12 : j2 < j1) (hj1 : j1 < n)
    (heq : flagIndexZ n i1 i2 = flagIndexZ n j1 j2) : i1 = j1 ∧ i2 = j2 := by
  have hrow : i2 = j2 := by
    by_contra hne
    rcases lt_or_gt_of_ne hne with hlt | hgt
    · have b1 := (flagIndexZ_bracket n i1 i2 hi2 hi12 hi1).2
      have b2 := (flagIndexZ_bracket n j1 j2 hj2 hj12 hj1).1
      have hle : triBase n (i2 + 1) ≤ triBase n ((i2 + 1) + (j2 - (i2 + 1)).toNat) := by
        apply triBase_mono n _ (i2 + 1) (by omega)
        omega
      have hj : (i2 + 1) + ((j2 - (i2 + 1)).toNat : ℤ) = j2 := by omega
      rw [hj] at hle
      omega
    · have b1 := (flagIndexZ_bracket n j1 j2 hj2 hj12 hj1).2
      have b2 := (flagIndexZ_bracket n i1 i2 hi2 hi12 hi1).1
      have hle : triBase n (j2 + 1) ≤ triBase n ((j2 + 1) + (i2 - (j2 + 1)).toNat) := by
        apply triBase_mono n _ (j2 + 1) (by omega)
        omega
      have hi : (j2 + 1) + ((i2 - (j2 + 1)).toNat : ℤ) = i2 := by omega
      rw [hi] at hle
      omega
  subst hrow
  rw [flagIndexZ_eq, flagIndexZ_eq] at heq
  omega

/-- The byte-array length `(n² + n)/2` allocated for `n + 1` objects, as `triZ`. -/
theorem flagsLen_as_triZ (N : ℕ) (hN : 1 ≤ N) :
    (((N - 1) * (N - 1) + (N - 1)) / 2 : ℕ) = (triZ (N : ℤ)).toNat := by
  obtain ⟨m, rfl⟩ : ∃ m, N = m + 1 := ⟨N - 1, by omega⟩
  obtain ⟨c, hc⟩ : Even (m * (m + 1)) := Nat.even_mul_succ_self m
  unfold triZ
  have h1 : ((m + 1 : ℕ) : ℤ) * ((m + 1 : ℕ) - 1) = ((c : ℤ) + c) := by
    push_cast
    have : (m : ℤ) * (m + 1) = ((m * (m + 1) : ℕ) : ℤ) := by push_cast; ring
    nlinarith [this, hc, (by push_cast [hc]; ring : ((m * (m + 1) : ℕ) : ℤ) = (c : ℤ) + c)]
  rw [h1]
  have h2 : ((c : ℤ) + c) / 2 = (c : ℤ) := by omega
  rw [h2]
  have h3 : (m + 1 - 1) * (m + 1 - 1) + (m + 1 - 1) = m * (m + 1) := by
    simp only [Nat.add_sub_cancel]
    ring
  rw [h3, hc]
  omega

/-! ## Bit-level facts for the 3-bit pair flags -/

theorem bitand_pow_ne (fl d : ℕ) (h8 : fl < 8) (h3 : d < 3) :
    (fl &&& (1 <<< d) ≠ 0) ↔ fl.testBit d = true := by
  interval_cases fl <;> interval_cases d <;> decide

theorem clearBit_lt (fl d : ℕ) (h8 : fl < 8) (h3 : d < 3) :
    fl &&& (255 ^^^ (1 <<< d)) < 8 := by
  interval_cases fl <;> interval_cases d <;> decide

theorem clearBit_testBit (fl d d2 : ℕ) (h8 : fl < 8) (h3 : d < 3) (h32 : d2 < 3) :
    (fl &&& (255 ^^^ (1 <<< d))).testBit d2
      = (decide (d2 ≠ d) && fl.testBit d2) := by
  interval_cases fl <;> interval_cases d <;> interval_cases d2 <;> decide

theorem setBit_lt (fl d : ℕ) (h8 : fl < 8) (h3 : d < 3) :
    fl ||| (1 <<< d) < 8 := by
  interval_cases fl <;> interval_cases d <;> decide

theorem setBit_testBit (fl d d2 : ℕ) (h8 : fl < 8) (h3 : d < 3) (h32 : d2 < 3) :
    (fl ||| (1 <<< d)).testBit d2 = (decide (d2 = d) || fl.testBit d2) := by
  interval_cases fl <;> interval_cases d <;> interval_cases d2 <;> decide

theorem eq_seven_iff (fl : ℕ) (h8 : fl < 8) :
    fl = 7 ↔ (fl.testBit 0 = true ∧ fl.testBit 1 = true ∧ fl.testBit 2 = true) := by
  interval_cases fl <;> decide

/-! ## Positional role bookkeeping for the proxy lists -/

/-- Position `k` of list `L` holds the `(o, m)` proxy (min proxy when `m`). -/
def roleAt (L : List ObjectProxy) (o : ℕ) (m : Bool) (k : ℕ) : Prop :=
  k < L.length ∧ (L.getD k dummyProxy).objectIndex = o ∧
    (L.getD k dummyProxy).min = m

/-- The default object for out-of-range object lookups. -/
def dummyObject : BroadphaseObject := ⟨0, ⟨⟨0, 0, 0⟩, ⟨0, 0, 0⟩⟩, 0, false⟩

/-- The `i`-th inserted object. -/
def objAt (objs : List BroadphaseObject) (i : ℕ) : BroadphaseObject :=
  objs.getD i dummyObject

/-- Sweep-and-prune's per-pair order parity on one axis: of the four endpoint proxies
of the pair `{i1, i2}`, either both "interval overlap in list order" comparisons hold
or neither does (`ordP` false), or exactly one does (`ordP` true).  A freshly inserted
pair starts with `ordP` true, and each relevant adjacent swap flips it. -/
def ordP (L : List ObjectProxy) (i1 i2 : ℕ) : Prop :=
  ∀ p1 q2 p2 q1 : ℕ, roleAt L i1 true p1 → roleAt L i2 false q2 →
    roleAt L i2 true p2 → roleAt L i1 false q1 → Xor' (p1 < q2) (p2 < q1)

/-- Well-formedness of one per-axis proxy list with respect to the inserted objects
and a value assignment `V (objectIndex) (isMin)`: right length, every slot holds a
proxy of a valid object carrying that object's insert-time id/mask/dynamic flag and
the assigned value, each (object, min) role occupies exactly one slot. -/
def listWF (objs : List BroadphaseObject) (V : ℕ → Bool → ℚ)
    (L : List ObjectProxy) : Prop :=
  L.length = 2 * objs.length ∧
  (∀ k, k < L.length →
    (L.getD k dummyProxy).objectIndex < objs.length ∧
    (L.getD k dummyProxy).objectId = (objAt objs (L.getD k dummyProxy).objectIndex).id ∧
    (L.getD k dummyProxy).mask
      = (objAt objs (L.getD k dummyProxy).objectIndex).collisionDetectionMask ∧
    (L.getD k dummyProxy).dynamic
      = (objAt objs (L.getD k dummyProxy).objectIndex).dynamic ∧
    (L.getD k dummyProxy).value
      = V (L.getD k dummyProxy).objectIndex (L.getD k dummyProxy).min) ∧
  (∀ k1 k2, k1 < L.length → k2 < L.length →
    (L.getD k1 dummyProxy).objectIndex = (L.getD k2 dummyProxy).objectIndex →
    (L.getD k1 dummyProxy).min = (L.getD k2 dummyProxy).min → k1 = k2) ∧
  (∀ o, o < objs.length → ∀ m : Bool, ∃ k, roleAt L o m k)

/-- The pair `{i1, i2}` passes the mask/dynamic gate of the toggle. -/
def maskOK (objs : List BroadphaseObject) (i1 i2 : ℕ) : Prop :=
  ((objAt objs i1).collisionDetectionMask
    &&& (objAt objs i2).collisionDetectionMask) ≠ 0 ∧
  ((objAt objs i1).dynamic || (objAt objs i2).dynamic) = true

/-- The sweep-and-prune state invariant relative to the inserted objects `objs`
(insert order fixes `objectIndex`) and the current per-axis endpoint values
`V (objectIndex) (isMin) (axis)`:
the three proxy lists are well-formed permutations of the objects' endpoints;
for every unordered pair of distinct objects the 3-bit flag stored in the
triangular array tracks the per-axis order parity `ordP` (bit set exactly when
parity is even) for maskable pairs and stays 0 for non-maskable ones; and the
flat intersections array holds exactly the pairs whose flags read 7, each once,
stored as (higher objectIndex id, lower objectIndex id). -/
structure SAPInv (objs : List BroadphaseObject) (V : ℕ → Bool → ℕ → ℚ)
    (s : SweepAndPruneBroadphase) : Prop where
  count : s.objectCount = objs.length
  listsLen : s.lists.length = 3
  ids : s.objectToProxies = objs.map BroadphaseObject.id
  idsNodup : (objs.map BroadphaseObject.id).Nodup
  flagsLen : s.flags.length = (triZ (objs.length : ℤ)).toNat
  flagsSmall : ∀ v ∈ s.flags, v < 8
  wf : ∀ d, d < 3 → listWF objs (fun o m => V o m d) (s.lists.getD d [])
  flagBits : ∀ i1 i2, i2 < i1 → i1 < objs.length →
    (maskOK objs i1 i2 →
      ∀ d, d < 3 →
        (ordP (s.lists.getD d []) i1 i2 ↔
          (flagsRead s.flags (flagIndexZ (objs.length : ℤ) i1 i2)).testBit d = false)) ∧
    (¬ maskOK objs i1 i2 →
      flagsRead s.flags (flagIndexZ (objs.length : ℤ) i1 i2) = 0)
  interNodup : s.intersections.Nodup
  interIff : ∀ pr : ℕ × ℕ, pr ∈ s.intersections ↔
    ∃ i1 i2, i2 < i1 ∧ i1 < objs.length ∧
      pr = ((objAt objs i1).id, (objAt objs i2).id) ∧
      flagsRead s.flags (flagIndexZ (objs.length : ℤ) i1 i2) = 7

/-! ## Reading and writing the flag byte array -/

theorem getD_set_self {α : Type} (l : List α) (i : ℕ) (a d : α) (h : i < l.length) :
    (l.set i a).getD i d = a := by
  simp [List.getD, List.getElem?_set_self, h]

theorem getD_set_ne {α : Type} (l : List α) (i j : ℕ) (a d : α) (h : i ≠ j) :
    (l.set i a).getD j d = l.getD j d := by
  simp [List.getD, List.getElem?_set_ne h]

theorem getD_mem {α : Type} (l : List α) (n : ℕ) (d : α) (h : n < l.length) :
    l.getD n d ∈ l := by
  rw [List.getD_eq_getElem l d h]
  exact l.getElem_mem h

theorem flagsRead_lt8 (flags : List ℕ) (hsmall : ∀ v ∈ flags, v < 8) (i : ℤ) :
    flagsRead flags i < 8 := by
  unfold flagsRead
  split
  · rcases Nat.lt_or_ge i.toNat flags.length with hlt | hge
    · exact hsmall _ (getD_mem _ _ _ hlt)
    · rw [List.getD_eq_default _ _ hge]; norm_num
  · norm_num

theorem flagsWrite_length (flags : List ℕ) (i : ℤ) (v : ℕ) :
    (flagsWrite flags i v).length = flags.length := by
  unfold flagsWrite
  split <;> simp

theorem flagsWrite_small (flags : List ℕ) (hsmall : ∀ w ∈ flags, w < 8) (i : ℤ)
    (v : ℕ) (hv : v < 8) : ∀ w ∈ flagsWrite flags i v, w < 8 := by
  unfold flagsWrite
  split
  · intro w hw
    rcases List.mem_or_eq_of_mem_set hw with h | h
    · exact hsmall w h
    · omega
  · exact hsmall

theorem flagsRead_write_self (flags : List ℕ) (i : ℤ) (v : ℕ)
    (h0 : 0 ≤ i) (hlen : i.toNat < flags.length) (hv : v < 256) :
    flagsRead (flagsWrite flags i v) i = v := by
  unfold flagsRead flagsWrite
  rw [if_pos h0, if_pos h0, getD_set_self _ _ _ _ hlen]
  omega

theorem flagsRead_write_ne (flags : List ℕ) (i j : ℤ) (v : ℕ) (hne : i ≠ j) :
    flagsRead (flagsWrite flags i v) j = flagsRead flags j := by
  unfold flagsRead flagsWrite
  by_cases h0i : 0 ≤ i
  · rw [if_pos h0i]
    by_cases h0j : 0 ≤ j
    · rw [if_pos h0j, if_pos h0j, getD_set_ne]
      omega
    · rw [if_neg h0j, if_neg h0j]
  · rw [if_neg h0i]

/-! ## The adjacent swap performed by the sort's inner loop -/

/-- The transposition of positions `j` and `j + 1`. -/
def swapPerm (j k : ℕ) : ℕ := if k = j then j + 1 else if k = j + 1 then j else k

theorem swapPerm_invol (j k : ℕ) : swapPerm j (swapPerm j k) = k := by
  unfold swapPerm
  split_ifs <;> omega

theorem swapPerm_lt (j k n : ℕ) (hj : j + 1 < n) (hk : k < n) : swapPerm j k < n := by
  unfold swapPerm
  split_ifs <;> omega

theorem swapPerm_lt_of_lt (j k n : ℕ) (hj : j + 1 < n) (hk : swapPerm j k < n) :
    k < n := by
  unfold swapPerm at hk
  split_ifs at hk <;> omega

theorem swapPerm_lt_iff (j a b : ℕ)
    (h : ¬((a = j ∧ b = j + 1) ∨ (a = j + 1 ∧ b = j))) :
    (swapPerm j a < swapPerm j b ↔ a < b) := by
  unfold swapPerm
  split_ifs <;> omega

/-- The list after the inner loop's swap of `j` and `j + 1`, including the `index`
field refresh. -/
def swapAdj (list : List ObjectProxy) (j : ℕ) : List ObjectProxy :=
  (list.set j { list.getD (j + 1) dummyProxy with index := (j : ℤ) }).set (j + 1)
    { list.getD j dummyProxy with index := (j : ℤ) + 1 }

theorem swapAdj_length (list : List ObjectProxy) (j : ℕ) :
    (swapAdj list j).length = list.length := by
  unfold swapAdj
  simp

theorem swapAdj_getD (list : List ObjectProxy) (j : ℕ) (hj : j + 1 < list.length)
    (k : ℕ) :
    (swapAdj list j).getD k dummyProxy =
      (if k = j then { list.getD (j + 1) dummyProxy with index := (j : ℤ) }
       else if k = j + 1 then { list.getD j dummyProxy with index := (j : ℤ) + 1 }
       else list.getD k dummyProxy) := by
  unfold swapAdj
  by_cases hkj : k = j
  · subst hkj
    rw [if_pos rfl, getD_set_ne _ _ _ _ _ (by omega),
      getD_set_self _ _ _ _ (by omega)]
  · rw [if_neg hkj]
    by_cases hkj1 : k = j + 1
    · subst hkj1
      rw [if_pos rfl, getD_set_self]
      simpa using hj
    · rw [if_neg hkj1, getD_set_ne _ _ _ _ _ (fun h => hkj1 h.symm),
        getD_set_ne _ _ _ _ _ (fun h => hkj h.symm)]

/-- The state transformation of one iteration of the inner loop's body (swap at
`(j, j+1)` plus the conditional toggle), extracted from `sortInner`. -/
def stepState (dim j : ℕ) (s : SweepAndPruneBroadphase) : SweepAndPruneBroadphase :=
  let list : List ObjectProxy := s.lists.getD dim []
  let a0 : ObjectProxy := { list.getD (j + 1) dummyProxy with index := (j : ℤ) }
  let b0 : ObjectProxy := { list.getD j dummyProxy with index := (j : ℤ) + 1 }
  let s2 : SweepAndPruneBroadphase :=
    { s with lists := s.lists.set dim (swapAdj list j) }
  if a0.objectId ≠ b0.objectId ∧ a0.min ≠ b0.min ∧
      (a0.mask &&& b0.mask) ≠ 0 ∧ (a0.dynamic || b0.dynamic) = true then
    applyToggle dim a0 b0 s2
  else s2

theorem sortInner_succ_eq (dim start j : ℕ) (s : SweepAndPruneBroadphase)
    (hj : j + 1 < (s.lists.getD dim []).length) :
    sortInner dim start (j + 1) s =
      if start < j + 1 ∧ ((s.lists.getD dim []).getD j dummyProxy).value >
          ((s.lists.getD dim []).getD (j + 1) dummyProxy).value then
        sortInner dim start j (stepState dim j s)
      else s := by
  rw [sortInner]
  dsimp only
  split
  · next hc =>
    have e1 : (((s.lists.getD dim []).set j
          ((s.lists.getD dim []).getD (j + 1) dummyProxy)).set (j + 1)
          ((s.lists.getD dim []).getD j dummyProxy)).getD j dummyProxy
        = (s.lists.getD dim []).getD (j + 1) dummyProxy := by
      rw [getD_set_ne _ _ _ _ _ (by omega), getD_set_self _ _ _ _ (by omega)]
    have e2 : (((s.lists.getD dim []).set j
          ((s.lists.getD dim []).getD (j + 1) dummyProxy)).set (j + 1)
          ((s.lists.getD dim []).getD j dummyProxy)).getD (j + 1) dummyProxy
        = (s.lists.getD dim []).getD j dummyProxy := by
      rw [getD_set_self]
      simpa using hj
    have e3 : ∀ (a0 b0 : ObjectProxy),
        ((((s.lists.getD dim []).set j
            ((s.lists.getD dim []).getD (j + 1) dummyProxy)).set (j + 1)
            ((s.lists.getD dim []).getD j dummyProxy)).set j a0).set (j + 1) b0
          = ((s.lists.getD dim []).set j a0).set (j + 1) b0 := by
      intro a0 b0
      rw [List.set_comm _ _ _ (by omega), List.set_set,
        List.set_comm _ _ _ (by omega), List.set_set]
    rw [e1, e2, e3]
    rfl
  · rfl

theorem roleAt_swapAdj (l : List ObjectProxy) (j : ℕ) (hj : j + 1 < l.length)
    (o : ℕ) (m : Bool) (k : ℕ) :
    roleAt (swapAdj l j) o m k ↔ roleAt l o m (swapPerm j k) := by
  unfold roleAt
  rw [swapAdj_length]
  by_cases hkj : k = j
  · rw [hkj, swapAdj_getD l j hj j, if_pos rfl]
    have hσ : swapPerm j j = j + 1 := by unfold swapPerm; simp
    rw [hσ]
    constructor
    · rintro ⟨hk, ho, hm⟩; exact ⟨hj, ho, hm⟩
    · rintro ⟨hk, ho, hm⟩; exact ⟨by omega, ho, hm⟩
  · by_cases hkj1 : k = j + 1
    · rw [hkj1, swapAdj_getD l j hj (j + 1), if_neg (by omega), if_pos rfl]
      have hσ : swapPerm j (j + 1) = j := by unfold swapPerm; simp
      rw [hσ]
      constructor
      · rintro ⟨hk, ho, hm⟩; exact ⟨by omega, ho, hm⟩
      · rintro ⟨hk, ho, hm⟩; exact ⟨by omega, ho, hm⟩
    · rw [swapAdj_getD l j hj k, if_neg hkj, if_neg hkj1]
      have hσ : swapPerm j k = k := by unfold swapPerm; rw [if_neg hkj, if_neg hkj1]
      rw [hσ]

theorem roleAt_unique (objs : List BroadphaseObject) (V : ℕ → Bool → ℚ)
    (l : List ObjectProxy) (hwf : listWF objs V l) (o : ℕ) (m : Bool) (k1 k2 : ℕ)
    (h1 : roleAt l o m k1) (h2 : roleAt l o m k2) : k1 = k2 :=
  hwf.2.2.1 k1 k2 h1.1 h2.1 (h1.2.1.trans h2.2.1.symm) (h1.2.2.trans h2.2.2.symm)

theorem listWF_swapAdj (objs : List BroadphaseObject) (V : ℕ → Bool → ℚ)
    (l : List ObjectProxy) (j : ℕ) (hj : j + 1 < l.length)
    (hwf : listWF objs V l) : listWF objs V (swapAdj l j) := by
  obtain ⟨hlen, hslots, hinj, hex⟩ := hwf
  refine ⟨by rw [swapAdj_length, hlen], ?_, ?_, ?_⟩
  · intro k hk
    rw [swapAdj_length] at hk
    rw [swapAdj_getD l j hj k]
    by_cases hkj : k = j
    · rw [if_pos hkj]
      exact hslots (j + 1) hj
    · rw [if_neg hkj]
      by_cases hkj1 : k = j + 1
      · rw [if_pos hkj1]
        exact hslots j (by omega)
      · rw [if_neg hkj1]
        exact hslots k hk
  · intro k1 k2 hk1 hk2 ho hm
    rw [swapAdj_length] at hk1 hk2
    have r1 : roleAt (swapAdj l j) ((swapAdj l j).getD k1 dummyProxy).objectIndex
        ((swapAdj l j).getD k1 dummyProxy).min k1 := by
      exact ⟨by rw [swapAdj_length]; exact hk1, rfl, rfl⟩
    have r2 : roleAt (swapAdj l j) ((swapAdj l j).getD k1 dummyProxy).objectIndex
        ((swapAdj l j).getD k1 dummyProxy).min k2 := by
      exact ⟨by rw [swapAdj_length]; exact hk2, ho.symm, hm.symm⟩
    have t1 := (roleAt_swapAdj l j hj _ _ k1).mp r1
    have t2 := (roleAt_swapAdj l j hj _ _ k2).mp r2
    have := hinj (swapPerm j k1) (swapPerm j k2) t1.1 t2.1
      (t1.2.1.trans t2.2.1.symm) (t1.2.2.trans t2.2.2.symm)
    have h2 := congrArg (swapPerm j) this
    rwa [swapPerm_invol, swapPerm_invol] at h2
  · intro o ho m
    obtain ⟨k, hk⟩ := hex o ho m
    refine ⟨swapPerm j k, ?_⟩
    rw [roleAt_swapAdj l j hj o m (swapPerm j k), swapPerm_invol]
    exact hk

theorem ordP_iff_at (objs : List BroadphaseObject) (V : ℕ → Bool → ℚ)
    (l : List ObjectProxy) (hwf : listWF objs V l) (i1 i2 p1 q2 p2 q1 : ℕ)
    (h1 : roleAt l i1 true p1) (h2 : roleAt l i2 false q2)
    (h3 : roleAt l i2 true p2) (h4 : roleAt l i1 false q1) :
    ordP l i1 i2 ↔ Xor' (p1 < q2) (p2 < q1) := by
  constructor
  · intro ho
    exact ho p1 q2 p2 q1 h1 h2 h3 h4
  · intro hx a b c d ha hb hc hd
    rw [roleAt_unique objs V l hwf i1 true a p1 ha h1,
      roleAt_unique objs V l hwf i2 false b q2 hb h2,
      roleAt_unique objs V l hwf i2 true c p2 hc h3,
      roleAt_unique objs V l hwf i1 false d q1 hd h4]
    exact hx

theorem roleAt_ne_pos (l : List ObjectProxy) (o1 : ℕ) (m1 : Bool) (o2 : ℕ) (m2 : Bool)
    (k1 k2 : ℕ) (h1 : roleAt l o1 m1 k1) (h2 : roleAt l o2 m2 k2)
    (hne : o1 ≠ o2 ∨ m1 ≠ m2) : k1 ≠ k2 := by
  intro he
  rw [he] at h1
  rcases hne with hne | hne
  · exact hne (h1.2.1.symm.trans h2.2.1)
  · exact hne (h1.2.2.symm.trans h2.2.2)

theorem swapPerm_id (j k : ℕ) (h1 : k ≠ j) (h2 : k ≠ j + 1) : swapPerm j k = k := by
  unfold swapPerm
  rw [if_neg h1, if_neg h2]

theorem swapPerm_at_succ (j : ℕ) : swapPerm j (j + 1) = j := by
  unfold swapPerm
  rw [if_neg (by omega), if_pos rfl]

theorem swapPerm_at_self (j : ℕ) : swapPerm j j = j + 1 := by
  unfold swapPerm
  rw [if_pos rfl]

/-- A proxy whose role differs from both of the roles sitting at positions `j` and
`j + 1` keeps its position under the adjacent swap at `j`. -/
theorem swapPerm_fix (l : List ObjectProxy) (j : ℕ) (hj : j + 1 < l.length)
    (o : ℕ) (m : Bool) (k : ℕ) (hk : roleAt l o m k)
    (hdj : (l.getD j dummyProxy).objectIndex ≠ o ∨ (l.getD j dummyProxy).min ≠ m)
    (hdj1 : (l.getD (j + 1) dummyProxy).objectIndex ≠ o ∨
      (l.getD (j + 1) dummyProxy).min ≠ m) :
    swapPerm j k = k := by
  apply swapPerm_id
  · refine roleAt_ne_pos l o m _ _ k j hk ⟨by omega, rfl, rfl⟩ ?_
    rcases hdj with h | h
    · exact Or.inl (Ne.symm h)
    · exact Or.inr (Ne.symm h)
  · refine roleAt_ne_pos l o m _ _ k (j + 1) hk ⟨hj, rfl, rfl⟩ ?_
    rcases hdj1 with h | h
    · exact Or.inl (Ne.symm h)
    · exact Or.inr (Ne.symm h)

theorem xor_flip_left (a a2 b : Prop) (h : a2 ↔ ¬ a) : Xor' a2 b ↔ ¬ Xor' a b := by
  unfold Xor'
  tauto

theorem xor_flip_right (a b b2 : Prop) (h : b2 ↔ ¬ b) : Xor' a b2 ↔ ¬ Xor' a b := by
  unfold Xor'
  tauto

theorem xor_congr_iff (a a2 b b2 : Prop) (ha : a2 ↔ a) (hb : b2 ↔ b) :
    Xor' a2 b2 ↔ Xor' a b := by
  unfold Xor'
  tauto

/-- The swap at `(j, j+1)` crosses the unordered pair `{i1, i2}`: the two swapped
proxies belong to those two objects and have opposite min-ness. -/
def swapCrosses (l : List ObjectProxy) (j i1 i2 : ℕ) : Prop :=
  (((l.getD j dummyProxy).objectIndex = i1 ∧
      (l.getD (j + 1) dummyProxy).objectIndex = i2) ∨
   ((l.getD j dummyProxy).objectIndex = i2 ∧
      (l.getD (j + 1) dummyProxy).objectIndex = i1)) ∧
  (l.getD j dummyProxy).min ≠ (l.getD (j + 1) dummyProxy).min

/-- Effect of one adjacent swap on the order parity of a pair: it flips exactly for
the crossed pair and is unchanged for every other pair. -/
theorem ordP_swapAdj (objs : List BroadphaseObject) (V : ℕ → Bool → ℚ)
    (l : List ObjectProxy) (j : ℕ) (hj : j + 1 < l.length) (hwf : listWF objs V l)
    (i1 i2 : ℕ) (h1 : i1 < objs.length) (h2 : i2 < objs.length) (hne : i1 ≠ i2) :
    (swapCrosses l j i1 i2 → (ordP (swapAdj l j) i1 i2 ↔ ¬ ordP l i1 i2)) ∧
    (¬ swapCrosses l j i1 i2 → (ordP (swapAdj l j) i1 i2 ↔ ordP l i1 i2)) := by
  obtain ⟨p1, hp1⟩ := hwf.2.2.2 i1 h1 true
  obtain ⟨q2, hq2⟩ := hwf.2.2.2 i2 h2 false
  obtain ⟨p2, hp2⟩ := hwf.2.2.2 i2 h2 true
  obtain ⟨q1, hq1⟩ := hwf.2.2.2 i1 h1 false
  have hwf2 := listWF_swapAdj objs V l j hj hwf
  have hp1s : roleAt (swapAdj l j) i1 true (swapPerm j p1) := by
    rw [roleAt_swapAdj l j hj _ _ _, swapPerm_invol]
    exact hp1
  have hq2s : roleAt (swapAdj l j) i2 false (swapPerm j q2) := by
    rw [roleAt_swapAdj l j hj _ _ _, swapPerm_invol]
    exact hq2
  have hp2s : roleAt (swapAdj l j) i2 true (swapPerm j p2) := by
    rw [roleAt_swapAdj l j hj _ _ _, swapPerm_invol]
    exact hp2
  have hq1s : roleAt (swapAdj l j) i1 false (swapPerm j q1) := by
    rw [roleAt_swapAdj l j hj _ _ _, swapPerm_invol]
    exact hq1
  have hOld := ordP_iff_at objs V l hwf i1 i2 p1 q2 p2 q1 hp1 hq2 hp2 hq1
  have hNew := ordP_iff_at objs V (swapAdj l j) hwf2 i1 i2
    (swapPerm j p1) (swapPerm j q2) (swapPerm j p2) (swapPerm j q1)
    hp1s hq2s hp2s hq1s
  have hrj : roleAt l (l.getD j dummyProxy).objectIndex (l.getD j dummyProxy).min j :=
    ⟨by omega, rfl, rfl⟩
  have hrj1 : roleAt l (l.getD (j + 1) dummyProxy).objectIndex
      (l.getD (j + 1) dummyProxy).min (j + 1) := ⟨hj, rfl, rfl⟩
  constructor
  · rintro ⟨hobj, hmin⟩
    rcases hobj with ⟨ho1, ho2⟩ | ⟨ho1, ho2⟩
    · cases hmj : (l.getD j dummyProxy).min
      · -- slot j is (i1, max), slot j+1 is (i2, min): the second comparison flips
        have hmj1 : (l.getD (j + 1) dummyProxy).min = true := by
          cases hm1 : (l.getD (j + 1) dummyProxy).min
          · rw [hmj, hm1] at hmin; exact absurd rfl hmin
          · rfl
        have heq1 : q1 = j := roleAt_unique objs V l hwf i1 false q1 j hq1
          (by rw [← ho1, ← hmj]; exact hrj)
        have heq2 : p2 = j + 1 := roleAt_unique objs V l hwf i2 true p2 (j + 1) hp2
          (by rw [← ho2, ← hmj1]; exact hrj1)
        have hfix1 : swapPerm j p1 = p1 :=
          swapPerm_fix l j hj i1 true p1 hp1
            (Or.inr (by rw [hmj]; decide))
            (Or.inl (by rw [ho2]; exact Ne.symm hne))
        have hfix2 : swapPerm j q2 = q2 :=
          swapPerm_fix l j hj i2 false q2 hq2
            (Or.inl (by rw [ho1]; exact hne))
            (Or.inr (by rw [hmj1]; decide))
        rw [hNew, hOld, hfix1, hfix2, heq1, heq2]
        apply xor_flip_right
        rw [swapPerm_at_succ, swapPerm_at_self]
        omega
      · -- slot j is (i1, min), slot j+1 is (i2, max): the first comparison flips
        have hmj1 : (l.getD (j + 1) dummyProxy).min = false := by
          cases hm1 : (l.getD (j + 1) dummyProxy).min
          · rfl
          · rw [hmj, hm1] at hmin; exact absurd rfl hmin
        have heq1 : p1 = j := roleAt_unique objs V l hwf i1 true p1 j hp1
          (by rw [← ho1, ← hmj]; exact hrj)
        have heq2 : q2 = j + 1 := roleAt_unique objs V l hwf i2 false q2 (j + 1) hq2
          (by rw [← ho2, ← hmj1]; exact hrj1)
        have hfix1 : swapPerm j p2 = p2 :=
          swapPerm_fix l j hj i2 true p2 hp2
            (Or.inl (by rw [ho1]; exact hne))
            (Or.inr (by rw [hmj1]; decide))
        have hfix2 : swapPerm j q1 = q1 :=
          swapPerm_fix l j hj i1 false q1 hq1
            (Or.inr (by rw [hmj]; decide))
            (Or.inl (by rw [ho2]; exact Ne.symm hne))
        rw [hNew, hOld, hfix1, hfix2, heq1, heq2]
        apply xor_flip_left
        rw [swapPerm_at_succ, swapPerm_at_self]
        omega
    · cases hmj : (l.getD j dummyProxy).min
      · -- slot j is (i2, max), slot j+1 is (i1, min): the first comparison flips
        have hmj1 : (l.getD (j + 1) dummyProxy).min = true := by
          cases hm1 : (l.getD (j + 1) dummyProxy).min
          · rw [hmj, hm1] at hmin; exact absurd rfl hmin
          · rfl
        have heq1 : q2 = j := roleAt_unique objs V l hwf i2 false q2 j hq2
          (by rw [← ho1, ← hmj]; exact hrj)
        have heq2 : p1 = j + 1 := roleAt_unique objs V l hwf i1 true p1 (j + 1) hp1
          (by rw [← ho2, ← hmj1]; exact hrj1)
        have hfix1 : swapPerm j p2 = p2 :=
          swapPerm_fix l j hj i2 true p2 hp2
            (Or.inr (by rw [hmj]; decide))
            (Or.inl (by rw [ho2]; exact hne))
        have hfix2 : swapPerm j q1 = q1 :=
          swapPerm_fix l j hj i1 false q1 hq1
            (Or.inl (by rw [ho1]; exact Ne.symm hne))
            (Or.inr (by rw [hmj1]; decide))
        rw [hNew, hOld, hfix1, hfix2, heq1, heq2]
        apply xor_flip_left
        rw [swapPerm_at_succ, swapPerm_at_self]
        omega
      · -- slot j is (i2, min), slot j+1 is (i1, max): the second comparison flips
        have hmj1 : (l.getD (j + 1) dummyProxy).min = false := by
          cases hm1 : (l.getD (j + 1) dummyProxy).min
          · rfl
          · rw [hmj, hm1] at hmin; exact absurd rfl hmin
        have heq1 : p2 = j := roleAt_unique objs V l hwf i2 true p2 j hp2
          (by rw [← ho1, ← hmj]; exact hrj)
        have heq2 : q1 = j + 1 := roleAt_unique objs V l hwf i1 false q1 (j + 1) hq1
          (by rw [← ho2, ← hmj1]; exact hrj1)
        have hfix1 : swapPerm j p1 = p1 :=
          swapPerm_fix l j hj i1 true p1 hp1
            (Or.inl (by rw [ho1]; exact Ne.symm hne))
            (Or.inr (by rw [hmj1]; decide))
        have hfix2 : swapPerm j q2 = q2 :=
          swapPerm_fix l j hj i2 false q2 hq2
            (Or.inr (by rw [hmj]; decide))
            (Or.inl (by rw [ho2]; exact hne))
        rw [hNew, hOld, hfix1, hfix2, heq1, heq2]
        apply xor_flip_right
        rw [swapPerm_at_succ, swapPerm_at_self]
        omega
  · intro hncross
    rw [hNew, hOld]
    apply xor_congr_iff
    · apply swapPerm_lt_iff
      rintro (⟨ha, hb⟩ | ⟨ha, hb⟩)
      · rw [ha] at hp1
        rw [hb] at hq2
        exact hncross ⟨Or.inl ⟨hp1.2.1, hq2.2.1⟩, by rw [hp1.2.2, hq2.2.2]; decide⟩
      · rw [hb] at hq2
        rw [ha] at hp1
        exact hncross ⟨Or.inr ⟨hq2.2.1, hp1.2.1⟩, by rw [hq2.2.2, hp1.2.2]; decide⟩
    · apply swapPerm_lt_iff
      rintro (⟨ha, hb⟩ | ⟨ha, hb⟩)
      · rw [ha] at hp2
        rw [hb] at hq1
        exact hncross ⟨Or.inr ⟨hp2.2.1, hq1.2.1⟩, by rw [hp2.2.2, hq1.2.2]; decide⟩
      · rw [hb] at hq1
        rw [ha] at hp2
        exact hncross ⟨Or.inl ⟨hq1.2.1, hp2.2.1⟩, by rw [hq1.2.2, hp2.2.2]; decide⟩

/-! ## What `applyToggle` touches -/

theorem applyToggle_proj (dim : ℕ) (a0 b0 : ObjectProxy) (s2 : SweepAndPruneBroadphase) :
    (applyToggle dim a0 b0 s2).lists = s2.lists ∧
    (applyToggle dim a0 b0 s2).objectToProxies = s2.objectToProxies ∧
    (applyToggle dim a0 b0 s2).objectCount = s2.objectCount ∧
    (applyToggle dim a0 b0 s2).sortStarts = s2.sortStarts ∧
    (applyToggle dim a0 b0 s2).sortEnds = s2.sortEnds ∧
    (applyToggle dim a0 b0 s2).needsSort = s2.needsSort := by
  unfold applyToggle
  dsimp only
  split_ifs <;> exact ⟨rfl, rfl, rfl, rfl, rfl, rfl⟩

theorem applyToggle_comm (dim : ℕ) (a0 b0 : ObjectProxy) (s2 : SweepAndPruneBroadphase)
    (hne : a0.objectIndex ≠ b0.objectIndex) :
    applyToggle dim a0 b0 s2 = applyToggle dim b0 a0 s2 := by
  unfold applyToggle
  dsimp only
  rcases Nat.lt_or_ge a0.objectIndex b0.objectIndex with h | h
  · have e1 : (if b0.objectIndex > a0.objectIndex then (b0, a0) else (a0, b0))
        = (b0, a0) := if_pos h
    have e2 : (if a0.objectIndex > b0.objectIndex then (a0, b0) else (b0, a0))
        = (b0, a0) := if_neg (by omega)
    rw [e1, e2]
  · have hlt : b0.objectIndex < a0.objectIndex := by omega
    have e1 : (if b0.objectIndex > a0.objectIndex then (b0, a0) else (a0, b0))
        = (a0, b0) := if_neg (by omega)
    have e2 : (if a0.objectIndex > b0.objectIndex then (a0, b0) else (b0, a0))
        = (a0, b0) := if_pos hlt
    rw [e1, e2]

/-- `applyToggle` when the canonical order is already `b0 < a0` and the stored bit
for the sorted axis is set: the bit is cleared and, when the flag was 7, the pair is
spliced out of the intersections. -/
theorem applyToggle_spec_clear (dim : ℕ) (a0 b0 : ObjectProxy)
    (s2 : SweepAndPruneBroadphase) (hord : b0.objectIndex < a0.objectIndex)
    (hdim : dim < 3)
    (hfl8 : flagsRead s2.flags
      (flagIndexZ (s2.objectCount : ℤ) (a0.objectIndex : ℤ) (b0.objectIndex : ℤ)) < 8)
    (hbit : (flagsRead s2.flags
      (flagIndexZ (s2.objectCount : ℤ) (a0.objectIndex : ℤ)
        (b0.objectIndex : ℤ))).testBit dim = true) :
    (applyToggle dim a0 b0 s2).flags
      = flagsWrite s2.flags
          (flagIndexZ (s2.objectCount : ℤ) (a0.objectIndex : ℤ) (b0.objectIndex : ℤ))
          ((flagsRead s2.flags
            (flagIndexZ (s2.objectCount : ℤ) (a0.objectIndex : ℤ) (b0.objectIndex : ℤ)))
            &&& (255 ^^^ (1 <<< dim))) ∧
    (applyToggle dim a0 b0 s2).intersections
      = (if flagsRead s2.flags
            (flagIndexZ (s2.objectCount : ℤ) (a0.objectIndex : ℤ) (b0.objectIndex : ℤ))
            = 7
         then removeFirstPair s2.intersections (a0.objectId, b0.objectId)
         else s2.intersections) := by
  unfold applyToggle
  dsimp only
  have e1 : (if b0.objectIndex > a0.objectIndex then (b0, a0) else (a0, b0))
      = (a0, b0) := if_neg (by omega)
  rw [e1]
  dsimp only
  have hfold : ((s2.objectCount : ℤ) * ((s2.objectCount : ℤ) - 1) / 2
      - ((s2.objectCount : ℤ) - (b0.objectIndex : ℤ))
        * ((s2.objectCount : ℤ) - (b0.objectIndex : ℤ) - 1) / 2
      + (a0.objectIndex : ℤ) - (b0.objectIndex : ℤ) - 1)
      = flagIndexZ (s2.objectCount : ℤ) (a0.objectIndex : ℤ) (b0.objectIndex : ℤ) := rfl
  rw [hfold]
  rw [if_pos (by
    rw [bitand_pow_ne _ _ hfl8 hdim]
    exact hbit)]
  split_ifs with h7 <;> exact ⟨rfl, rfl⟩

/-- `applyToggle` when the canonical order is already `b0 < a0` and the stored bit
for the sorted axis is clear: the bit is set and, when the flag becomes 7, the pair
is appended to the intersections. -/
theorem applyToggle_spec_set (dim : ℕ) (a0 b0 : ObjectProxy)
    (s2 : SweepAndPruneBroadphase) (hord : b0.objectIndex < a0.objectIndex)
    (hdim : dim < 3)
    (hfl8 : flagsRead s2.flags
      (flagIndexZ (s2.objectCount : ℤ) (a0.objectIndex : ℤ) (b0.objectIndex : ℤ)) < 8)
    (hbit : (flagsRead s2.flags
      (flagIndexZ (s2.objectCount : ℤ) (a0.objectIndex : ℤ)
        (b0.objectIndex : ℤ))).testBit dim = false) :
    (applyToggle dim a0 b0 s2).flags
      = flagsWrite s2.flags
          (flagIndexZ (s2.objectCount : ℤ) (a0.objectIndex : ℤ) (b0.objectIndex : ℤ))
          ((flagsRead s2.flags
            (flagIndexZ (s2.objectCount : ℤ) (a0.objectIndex : ℤ) (b0.objectIndex : ℤ)))
            ||| (1 <<< dim)) ∧
    (applyToggle dim a0 b0 s2).intersections
      = (if (flagsRead s2.flags
            (flagIndexZ (s2.objectCount : ℤ) (a0.objectIndex : ℤ) (b0.objectIndex : ℤ)))
            ||| (1 <<< dim) = 7
         then s2.intersections ++ [(a0.objectId, b0.objectId)]
         else s2.intersections) := by
  unfold applyToggle
  dsimp only
  have e1 : (if b0.objectIndex > a0.objectIndex then (b0, a0) else (a0, b0))
      = (a0, b0) := if_neg (by omega)
  rw [e1]
  dsimp only
  have hfold : ((s2.objectCount : ℤ) * ((s2.objectCount : ℤ) - 1) / 2
      - ((s2.objectCount : ℤ) - (b0.objectIndex : ℤ))
        * ((s2.objectCount : ℤ) - (b0.objectIndex : ℤ) - 1) / 2
      + (a0.objectIndex : ℤ) - (b0.objectIndex : ℤ) - 1)
      = flagIndexZ (s2.objectCount : ℤ) (a0.objectIndex : ℤ) (b0.objectIndex : ℤ) := rfl
  rw [hfold]
  rw [if_neg (by
    rw [bitand_pow_ne _ _ hfl8 hdim]
    simp [hbit])]
  split_ifs with h7 <;> exact ⟨rfl, rfl⟩

/-! ## Object-id injectivity and intersection-list surgery -/

theorem objAt_id_inj (objs : List BroadphaseObject)
    (hnd : (objs.map BroadphaseObject.id).Nodup)
    (i j : ℕ) (hi : i < objs.length) (hj : j < objs.length)
    (h : (objAt objs i).id = (objAt objs j).id) : i = j := by
  unfold objAt at h
  rw [List.getD_eq_getElem _ _ hi, List.getD_eq_getElem _ _ hj] at h
  have hi' : i < (objs.map BroadphaseObject.id).length := by simpa using hi
  have hj' : j < (objs.map BroadphaseObject.id).length := by simpa using hj
  have hm : (objs.map BroadphaseObject.id)[i] = (objs.map BroadphaseObject.id)[j] := by
    simpa using h
  exact (List.Nodup.getElem_inj_iff hnd).mp hm

theorem removeFirstPair_sublist (l : List (ℕ × ℕ)) (q : ℕ × ℕ) :
    List.Sublist (removeFirstPair l q) l := by
  induction l with
  | nil => exact List.Sublist.refl []
  | cons p rest ih =>
    rw [removeFirstPair]
    by_cases hp : p = q
    · rw [if_pos hp]
      exact List.sublist_cons_self p rest
    · rw [if_neg hp]
      exact List.Sublist.cons₂ p ih

theorem removeFirstPair_nodup (l : List (ℕ × ℕ)) (q : ℕ × ℕ) (hl : l.Nodup) :
    (removeFirstPair l q).Nodup :=
  hl.sublist (removeFirstPair_sublist l q)

theorem removeFirstPair_mem (l : List (ℕ × ℕ)) (q pr : ℕ × ℕ) (hl : l.Nodup) :
    pr ∈ removeFirstPair l q ↔ (pr ∈ l ∧ pr ≠ q) := by
  induction l with
  | nil => simp [removeFirstPair]
  | cons p rest ih =>
    rw [removeFirstPair]
    by_cases hp : p = q
    · rw [if_pos hp]
      subst hp
      rw [List.nodup_cons] at hl
      constructor
      · intro hm
        refine ⟨List.mem_cons_of_mem p hm, ?_⟩
        intro he
        rw [he] at hm
        exact hl.1 hm
      · rintro ⟨hm, hne⟩
        rcases List.mem_cons.mp hm with he | hm2
        · exact absurd he hne
        · exact hm2
    · rw [if_neg hp]
      rw [List.nodup_cons] at hl
      rw [List.mem_cons, List.mem_cons, ih hl.2]
      constructor
      · rintro (he | ⟨hm, hne⟩)
        · exact ⟨Or.inl he, by rw [he]; exact fun hh => hp hh⟩
        · exact ⟨Or.inr hm, hne⟩
      · rintro ⟨he | hm, hne⟩
        · exact Or.inl he
        · exact Or.inr ⟨hm, hne⟩

/-- Distinct ordered pairs get distinct flag slots (ℕ-level wrapper). -/
theorem flagIndexZ_pair_ne (N i1 i2 j1 j2 : ℕ)
    (hi : i2 < i1) (hi1 : i1 < N) (hj : j2 < j1) (hj1 : j1 < N)
    (hne : ¬(i1 = j1 ∧ i2 = j2)) :
    flagIndexZ (N : ℤ) (i1 : ℤ) (i2 : ℤ) ≠ flagIndexZ (N : ℤ) (j1 : ℤ) (j2 : ℤ) := by
  intro he
  have := flagIndexZ_inj (N : ℤ) i1 i2 j1 j2 (by omega) (by omega) (by omega)
    (by omega) (by omega) (by omega) he
  exact hne ⟨by omega, by omega⟩

/-- A 3-bit value with a clear bit below 3 is not 7. -/
theorem ne_seven_of_bit_false (v d : ℕ) (h8 : v < 8) (h3 : d < 3)
    (hb : v.testBit d = false) : v ≠ 7 := by
  intro h7
  obtain ⟨b0, b1, b2⟩ := (eq_seven_iff v h8).mp h7
  interval_cases d <;> simp_all

/-- After the adjacent swap at `j` and the matching `applyToggle` call for the
crossed maskable pair `(I1, I2)` (passed canonically, larger index first), the full
sweep-and-prune invariant holds again: the toggled slot's bit for the sorted axis
flips together with the pair's order parity, and the intersections stay in sync
with the flag value 7. -/
theorem applyToggle_SAPInv (objs : List BroadphaseObject) (V : ℕ → Bool → ℕ → ℚ)
    (s : SweepAndPruneBroadphase) (dim j : ℕ) (hdim : dim < 3)
    (hj : j + 1 < (s.lists.getD dim []).length)
    (hinv : SAPInv objs V s)
    (A B : ObjectProxy) (I1 I2 : ℕ) (hI12 : I2 < I1) (hI1 : I1 < objs.length)
    (hA : A.objectIndex = I1) (hB : B.objectIndex = I2)
    (hAid : A.objectId = (objAt objs I1).id) (hBid : B.objectId = (objAt objs I2).id)
    (hmok : maskOK objs I1 I2)
    (hcross : swapCrosses (s.lists.getD dim []) j I1 I2) :
    SAPInv objs V (applyToggle dim A B
      { s with lists := s.lists.set dim (swapAdj (s.lists.getD dim []) j) }) := by
  set l := s.lists.getD dim [] with hl
  set s2 : SweepAndPruneBroadphase :=
    { s with lists := s.lists.set dim (swapAdj l j) } with hs2
  have hN3 : dim < s.lists.length := by rw [hinv.listsLen]; exact hdim
  have hord : B.objectIndex < A.objectIndex := by rw [hA, hB]; exact hI12
  have hc2 : s2.objectCount = s.objectCount := by rw [hs2]
  have hf2 : s2.flags = s.flags := by rw [hs2]
  have hi2 : s2.intersections = s.intersections := by rw [hs2]
  have hproj := applyToggle_proj dim A B s2
  have hfl8I : flagsRead s.flags (flagIndexZ (objs.length : ℤ) (I1 : ℤ) (I2 : ℤ)) < 8 :=
    flagsRead_lt8 s.flags hinv.flagsSmall _
  have hidx0 : (0 : ℤ) ≤ flagIndexZ (objs.length : ℤ) (I1 : ℤ) (I2 : ℤ) :=
    flagIndexZ_nonneg _ _ _ (by omega) (by exact_mod_cast hI12) (by exact_mod_cast hI1)
  have hidxlt : flagIndexZ (objs.length : ℤ) (I1 : ℤ) (I2 : ℤ) < triZ (objs.length : ℤ) :=
    flagIndexZ_lt _ _ _ (by omega) (by exact_mod_cast hI12) (by exact_mod_cast hI1)
  have hidxlen : (flagIndexZ (objs.length : ℤ) (I1 : ℤ) (I2 : ℤ)).toNat
      < s.flags.length := by
    rw [hinv.flagsLen]
    omega
  have hIdxEq : flagIndexZ ((s2.objectCount : ℕ) : ℤ) ((A.objectIndex : ℕ) : ℤ)
      ((B.objectIndex : ℕ) : ℤ) = flagIndexZ (objs.length : ℤ) (I1 : ℤ) (I2 : ℤ) := by
    rw [hA, hB, hc2, hinv.count]
  have hwfd := hinv.wf dim hdim
  have hlists2 : s2.lists.getD dim [] = swapAdj l j := by
    rw [hs2]
    exact getD_set_self _ _ _ _ hN3
  have hlists2' : ∀ d, d ≠ dim → s2.lists.getD d [] = s.lists.getD d [] := by
    intro d hd
    rw [hs2]
    exact getD_set_ne _ _ _ _ _ (fun h => hd h.symm)
  have hflip := ordP_swapAdj objs (fun o m => V o m dim) l j hj hwfd I1 I2 hI1
    (by omega) (by omega)
  have hkeep : ∀ i1 i2, i2 < i1 → i1 < objs.length → ¬(i1 = I1 ∧ i2 = I2) →
      (ordP (swapAdj l j) i1 i2 ↔ ordP l i1 i2) := by
    intro i1 i2 h12 h1 hne
    refine (ordP_swapAdj objs (fun o m => V o m dim) l j hj hwfd i1 i2 h1
      (by omega) (by omega)).2 ?_
    rintro ⟨hobj, hmin⟩
    rcases hcross.1 with ⟨hc1, hc2'⟩ | ⟨hc1, hc2'⟩ <;>
      rcases hobj with ⟨ho1, ho2⟩ | ⟨ho1, ho2⟩ <;> exact hne ⟨by omega, by omega⟩
  have hwrite_ne : ∀ (v : ℕ) (i1 i2 : ℕ), i2 < i1 → i1 < objs.length →
      ¬(i1 = I1 ∧ i2 = I2) →
      flagsRead (flagsWrite s.flags (flagIndexZ (objs.length : ℤ) (I1 : ℤ) (I2 : ℤ)) v)
        (flagIndexZ (objs.length : ℤ) (i1 : ℤ) (i2 : ℤ))
      = flagsRead s.flags (flagIndexZ (objs.length : ℤ) (i1 : ℤ) (i2 : ℤ)) := by
    intro v i1 i2 h12 h1 hne
    exact flagsRead_write_ne _ _ _ _
      (flagIndexZ_pair_ne objs.length I1 I2 i1 i2 hI12 hI1 h12 h1
        (fun h => hne ⟨h.1.symm, h.2.symm⟩))
  have hwrite_self : ∀ (v : ℕ), v < 256 →
      flagsRead (flagsWrite s.flags (flagIndexZ (objs.length : ℤ) (I1 : ℤ) (I2 : ℤ)) v)
        (flagIndexZ (objs.length : ℤ) (I1 : ℤ) (I2 : ℤ)) = v :=
    fun v hv => flagsRead_write_self _ _ _ hidx0 hidxlen hv
  have hid_pair : ∀ i1 i2, i2 < i1 → i1 < objs.length →
      ((objAt objs i1).id, (objAt objs i2).id) = (A.objectId, B.objectId) →
      i1 = I1 ∧ i2 = I2 := by
    intro i1 i2 h12 h1 hpq
    rw [hAid, hBid] at hpq
    have he1 : (objAt objs i1).id = (objAt objs I1).id := congrArg Prod.fst hpq
    have he2 : (objAt objs i2).id = (objAt objs I2).id := congrArg Prod.snd hpq
    exact ⟨objAt_id_inj objs hinv.idsNodup i1 I1 h1 hI1 he1,
      objAt_id_inj objs hinv.idsNodup i2 I2 (by omega) (by omega) he2⟩
  have hcount' : (applyToggle dim A B s2).objectCount = objs.length := by
    rw [hproj.2.2.1, hc2]
    exact hinv.count
  have hlistsLen' : (applyToggle dim A B s2).lists.length = 3 := by
    rw [hproj.1, hs2]
    simpa using hinv.listsLen
  have hids' : (applyToggle dim A B s2).objectToProxies = objs.map BroadphaseObject.id := by
    rw [hproj.2.1]
    have h : s2.objectToProxies = s.objectToProxies := by rw [hs2]
    rw [h]
    exact hinv.ids
  have hwf' : ∀ d, d < 3 → listWF objs (fun o m => V o m d)
      ((applyToggle dim A B s2).lists.getD d []) := by
    intro d hd
    rw [hproj.1]
    by_cases hddim : d = dim
    · subst hddim
      rw [hlists2]
      exact listWF_swapAdj objs _ _ j hj hwfd
    · rw [hlists2' d hddim]
      exact hinv.wf d hd
  have hOldI := (hinv.flagBits I1 I2 hI12 hI1).1 hmok dim hdim
  cases hb : (flagsRead s.flags (flagIndexZ (objs.length : ℤ) (I1 : ℤ) (I2 : ℤ))).testBit dim
  · -- bit clear: the toggle sets it
    obtain ⟨hflags, hinters⟩ := applyToggle_spec_set dim A B s2 hord hdim
      (by rw [hIdxEq]; exact hfl8I) (by rw [hIdxEq]; exact hb)
    rw [hIdxEq, hf2] at hflags hinters
    rw [hi2, hAid, hBid] at hinters
    have hv8 : flagsRead s.flags (flagIndexZ (objs.length : ℤ) (I1 : ℤ) (I2 : ℤ))
        ||| (1 <<< dim) < 8 := setBit_lt _ dim hfl8I hdim
    have hv256 : flagsRead s.flags (flagIndexZ (objs.length : ℤ) (I1 : ℤ) (I2 : ℤ))
        ||| (1 <<< dim) < 256 := by omega
    have hfl_ne7 : flagsRead s.flags (flagIndexZ (objs.length : ℤ) (I1 : ℤ) (I2 : ℤ))
        ≠ 7 := ne_seven_of_bit_false _ dim hfl8I hdim hb
    have hvbit : (flagsRead s.flags (flagIndexZ (objs.length : ℤ) (I1 : ℤ) (I2 : ℤ))
        ||| (1 <<< dim)).testBit dim = true := by
      rw [setBit_testBit _ dim dim hfl8I hdim hdim]
      simp
    have hvbit' : ∀ d, d < 3 → d ≠ dim →
        (flagsRead s.flags (flagIndexZ (objs.length : ℤ) (I1 : ℤ) (I2 : ℤ))
          ||| (1 <<< dim)).testBit d
        = (flagsRead s.flags
            (flagIndexZ (objs.length : ℤ) (I1 : ℤ) (I2 : ℤ))).testBit d := by
      intro d hd hddim
      rw [setBit_testBit _ dim d hfl8I hdim hd, decide_eq_false hddim, Bool.false_or]
    have hOrdL : ordP l I1 I2 := hOldI.mpr hb
    have hq_notin : ((objAt objs I1).id, (objAt objs I2).id) ∉ s.intersections := by
      intro hm
      obtain ⟨i1, i2, h12, h1, hpr, hfl7⟩ := (hinv.interIff _).mp hm
      have hpe := hid_pair i1 i2 h12 h1 (by rw [← hpr, hAid, hBid])
      rcases hpe with ⟨he1, he2⟩
      subst he1
      subst he2
      exact hfl_ne7 hfl7
    refine ⟨hcount', hlistsLen', hids', hinv.idsNodup, ?_, ?_, hwf', ?_, ?_, ?_⟩
    · rw [hflags, flagsWrite_length]
      exact hinv.flagsLen
    · rw [hflags]
      exact flagsWrite_small s.flags hinv.flagsSmall _ _ hv8
    · intro i1 i2 h12 h1
      constructor
      · intro hm d hd
        rw [hproj.1, hflags]
        by_cases hpair : i1 = I1 ∧ i2 = I2
        · rcases hpair with ⟨he1, he2⟩
          subst he1
          subst he2
          rw [hwrite_self _ hv256]
          by_cases hddim : d = dim
          · subst hddim
            rw [hlists2]
            constructor
            · intro ho
              exact absurd ((hflip.1 hcross).mp ho) (fun hn => hn hOrdL)
            · intro hvf
              rw [hvbit] at hvf
              simp at hvf
          · rw [hlists2' d hddim, hvbit' d hd hddim]
            exact (hinv.flagBits i1 i2 h12 h1).1 hm d hd
        · rw [hwrite_ne _ i1 i2 h12 h1 hpair]
          by_cases hddim : d = dim
          · rw [hddim, hlists2, hkeep i1 i2 h12 h1 hpair]
            exact (hinv.flagBits i1 i2 h12 h1).1 hm dim hdim
          · rw [hlists2' d hddim]
            exact (hinv.flagBits i1 i2 h12 h1).1 hm d hd
      · intro hnm
        rw [hflags]
        by_cases hpair : i1 = I1 ∧ i2 = I2
        · rcases hpair with ⟨he1, he2⟩
          subst he1
          subst he2
          exact absurd hmok hnm
        · rw [hwrite_ne _ i1 i2 h12 h1 hpair]
          exact (hinv.flagBits i1 i2 h12 h1).2 hnm
    · rw [hinters]
      split_ifs
      · exact List.Nodup.append hinv.interNodup (List.nodup_singleton _)
          (by
            intro a ha hq
            rw [List.mem_singleton] at hq
            rw [hq] at ha
            exact hq_notin ha)
      · exact hinv.interNodup
    · intro pr
      rw [hinters, hflags]
      by_cases h7 : flagsRead s.flags (flagIndexZ (objs.length : ℤ) (I1 : ℤ) (I2 : ℤ))
          ||| (1 <<< dim) = 7
      · rw [if_pos h7]
        constructor
        · intro hm
          rcases List.mem_append.mp hm with hm | hm
          · obtain ⟨i1, i2, h12, h1, hpr, hfl7⟩ := (hinv.interIff pr).mp hm
            have hpair : ¬(i1 = I1 ∧ i2 = I2) := by
              rintro ⟨he1, he2⟩
              subst he1
              subst he2
              exact hfl_ne7 hfl7
            exact ⟨i1, i2, h12, h1, hpr, by rw [hwrite_ne _ i1 i2 h12 h1 hpair]; exact hfl7⟩
          · rw [List.mem_singleton] at hm
            exact ⟨I1, I2, hI12, hI1, hm, by rw [hwrite_self _ hv256]; exact h7⟩
        · rintro ⟨i1, i2, h12, h1, hpr, hfl7⟩
          by_cases hpair : i1 = I1 ∧ i2 = I2
          · rcases hpair with ⟨he1, he2⟩
            subst he1
            subst he2
            exact List.mem_append.mpr (Or.inr (by rw [List.mem_singleton]; exact hpr))
          · rw [hwrite_ne _ i1 i2 h12 h1 hpair] at hfl7
            exact List.mem_append.mpr
              (Or.inl ((hinv.interIff pr).mpr ⟨i1, i2, h12, h1, hpr, hfl7⟩))
      · rw [if_neg h7]
        constructor
        · intro hm
          obtain ⟨i1, i2, h12, h1, hpr, hfl7⟩ := (hinv.interIff pr).mp hm
          have hpair : ¬(i1 = I1 ∧ i2 = I2) := by
            rintro ⟨he1, he2⟩
            subst he1
            subst he2
            exact hfl_ne7 hfl7
          exact ⟨i1, i2, h12, h1, hpr, by rw [hwrite_ne _ i1 i2 h12 h1 hpair]; exact hfl7⟩
        · rintro ⟨i1, i2, h12, h1, hpr, hfl7⟩
          by_cases hpair : i1 = I1 ∧ i2 = I2
          · rcases hpair with ⟨he1, he2⟩
            subst he1
            subst he2
            rw [hwrite_self _ hv256] at hfl7
            exact absurd hfl7 h7
          · rw [hwrite_ne _ i1 i2 h12 h1 hpair] at hfl7
            exact (hinv.interIff pr).mpr ⟨i1, i2, h12, h1, hpr, hfl7⟩
  · -- bit set: the toggle clears it
    obtain ⟨hflags, hinters⟩ := applyToggle_spec_clear dim A B s2 hord hdim
      (by rw [hIdxEq]; exact hfl8I) (by rw [hIdxEq]; exact hb)
    rw [hIdxEq, hf2] at hflags hinters
    rw [hi2, hAid, hBid] at hinters
    have hv8 : flagsRead s.flags (flagIndexZ (objs.length : ℤ) (I1 : ℤ) (I2 : ℤ))
        &&& (255 ^^^ (1 <<< dim)) < 8 := clearBit_lt _ dim hfl8I hdim
    have hv256 : flagsRead s.flags (flagIndexZ (objs.length : ℤ) (I1 : ℤ) (I2 : ℤ))
        &&& (255 ^^^ (1 <<< dim)) < 256 := by omega
    have hvbit : (flagsRead s.flags (flagIndexZ (objs.length : ℤ) (I1 : ℤ) (I2 : ℤ))
        &&& (255 ^^^ (1 <<< dim))).testBit dim = false := by
      rw [clearBit_testBit _ dim dim hfl8I hdim hdim]
      simp
    have hvbit' : ∀ d, d < 3 → d ≠ dim →
        (flagsRead s.flags (flagIndexZ (objs.length : ℤ) (I1 : ℤ) (I2 : ℤ))
          &&& (255 ^^^ (1 <<< dim))).testBit d
        = (flagsRead s.flags
            (flagIndexZ (objs.length : ℤ) (I1 : ℤ) (I2 : ℤ))).testBit d := by
      intro d hd hddim
      rw [clearBit_testBit _ dim d hfl8I hdim hd, decide_eq_true hddim, Bool.true_and]
    have hv_ne7 : flagsRead s.flags (flagIndexZ (objs.length : ℤ) (I1 : ℤ) (I2 : ℤ))
        &&& (255 ^^^ (1 <<< dim)) ≠ 7 := ne_seven_of_bit_false _ dim hv8 hdim hvbit
    have hnOrd : ¬ ordP l I1 I2 := by
      intro ho
      have hfb := hOldI.mp ho
      rw [hb] at hfb
      simp at hfb
    refine ⟨hcount', hlistsLen', hids', hinv.idsNodup, ?_, ?_, hwf', ?_, ?_, ?_⟩
    · rw [hflags, flagsWrite_length]
      exact hinv.flagsLen
    · rw [hflags]
      exact flagsWrite_small s.flags hinv.flagsSmall _ _ hv8
    · intro i1 i2 h12 h1
      constructor
      · intro hm d hd
        rw [hproj.1, hflags]
        by_cases hpair : i1 = I1 ∧ i2 = I2
        · rcases hpair with ⟨he1, he2⟩
          subst he1
          subst he2
          rw [hwrite_self _ hv256]
          by_cases hddim : d = dim
          · subst hddim
            rw [hlists2]
            constructor
            · intro _
              exact hvbit
            · intro _
              exact (hflip.1 hcross).mpr hnOrd
          · rw [hlists2' d hddim, hvbit' d hd hddim]
            exact (hinv.flagBits i1 i2 h12 h1).1 hm d hd
        · rw [hwrite_ne _ i1 i2 h12 h1 hpair]
          by_cases hddim : d = dim
          · rw [hddim, hlists2, hkeep i1 i2 h12 h1 hpair]
            exact (hinv.flagBits i1 i2 h12 h1).1 hm dim hdim
          · rw [hlists2' d hddim]
            exact (hinv.flagBits i1 i2 h12 h1).1 hm d hd
      · intro hnm
        rw [hflags]
        by_cases hpair : i1 = I1 ∧ i2 = I2
        · rcases hpair with ⟨he1, he2⟩
          subst he1
          subst he2
          exact absurd hmok hnm
        · rw [hwrite_ne _ i1 i2 h12 h1 hpair]
          exact (hinv.flagBits i1 i2 h12 h1).2 hnm
    · rw [hinters]
      split_ifs
      · exact removeFirstPair_nodup _ _ hinv.interNodup
      · exact hinv.interNodup
    · intro pr
      rw [hinters, hflags]
      by_cases h7 : flagsRead s.flags (flagIndexZ (objs.length : ℤ) (I1 : ℤ) (I2 : ℤ)) = 7
      · rw [if_pos h7, removeFirstPair_mem _ _ _ hinv.interNodup]
        constructor
        · rintro ⟨hm, hne⟩
          obtain ⟨i1, i2, h12, h1, hpr, hfl7⟩ := (hinv.interIff pr).mp hm
          have hpair : ¬(i1 = I1 ∧ i2 = I2) := by
            rintro ⟨he1, he2⟩
            subst he1
            subst he2
            exact hne (by rw [hpr])
          exact ⟨i1, i2, h12, h1, hpr, by rw [hwrite_ne _ i1 i2 h12 h1 hpair]; exact hfl7⟩
        · rintro ⟨i1, i2, h12, h1, hpr, hfl7⟩
          have hpair : ¬(i1 = I1 ∧ i2 = I2) := by
            rintro ⟨he1, he2⟩
            subst he1
            subst he2
            rw [hwrite_self _ hv256] at hfl7
            exact hv_ne7 hfl7
          rw [hwrite_ne _ i1 i2 h12 h1 hpair] at hfl7
          refine ⟨(hinv.interIff pr).mpr ⟨i1, i2, h12, h1, hpr, hfl7⟩, ?_⟩
          intro hpq
          apply hpair
          apply hid_pair i1 i2 h12 h1
          rw [← hpr, hpq, hAid, hBid]
      · rw [if_neg h7]
        constructor
        · intro hm
          obtain ⟨i1, i2, h12, h1, hpr, hfl7⟩ := (hinv.interIff pr).mp hm
          have hpair : ¬(i1 = I1 ∧ i2 = I2) := by
            rintro ⟨he1, he2⟩
            subst he1
            subst he2
            exact h7 hfl7
          exact ⟨i1, i2, h12, h1, hpr, by rw [hwrite_ne _ i1 i2 h12 h1 hpair]; exact hfl7⟩
        · rintro ⟨i1, i2, h12, h1, hpr, hfl7⟩
          have hpair : ¬(i1 = I1 ∧ i2 = I2) := by
            rintro ⟨he1, he2⟩
            subst he1
            subst he2
            rw [hwrite_self _ hv256] at hfl7
            exact hv_ne7 hfl7
          rw [hwrite_ne _ i1 i2 h12 h1 hpair] at hfl7
          exact (hinv.interIff pr).mpr ⟨i1, i2, h12, h1, hpr, hfl7⟩

/-- Replacing the sorted axis's list by its adjacent swap preserves the invariant
when the swap does not change any maskable pair's order parity (the no-toggle
case of the inner loop). -/
theorem SAPInv_swapAdj (objs : List BroadphaseObject) (V : ℕ → Bool → ℕ → ℚ)
    (s : SweepAndPruneBroadphase) (dim j : ℕ) (hdim : dim < 3)
    (hj : j + 1 < (s.lists.getD dim []).length) (hinv : SAPInv objs V s)
    (hord : ∀ i1 i2, i2 < i1 → i1 < objs.length → maskOK objs i1 i2 →
      (ordP (swapAdj (s.lists.getD dim []) j) i1 i2 ↔ ordP (s.lists.getD dim []) i1 i2)) :
    SAPInv objs V { s with lists := s.lists.set dim (swapAdj (s.lists.getD dim []) j) } := by
  set s2 : SweepAndPruneBroadphase :=
    { s with lists := s.lists.set dim (swapAdj (s.lists.getD dim []) j) } with hs2
  have hN3 : dim < s.lists.length := by rw [hinv.listsLen]; exact hdim
  have hll : s2.lists = s.lists.set dim (swapAdj (s.lists.getD dim []) j) := rfl
  have hff : s2.flags = s.flags := rfl
  have hgetdim : s2.lists.getD dim [] = swapAdj (s.lists.getD dim []) j := by
    rw [hll]
    exact getD_set_self _ _ _ _ hN3
  have hgetne : ∀ d, d ≠ dim → s2.lists.getD d [] = s.lists.getD d [] := by
    intro d hd
    rw [hll]
    exact getD_set_ne _ _ _ _ _ (fun h => hd h.symm)
  refine ⟨hinv.count, ?_, hinv.ids, hinv.idsNodup, hinv.flagsLen, hinv.flagsSmall,
    ?_, ?_, hinv.interNodup, hinv.interIff⟩
  · show (s.lists.set dim (swapAdj (s.lists.getD dim []) j)).length = 3
    rw [List.length_set]
    exact hinv.listsLen
  · intro d hd
    by_cases hddim : d = dim
    · rw [hddim, hgetdim]
      exact listWF_swapAdj objs _ _ j hj (hinv.wf dim hdim)
    · rw [hgetne d hddim]
      exact hinv.wf d hd
  · intro i1 i2 h12 h1
    refine ⟨?_, (hinv.flagBits i1 i2 h12 h1).2⟩
    intro hm d hd
    by_cases hddim : d = dim
    · rw [hddim, hgetdim, hord i1 i2 h12 h1 hm]
      exact (hinv.flagBits i1 i2 h12 h1).1 hm dim hdim
    · rw [hgetne d hddim]
      exact (hinv.flagBits i1 i2 h12 h1).1 hm d hd

theorem stepState_lists (dim j : ℕ) (s : SweepAndPruneBroadphase) :
    (stepState dim j s).lists = s.lists.set dim (swapAdj (s.lists.getD dim []) j) := by
  unfold stepState
  dsimp only
  split_ifs with h
  · exact (applyToggle_proj _ _ _ _).1
  · rfl

/-- One full iteration of the inner loop's body — the swap plus the conditional
toggle — preserves the sweep-and-prune invariant. -/
theorem stepState_SAPInv (objs : List BroadphaseObject) (V : ℕ → Bool → ℕ → ℚ)
    (s : SweepAndPruneBroadphase) (dim j : ℕ) (hdim : dim < 3)
    (hj : j + 1 < (s.lists.getD dim []).length)
    (hinv : SAPInv objs V s) : SAPInv objs V (stepState dim j s) := by
  have hwfd := hinv.wf dim hdim
  have hslot_j := hwfd.2.1 j (by omega)
  have hslot_j1 := hwfd.2.1 (j + 1) hj
  by_cases htog : ((s.lists.getD dim []).getD (j + 1) dummyProxy).objectId
        ≠ ((s.lists.getD dim []).getD j dummyProxy).objectId ∧
      ((s.lists.getD dim []).getD (j + 1) dummyProxy).min
        ≠ ((s.lists.getD dim []).getD j dummyProxy).min ∧
      (((s.lists.getD dim []).getD (j + 1) dummyProxy).mask
        &&& ((s.lists.getD dim []).getD j dummyProxy).mask) ≠ 0 ∧
      (((s.lists.getD dim []).getD (j + 1) dummyProxy).dynamic
        || ((s.lists.getD dim []).getD j dummyProxy).dynamic) = true
  · have heq : stepState dim j s
        = applyToggle dim
            { (s.lists.getD dim []).getD (j + 1) dummyProxy with index := (j : ℤ) }
            { (s.lists.getD dim []).getD j dummyProxy with index := (j : ℤ) + 1 }
            { s with lists := s.lists.set dim (swapAdj (s.lists.getD dim []) j) } := by
      unfold stepState
      dsimp only
      rw [if_pos htog]
    rw [heq]
    obtain ⟨hid, hmin, hmask, hdyn⟩ := htog
    have hoxy : ((s.lists.getD dim []).getD (j + 1) dummyProxy).objectIndex
        ≠ ((s.lists.getD dim []).getD j dummyProxy).objectIndex := by
      intro he
      apply hid
      rw [hslot_j1.2.1, hslot_j.2.1, he]
    rcases Nat.lt_or_gt_of_ne hoxy with hlt | hgt
    · -- the proxy moving left belongs to the smaller object index: canonicalize
      rw [applyToggle_comm dim _ _ _ (by
        show ((s.lists.getD dim []).getD (j + 1) dummyProxy).objectIndex
          ≠ ((s.lists.getD dim []).getD j dummyProxy).objectIndex
        exact hoxy)]
      refine applyToggle_SAPInv objs V s dim j hdim hj hinv _ _
        ((s.lists.getD dim []).getD j dummyProxy).objectIndex
        ((s.lists.getD dim []).getD (j + 1) dummyProxy).objectIndex
        hlt hslot_j.1 rfl rfl hslot_j.2.1 hslot_j1.2.1 ?_ ?_
      · constructor
        · rw [← hslot_j.2.2.1, ← hslot_j1.2.2.1, Nat.and_comm]
          exact hmask
        · rw [← hslot_j.2.2.2.1, ← hslot_j1.2.2.2.1, Bool.or_comm]
          exact hdyn
      · exact ⟨Or.inl ⟨rfl, rfl⟩, Ne.symm hmin⟩
    · refine applyToggle_SAPInv objs V s dim j hdim hj hinv _ _
        ((s.lists.getD dim []).getD (j + 1) dummyProxy).objectIndex
        ((s.lists.getD dim []).getD j dummyProxy).objectIndex
        hgt hslot_j1.1 rfl rfl hslot_j1.2.1 hslot_j.2.1 ?_ ?_
      · constructor
        · rw [← hslot_j1.2.2.1, ← hslot_j.2.2.1]
          exact hmask
        · rw [← hslot_j1.2.2.2.1, ← hslot_j.2.2.2.1]
          exact hdyn
      · exact ⟨Or.inr ⟨rfl, rfl⟩, Ne.symm hmin⟩
  · have heq : stepState dim j s
        = { s with lists := s.lists.set dim (swapAdj (s.lists.getD dim []) j) } := by
      unfold stepState
      dsimp only
      rw [if_neg htog]
    rw [heq]
    refine SAPInv_swapAdj objs V s dim j hdim hj hinv ?_
    intro i1 i2 h12 h1 hm
    refine (ordP_swapAdj objs (fun o m => V o m dim) (s.lists.getD dim []) j hj
      hwfd i1 i2 h1 (by omega) (by omega)).2 ?_
    rintro ⟨hobj, hmins⟩
    apply htog
    have hne' : ((s.lists.getD dim []).getD (j + 1) dummyProxy).objectIndex
        ≠ ((s.lists.getD dim []).getD j dummyProxy).objectIndex := by
      rcases hobj with ⟨ho1, ho2⟩ | ⟨ho1, ho2⟩ <;> omega
    refine ⟨?_, Ne.symm hmins, ?_, ?_⟩
    · rw [hslot_j1.2.1, hslot_j.2.1]
      intro he
      exact hne' (objAt_id_inj objs hinv.idsNodup _ _ hslot_j1.1 hslot_j.1 he)
    · rw [hslot_j1.2.2.1, hslot_j.2.2.1]
      rcases hobj with ⟨ho1, ho2⟩ | ⟨ho1, ho2⟩
      · rw [ho1, ho2, Nat.and_comm]
        exact hm.1
      · rw [ho1, ho2]
        exact hm.1
    · rw [hslot_j1.2.2.2.1, hslot_j.2.2.2.1]
      rcases hobj with ⟨ho1, ho2⟩ | ⟨ho1, ho2⟩
      · rw [ho1, ho2, Bool.or_comm]
        exact hm.2
      · rw [ho1, ho2]
        exact hm.2

/-- Every pass of the inner loop keeps the invariant. -/
theorem sortInner_SAPInv (objs : List BroadphaseObject) (V : ℕ → Bool → ℕ → ℚ)
    (dim start : ℕ) (hdim : dim < 3) :
    ∀ (j : ℕ) (s : SweepAndPruneBroadphase), j < (s.lists.getD dim []).length →
      SAPInv objs V s → SAPInv objs V (sortInner dim start j s) := by
  intro j
  induction j with
  | zero =>
    intro s _ hinv
    exact hinv
  | succ j ih =>
    intro s hj hinv
    rw [sortInner_succ_eq dim start j s hj]
    split_ifs with hg
    · apply ih
      · rw [stepState_lists, getD_set_self _ _ _ _ (by rw [hinv.listsLen]; exact hdim),
          swapAdj_length]
        omega
      · exact stepState_SAPInv objs V s dim j hdim hj hinv
    · exact hinv

theorem foldl_sortInner_SAPInv (objs : List BroadphaseObject) (V : ℕ → Bool → ℕ → ℚ)
    (dim start : ℕ) (hdim : dim < 3) :
    ∀ (is : List ℕ) (s : SweepAndPruneBroadphase), SAPInv objs V s →
      (∀ i ∈ is, i < 2 * objs.length) →
      SAPInv objs V (is.foldl (fun acc i => sortInner dim start i acc) s) := by
  intro is
  induction is with
  | nil =>
    intro s hinv _
    exact hinv
  | cons i rest ih =>
    intro s hinv hbound
    rw [List.foldl_cons]
    apply ih
    · exact sortInner_SAPInv objs V dim start hdim i s
        (by rw [(hinv.wf dim hdim).1]; exact hbound i (List.mem_cons_self i rest)) hinv
    · intro x hx
      exact hbound x (List.mem_cons_of_mem i hx)

/-- The invariant never mentions the sort windows. -/
theorem SAPInv_setWindows (objs : List BroadphaseObject) (V : ℕ → Bool → ℕ → ℚ)
    (s : SweepAndPruneBroadphase) (W1 : List (WithTop ℤ)) (W2 : List (WithBot ℤ))
    (hinv : SAPInv objs V s) :
    SAPInv objs V { s with sortStarts := W1, sortEnds := W2 } :=
  ⟨hinv.count, hinv.listsLen, hinv.ids, hinv.idsNodup, hinv.flagsLen, hinv.flagsSmall,
    hinv.wf, hinv.flagBits, hinv.interNodup, hinv.interIff⟩

/-- Nor the `needsSort` flag. -/
theorem SAPInv_setNeedsSort (objs : List BroadphaseObject) (V : ℕ → Bool → ℕ → ℚ)
    (s : SweepAndPruneBroadphase) (b : Bool) (hinv : SAPInv objs V s) :
    SAPInv objs V { s with needsSort := b } :=
  ⟨hinv.count, hinv.listsLen, hinv.ids, hinv.idsNodup, hinv.flagsLen, hinv.flagsSmall,
    hinv.wf, hinv.flagBits, hinv.interNodup, hinv.interIff⟩

theorem sortMain_SAPInv (objs : List BroadphaseObject) (V : ℕ → Bool → ℕ → ℚ)
    (dim : ℕ) (hdim : dim < 3) (s1 : SweepAndPruneBroadphase)
    (hinv1 : SAPInv objs V s1) :
    SAPInv objs V ((List.range' 1 ((s1.lists.getD 0 []).length - 1)).foldl
      (fun acc i => sortInner dim 0 i acc) s1) := by
  apply foldl_sortInner_SAPInv objs V dim 0 hdim _ s1 hinv1
  intro i hi
  obtain ⟨h1i, h2i⟩ := List.mem_range'_1.mp hi
  have hlen0 := (hinv1.wf 0 (by norm_num)).1
  omega

/-- `sort(dimension)` preserves the sweep-and-prune invariant. -/
theorem sort_SAPInv (objs : List BroadphaseObject) (V : ℕ → Bool → ℕ → ℚ)
    (s : SweepAndPruneBroadphase) (dim : ℕ) (hdim : dim < 3)
    (hinv : SAPInv objs V s) : SAPInv objs V (s.sort dim) := by
  unfold SweepAndPruneBroadphase.sort
  dsimp only
  simp only [Nat.zero_add, Nat.sub_zero]
  exact SAPInv_setWindows objs V _ _ _
    (sortMain_SAPInv objs V dim hdim _ (SAPInv_setWindows objs V s _ _ hinv))

/-- `recompute()` preserves the sweep-and-prune invariant. -/
theorem recompute_SAPInv (objs : List BroadphaseObject) (V : ℕ → Bool → ℕ → ℚ)
    (s : SweepAndPruneBroadphase) (hinv : SAPInv objs V s) :
    SAPInv objs V s.recompute := by
  unfold SweepAndPruneBroadphase.recompute
  split_ifs
  · exact SAPInv_setNeedsSort objs V _ _
      (sort_SAPInv objs V _ 2 (by norm_num)
        (sort_SAPInv objs V _ 1 (by norm_num)
          (sort_SAPInv objs V _ 0 (by norm_num) hinv)))
  · exact hinv

/-! ## Establishing the invariant along a chain of inserts -/

theorem getD_append_left {α : Type} (l1 l2 : List α) (k : ℕ) (d : α)
    (h : k < l1.length) : (l1 ++ l2).getD k d = l1.getD k d := by
  simp [List.getD, List.getElem?_append, h]

theorem getD_append_self {α : Type} (l : List α) (a d : α) :
    (l ++ [a]).getD l.length d = a := by
  simp [List.getD, List.getElem?_concat_length]

theorem flagsRead_zero (flags : List ℕ) (hz : ∀ v ∈ flags, v = 0) (i : ℤ) :
    flagsRead flags i = 0 := by
  unfold flagsRead
  split
  · rcases Nat.lt_or_ge i.toNat flags.length with hlt | hge
    · exact hz _ (getD_mem _ _ _ hlt)
    · exact List.getD_eq_default _ _ hge
  · rfl

/-- Appending proxies of a fresh object does not disturb the roles of the old
objects. -/
theorem roleAt_append (L E : List ObjectProxy) (N : ℕ)
    (hE : ∀ p ∈ E, p.objectIndex = N) (o : ℕ) (ho : o < N) (m : Bool) (k : ℕ) :
    roleAt (L ++ E) o m k ↔ roleAt L o m k := by
  unfold roleAt
  by_cases hk : k < L.length
  · rw [getD_append_left _ _ _ _ hk]
    constructor
    · rintro ⟨_, h2, h3⟩
      exact ⟨hk, h2, h3⟩
    · rintro ⟨_, h2, h3⟩
      exact ⟨by rw [List.length_append]; omega, h2, h3⟩
  · constructor
    · rintro ⟨h1, h2, h3⟩
      rw [List.length_append] at h1
      exfalso
      have hbE : k - L.length < E.length := by omega
      have hbLE : k < (L ++ E).length := by rw [List.length_append]; omega
      have hkE : (L ++ E).getD k dummyProxy = E.getD (k - L.length) dummyProxy := by
        rw [List.getD_eq_getElem (L ++ E) dummyProxy hbLE,
          List.getD_eq_getElem E dummyProxy hbE]
        exact List.getElem_append_right (le_of_not_lt hk)
      rw [hkE] at h2
      have hmem : E.getD (k - L.length) dummyProxy ∈ E := getD_mem _ _ _ (by omega)
      rw [hE _ hmem] at h2
      omega
    · rintro ⟨h1, _, _⟩
      exact absurd h1 hk

theorem ordP_append (L E : List ObjectProxy) (N : ℕ) (hE : ∀ p ∈ E, p.objectIndex = N)
    (i1 i2 : ℕ) (h1 : i1 < N) (h2 : i2 < N) :
    ordP (L ++ E) i1 i2 ↔ ordP L i1 i2 := by
  unfold ordP
  constructor
  · intro h p1 q2 p2 q1 hp1 hq2 hp2 hq1
    exact h p1 q2 p2 q1
      ((roleAt_append L E N hE i1 h1 true p1).mpr hp1)
      ((roleAt_append L E N hE i2 h2 false q2).mpr hq2)
      ((roleAt_append L E N hE i2 h2 true p2).mpr hp2)
      ((roleAt_append L E N hE i1 h1 false q1).mpr hq1)
  · intro h p1 q2 p2 q1 hp1 hq2 hp2 hq1
    exact h p1 q2 p2 q1
      ((roleAt_append L E N hE i1 h1 true p1).mp hp1)
      ((roleAt_append L E N hE i2 h2 false q2).mp hq2)
      ((roleAt_append L E N hE i2 h2 true p2).mp hp2)
      ((roleAt_append L E N hE i1 h1 false q1).mp hq1)

/-- Appending a fresh object's min and max proxies to a well-formed per-axis list
yields one for the extended object list and extended value assignment. -/
theorem listWF_pushPair (objs : List BroadphaseObject) (V : ℕ → Bool → ℚ)
    (o : BroadphaseObject) (Vmin Vmax : ℚ) (L : List ObjectProxy)
    (hwf : listWF objs V L) (Pmin Pmax : ObjectProxy)
    (hmin1 : Pmin.objectIndex = objs.length) (hmin2 : Pmin.objectId = o.id)
    (hmin3 : Pmin.min = true) (hmin4 : Pmin.mask = o.collisionDetectionMask)
    (hmin5 : Pmin.dynamic = o.dynamic) (hmin6 : Pmin.value = Vmin)
    (hmax1 : Pmax.objectIndex = objs.length) (hmax2 : Pmax.objectId = o.id)
    (hmax3 : Pmax.min = false) (hmax4 : Pmax.mask = o.collisionDetectionMask)
    (hmax5 : Pmax.dynamic = o.dynamic) (hmax6 : Pmax.value = Vmax) :
    listWF (objs ++ [o])
      (fun i m => if i = objs.length then (if m then Vmin else Vmax) else V i m)
      ((L ++ [Pmin]) ++ [Pmax]) := by
  obtain ⟨hlen, hslots, hinj, hex⟩ := hwf
  have hgetL : ∀ k, k < L.length →
      ((L ++ [Pmin]) ++ [Pmax]).getD k dummyProxy = L.getD k dummyProxy := by
    intro k hk
    rw [getD_append_left _ _ _ _ (by simp; omega), getD_append_left _ _ _ _ hk]
  have hgetmin : ((L ++ [Pmin]) ++ [Pmax]).getD L.length dummyProxy = Pmin := by
    rw [getD_append_left _ _ _ _ (by simp), getD_append_self]
  have hgetmax : ((L ++ [Pmin]) ++ [Pmax]).getD (L.length + 1) dummyProxy = Pmax := by
    have h : (L ++ [Pmin]).length = L.length + 1 := by simp
    rw [← h, getD_append_self]
  have hlen' : ((L ++ [Pmin]) ++ [Pmax]).length = 2 * (objs.length + 1) := by
    simp only [List.length_append, List.length_singleton]
    omega
  have hobjAt : ∀ i, i < objs.length → objAt (objs ++ [o]) i = objAt objs i := by
    intro i hi
    unfold objAt
    exact getD_append_left _ _ _ _ hi
  have hobjAtN : objAt (objs ++ [o]) objs.length = o := getD_append_self _ _ _
  refine ⟨?_, ?_, ?_, ?_⟩
  · rw [hlen', List.length_append, List.length_singleton]
  · intro k hk
    have hk' : k < L.length + 1 + 1 := by
      rw [hlen'] at hk
      omega
    by_cases hkL : k < L.length
    · rw [hgetL k hkL]
      obtain ⟨hs1, hs2, hs3, hs4, hs5⟩ := hslots k hkL
      refine ⟨?_, ?_, ?_, ?_, ?_⟩
      · rw [List.length_append, List.length_singleton]
        omega
      · rw [hobjAt _ hs1]
        exact hs2
      · rw [hobjAt _ hs1]
        exact hs3
      · rw [hobjAt _ hs1]
        exact hs4
      · show (L.getD k dummyProxy).value =
          if (L.getD k dummyProxy).objectIndex = objs.length
          then (if (L.getD k dummyProxy).min then Vmin else Vmax)
          else V (L.getD k dummyProxy).objectIndex (L.getD k dummyProxy).min
        rw [if_neg (by omega)]
        exact hs5
    · by_cases hkM : k = L.length
      · rw [hkM, hgetmin]
        refine ⟨?_, ?_, ?_, ?_, ?_⟩
        · rw [hmin1, List.length_append, List.length_singleton]
          omega
        · rw [hmin1, hobjAtN, hmin2]
        · rw [hmin1, hobjAtN, hmin4]
        · rw [hmin1, hobjAtN, hmin5]
        · show Pmin.value =
            if Pmin.objectIndex = objs.length
            then (if Pmin.min then Vmin else Vmax)
            else V Pmin.objectIndex Pmin.min
          rw [hmin1, if_pos rfl, hmin3, if_pos rfl]
          exact hmin6
      · have hkM1 : k = L.length + 1 := by omega
        rw [hkM1, hgetmax]
        refine ⟨?_, ?_, ?_, ?_, ?_⟩
        · rw [hmax1, List.length_append, List.length_singleton]
          omega
        · rw [hmax1, hobjAtN, hmax2]
        · rw [hmax1, hobjAtN, hmax4]
        · rw [hmax1, hobjAtN, hmax5]
        · show Pmax.value =
            if Pmax.objectIndex = objs.length
            then (if Pmax.min then Vmin else Vmax)
            else V Pmax.objectIndex Pmax.min
          rw [hmax1, if_pos rfl, hmax3]
          rw [if_neg (by simp)]
          exact hmax6
  · intro k1 k2 hk1 hk2 ho hm
    have hk1' : k1 < L.length + 1 + 1 := by
      rw [hlen'] at hk1
      omega
    have hk2' : k2 < L.length + 1 + 1 := by
      rw [hlen'] at hk2
      omega
    by_cases h1L : k1 < L.length <;> by_cases h2L : k2 < L.length
    · rw [hgetL k1 h1L, hgetL k2 h2L] at ho hm
      exact hinj k1 k2 h1L h2L ho hm
    · exfalso
      have ho1 : (L.getD k1 dummyProxy).objectIndex < objs.length := (hslots k1 h1L).1
      rw [hgetL k1 h1L] at ho
      by_cases h2M : k2 = L.length
      · rw [h2M, hgetmin, hmin1] at ho
        omega
      · have h2M1 : k2 = L.length + 1 := by omega
        rw [h2M1, hgetmax, hmax1] at ho
        omega
    · exfalso
      have ho2 : (L.getD k2 dummyProxy).objectIndex < objs.length := (hslots k2 h2L).1
      rw [hgetL k2 h2L] at ho
      by_cases h1M : k1 = L.length
      · rw [h1M, hgetmin, hmin1] at ho
        omega
      · have h1M1 : k1 = L.length + 1 := by omega
        rw [h1M1, hgetmax, hmax1] at ho
        omega
    · by_cases h1M : k1 = L.length <;> by_cases h2M : k2 = L.length
      · rw [h1M, h2M]
      · exfalso
        have h2M1 : k2 = L.length + 1 := by omega
        rw [h1M, hgetmin, hmin3] at hm
        rw [h2M1, hgetmax, hmax3] at hm
        simp at hm
      · exfalso
        have h1M1 : k1 = L.length + 1 := by omega
        rw [h2M, hgetmin, hmin3] at hm
        rw [h1M1, hgetmax, hmax3] at hm
        simp at hm
      · have h1M1 : k1 = L.length + 1 := by omega
        have h2M1 : k2 = L.length + 1 := by omega
        rw [h1M1, h2M1]
  · intro o' ho' m
    rw [List.length_append, List.length_singleton] at ho'
    by_cases hoN : o' < objs.length
    · obtain ⟨k, hk1, hk2, hk3⟩ := hex o' hoN m
      refine ⟨k, ?_, ?_, ?_⟩
      · rw [hlen']
        omega
      · rw [hgetL k hk1]
        exact hk2
      · rw [hgetL k hk1]
        exact hk3
    · have hoN' : o' = objs.length := by omega
      cases m
      · refine ⟨L.length + 1, ?_, ?_, ?_⟩
        · rw [hlen']
          omega
        · rw [hgetmax, hmax1, hoN']
        · rw [hgetmax, hmax3]
      · refine ⟨L.length, ?_, ?_, ?_⟩
        · rw [hlen']
          omega
        · rw [hgetmin, hmin1, hoN']
        · rw [hgetmin, hmin3]

/-- The per-axis value assignment extended with a new object's box components at
index `N`. -/
def extendV (V : ℕ → Bool → ℕ → ℚ) (N : ℕ) (o : BroadphaseObject) :
    ℕ → Bool → ℕ → ℚ :=
  fun i m d => if i = N
    then (if m then o.boundingBox.min.getComponent d
      else o.boundingBox.max.getComponent d)
    else V i m d

/-- States reachable by inserts alone: no toggle ever ran, so no flag byte is set
and nothing was reported. -/
def ZeroInv (s : SweepAndPruneBroadphase) : Prop :=
  s.anyFlagSet = false ∧ (∀ v ∈ s.flags, v = 0) ∧ s.intersections = []

/-- The min proxy `insert` appends for the new object on axis `d`. -/
def freshMin (s : SweepAndPruneBroadphase) (o : BroadphaseObject) (d : ℕ) :
    ObjectProxy :=
  { objectIndex := s.objectCount, objectId := o.id, min := true,
    value := o.boundingBox.min.getComponent d,
    index := ((s.lists.getD d []).length : ℤ),
    mask := o.collisionDetectionMask, dynamic := o.dynamic }

/-- The max proxy `insert` appends for the new object on axis `d`. -/
def freshMax (s : SweepAndPruneBroadphase) (o : BroadphaseObject) (d : ℕ) :
    ObjectProxy :=
  { objectIndex := s.objectCount, objectId := o.id, min := false,
    value := o.boundingBox.max.getComponent d,
    index := ((s.lists.getD d [] ++ [freshMin s o d]).length : ℤ),
    mask := o.collisionDetectionMask, dynamic := o.dynamic }

theorem objAt_append_left (objs : List BroadphaseObject) (o : BroadphaseObject)
    (i : ℕ) (hi : i < objs.length) : objAt (objs ++ [o]) i = objAt objs i := by
  unfold objAt
  exact getD_append_left _ _ _ _ hi

theorem objAt_append_self (objs : List BroadphaseObject) (o : BroadphaseObject) :
    objAt (objs ++ [o]) objs.length = o := by
  unfold objAt
  exact getD_append_self _ _ _

theorem insert_lists_getD (s : SweepAndPruneBroadphase) (o : BroadphaseObject)
    (h3 : s.lists.length = 3) (d : ℕ) (hd : d < 3) :
    (s.insert o).lists.getD d []
      = (s.lists.getD d [] ++ [freshMin s o d]) ++ [freshMax s o d] := by
  unfold SweepAndPruneBroadphase.insert freshMin freshMax
  dsimp only
  interval_cases d
  · rw [getD_set_ne _ _ _ _ _ (by omega), getD_set_ne _ _ _ _ _ (by omega),
      getD_set_self _ _ _ _ (by omega)]
    rfl
  · rw [getD_set_ne _ _ _ _ _ (by omega),
      getD_set_self _ _ _ _ (by rw [List.length_set]; omega)]
    rfl
  · rw [getD_set_self _ _ _ _ (by rw [List.length_set, List.length_set]; omega)]
    rfl

/-- `insert` on a toggle-free state: the invariant extends to the new object (all
order parities start true, matching the all-zero reallocated flag array), and the
state stays toggle-free. -/
theorem insert_SAPInv (objs : List BroadphaseObject) (V : ℕ → Bool → ℕ → ℚ)
    (s : SweepAndPruneBroadphase) (o : BroadphaseObject)
    (hinv : SAPInv objs V s) (hzero : ZeroInv s)
    (hid : o.id ∉ objs.map BroadphaseObject.id) :
    SAPInv (objs ++ [o]) (extendV V objs.length o) (s.insert o)
      ∧ ZeroInv (s.insert o) := by
  have hFL : (s.insert o).flags
      = List.replicate ((s.objectCount * s.objectCount + s.objectCount) / 2) 0 := by
    unfold SweepAndPruneBroadphase.insert
    dsimp only
    rw [hzero.1]
    rfl
  have hz' : ∀ v ∈ (s.insert o).flags, v = 0 := by
    rw [hFL]
    intro v hv
    exact List.eq_of_mem_replicate hv
  have hLL : (s.insert o).lists.length = s.lists.length := by
    unfold SweepAndPruneBroadphase.insert
    dsimp only
    simp [List.length_set]
  have hLd : ∀ d, d < 3 → (s.insert o).lists.getD d []
      = (s.lists.getD d [] ++ [freshMin s o d]) ++ [freshMax s o d] :=
    insert_lists_getD s o hinv.listsLen
  have hEfresh : ∀ d, ∀ p ∈ [freshMin s o d] ++ [freshMax s o d],
      p.objectIndex = objs.length := by
    intro d p hp
    rcases List.mem_append.mp hp with hp | hp <;> rw [List.mem_singleton] at hp <;>
      rw [hp]
    · exact hinv.count
    · exact hinv.count
  have hwfAll : ∀ d, d < 3 → listWF (objs ++ [o])
      (fun i m => extendV V objs.length o i m d) ((s.insert o).lists.getD d []) := by
    intro d hd
    rw [hLd d hd]
    exact listWF_pushPair objs (fun i m => V i m d) o
      (o.boundingBox.min.getComponent d) (o.boundingBox.max.getComponent d)
      (s.lists.getD d []) (hinv.wf d hd) (freshMin s o d) (freshMax s o d)
      hinv.count rfl rfl rfl rfl rfl hinv.count rfl rfl rfl rfl rfl
  have hINT : (s.insert o).intersections = s.intersections := rfl
  refine ⟨⟨?_, ?_, ?_, ?_, ?_, ?_, hwfAll, ?_, ?_, ?_⟩, ?_, hz', ?_⟩
  · show s.objectCount + 1 = (objs ++ [o]).length
    rw [hinv.count, List.length_append, List.length_singleton]
  · rw [hLL]
    exact hinv.listsLen
  · show s.objectToProxies ++ [o.id] = (objs ++ [o]).map BroadphaseObject.id
    rw [hinv.ids, List.map_append, List.map_singleton]
  · rw [List.map_append, List.map_singleton]
    refine List.Nodup.append hinv.idsNodup (List.nodup_singleton _) ?_
    intro a ha hb
    rw [List.mem_singleton] at hb
    rw [hb] at ha
    exact hid ha
  · rw [hFL, List.length_replicate, hinv.count, List.length_append,
      List.length_singleton]
    have h := flagsLen_as_triZ (objs.length + 1) (by omega)
    simpa using h
  · intro v hv
    have := hz' v hv
    omega
  · intro i1 i2 h12 h1
    have h1' : i1 < objs.length + 1 := by
      rw [List.length_append, List.length_singleton] at h1
      exact h1
    constructor
    · intro hm d hd
      rw [flagsRead_zero _ hz' _, Nat.zero_testBit]
      constructor
      · intro _
        rfl
      · intro _
        rw [hLd d hd, List.append_assoc]
        by_cases hi1N : i1 < objs.length
        · have hi2N : i2 < objs.length := by omega
          rw [ordP_append _ _ objs.length (hEfresh d) i1 i2 hi1N hi2N]
          have hm' : maskOK objs i1 i2 := by
            unfold maskOK at hm ⊢
            rw [objAt_append_left _ _ _ hi1N, objAt_append_left _ _ _ hi2N] at hm
            exact hm
          exact ((hinv.flagBits i1 i2 h12 hi1N).1 hm' d hd).mpr
            (by rw [flagsRead_zero _ hzero.2.1]; exact Nat.zero_testBit d)
        · have hi1N' : i1 = objs.length := by omega
          have hi2N : i2 < objs.length := by omega
          obtain ⟨q2, hq2⟩ := (hinv.wf d hd).2.2.2 i2 hi2N false
          obtain ⟨p2, hp2⟩ := (hinv.wf d hd).2.2.2 i2 hi2N true
          have hlen2 : (s.lists.getD d []).length = 2 * objs.length := (hinv.wf d hd).1
          have hwfL' : listWF (objs ++ [o])
              (fun i m => extendV V objs.length o i m d)
              (s.lists.getD d [] ++ ([freshMin s o d] ++ [freshMax s o d])) := by
            rw [← List.append_assoc, ← hLd d hd]
            exact hwfAll d hd
          have hrp1 : roleAt (s.lists.getD d [] ++ ([freshMin s o d] ++ [freshMax s o d]))
              i1 true (s.lists.getD d []).length := by
            refine ⟨by rw [List.length_append]; simp, ?_, ?_⟩
            · rw [← List.append_assoc, getD_append_left _ _ _ _ (by simp),
                getD_append_self]
              rw [hi1N']
              exact hinv.count
            · rw [← List.append_assoc, getD_append_left _ _ _ _ (by simp),
                getD_append_self]
              rfl
          have hrq1 : roleAt (s.lists.getD d [] ++ ([freshMin s o d] ++ [freshMax s o d]))
              i1 false ((s.lists.getD d []).length + 1) := by
            refine ⟨by rw [List.length_append]; simp, ?_, ?_⟩
            · rw [← List.append_assoc]
              have h' : (s.lists.getD d [] ++ [freshMin s o d]).length
                  = (s.lists.getD d []).length + 1 := by simp
              rw [← h', getD_append_self]
              rw [hi1N']
              exact hinv.count
            · rw [← List.append_assoc]
              have h' : (s.lists.getD d [] ++ [freshMin s o d]).length
                  = (s.lists.getD d []).length + 1 := by simp
              rw [← h', getD_append_self]
              rfl
          have hrq2 : roleAt (s.lists.getD d [] ++ ([freshMin s o d] ++ [freshMax s o d]))
              i2 false q2 :=
            (roleAt_append _ _ objs.length (hEfresh d) i2 hi2N false q2).mpr hq2
          have hrp2 : roleAt (s.lists.getD d [] ++ ([freshMin s o d] ++ [freshMax s o d]))
              i2 true p2 :=
            (roleAt_append _ _ objs.length (hEfresh d) i2 hi2N true p2).mpr hp2
          rw [ordP_iff_at (objs ++ [o]) _ _ hwfL' i1 i2 _ _ _ _ hrp1 hrq2 hrp2 hrq1]
          have hq2b : q2 < (s.lists.getD d []).length := hq2.1
          have hp2b : p2 < (s.lists.getD d []).length := hp2.1
          exact Or.inr ⟨by omega, by omega⟩
    · intro _
      exact flagsRead_zero _ hz' _
  · rw [hINT, hzero.2.2]
    exact List.nodup_nil
  · intro pr
    constructor
    · intro hm
      rw [hINT, hzero.2.2] at hm
      exact absurd hm (List.not_mem_nil pr)
    · rintro ⟨i1, i2, h12, h1, hpr, h7⟩
      rw [flagsRead_zero _ hz' _] at h7
      omega
  · show s.anyFlagSet = false
    exact hzero.1
  · rw [hINT]
    exact hzero.2.2

/-- The canonical value assignment: each proxy carries its object's current box
endpoint on its axis. -/
def boxesV (objs : List BroadphaseObject) : ℕ → Bool → ℕ → ℚ :=
  fun i m d => if m then (objAt objs i).boundingBox.min.getComponent d
    else (objAt objs i).boundingBox.max.getComponent d

/-- The invariant only reads the value assignment at inserted objects and real
axes. -/
theorem SAPInv_V_congr (objs : List BroadphaseObject) (V1 V2 : ℕ → Bool → ℕ → ℚ)
    (s : SweepAndPruneBroadphase)
    (h : ∀ i m d, i < objs.length → d < 3 → V1 i m d = V2 i m d)
    (hinv : SAPInv objs V1 s) : SAPInv objs V2 s := by
  refine ⟨hinv.count, hinv.listsLen, hinv.ids, hinv.idsNodup, hinv.flagsLen,
    hinv.flagsSmall, ?_, hinv.flagBits, hinv.interNodup, hinv.interIff⟩
  intro d hd
  obtain ⟨hlen, hslots, hinj, hex⟩ := hinv.wf d hd
  refine ⟨hlen, ?_, hinj, hex⟩
  intro k hk
  obtain ⟨hs1, hs2, hs3, hs4, hs5⟩ := hslots k hk
  exact ⟨hs1, hs2, hs3, hs4, by rw [hs5]; exact h _ _ d hs1 hd⟩

theorem extendV_boxesV (objs : List BroadphaseObject) (o : BroadphaseObject) :
    extendV (boxesV objs) objs.length o = boxesV (objs ++ [o]) := by
  funext i m d
  unfold extendV boxesV
  by_cases hiN : i = objs.length
  · rw [hiN, objAt_append_self, if_pos rfl]
  · rw [if_neg hiN]
    by_cases hlt : i < objs.length
    · rw [objAt_append_left _ _ _ hlt]
    · have h : objAt (objs ++ [o]) i = objAt objs i := by
        unfold objAt
        rw [List.getD_eq_default _ _ (by simp; omega), List.getD_eq_default _ _ (by omega)]
      rw [h]

/-- The freshly constructed broadphase satisfies the invariant for the empty
object list, toggle-free. -/
theorem SAPInv_init :
    SAPInv [] (boxesV []) SweepAndPruneBroadphase.init ∧
      ZeroInv SweepAndPruneBroadphase.init := by
  refine ⟨⟨rfl, rfl, rfl, List.nodup_nil, rfl, ?_, ?_, ?_, List.nodup_nil, ?_⟩,
    rfl, ?_, rfl⟩
  · intro v hv
    cases hv
  · intro d hd
    have hnil : (SweepAndPruneBroadphase.init.lists.getD d []) = ([] : List ObjectProxy) := by
      unfold SweepAndPruneBroadphase.init
      interval_cases d <;> rfl
    rw [hnil]
    refine ⟨rfl, ?_, ?_, ?_⟩
    · intro k hk
      simp at hk
    · intro k1 k2 hk1 hk2
      simp at hk1
    · intro o' ho'
      simp at ho'
  · intro i1 i2 h12 h1
    simp at h1
  · intro pr
    constructor
    · intro hm
      cases hm
    · rintro ⟨i1, i2, h12, h1, _, _⟩
      simp at h1
  · intro v hv
    cases hv

theorem runInserts_SAPInv : ∀ (objs pre : List BroadphaseObject)
    (s : SweepAndPruneBroadphase),
    SAPInv pre (boxesV pre) s → ZeroInv s →
    ((pre ++ objs).map BroadphaseObject.id).Nodup →
    SAPInv (pre ++ objs) (boxesV (pre ++ objs)) (runInserts s objs)
      ∧ ZeroInv (runInserts s objs) := by
  intro objs
  induction objs with
  | nil =>
    intro pre s hinv hzero _
    rw [List.append_nil]
    exact ⟨hinv, hzero⟩
  | cons o rest ih =>
    intro pre s hinv hzero hnd
    have hid : o.id ∉ pre.map BroadphaseObject.id := by
      intro hm
      rw [List.map_append] at hnd
      have h1 : o.id ∈ (o :: rest).map BroadphaseObject.id := by simp
      exact (List.disjoint_of_nodup_append hnd) hm h1
    obtain ⟨hinv', hzero'⟩ := insert_SAPInv pre (boxesV pre) s o hinv hzero hid
    rw [extendV_boxesV] at hinv'
    have heq : pre ++ o :: rest = (pre ++ [o]) ++ rest := by
      rw [List.append_assoc]
      rfl
    rw [heq]
    have hnd' : (((pre ++ [o]) ++ rest).map BroadphaseObject.id).Nodup := by
      rw [← heq]
      exact hnd
    exact ih (pre ++ [o]) (s.insert o) hinv' hzero' hnd'

/-! ## `update` of an already-inserted object -/

theorem findIdx?_none_forall {α : Type} (p : α → Bool) :
    ∀ (l : List α) (j : ℕ), l.findIdx? p j = none → ∀ a ∈ l, p a = false := by
  intro l
  induction l with
  | nil =>
    intro j _ a ha
    cases ha
  | cons x xs ih =>
    intro j h a ha
    rw [List.findIdx?_cons] at h
    by_cases hp : p x = true
    · rw [if_pos hp] at h
      cases h
    · rw [if_neg hp] at h
      rcases List.mem_cons.mp ha with he | hxs
      · rw [he]
        cases hpx : p x
        · rfl
        · exact absurd hpx hp
      · exact ih (j + 1) h a hxs

theorem findIdx?_some_bound {α : Type} (p : α → Bool) :
    ∀ (l : List α) (j i : ℕ), l.findIdx? p j = some i → j ≤ i ∧ i - j < l.length := by
  intro l
  induction l with
  | nil =>
    intro j i h
    cases h
  | cons x xs ih =>
    intro j i h
    rw [List.findIdx?_cons] at h
    by_cases hp : p x = true
    · rw [if_pos hp] at h
      cases h
      constructor
      · omega
      · simp
    · rw [if_neg hp] at h
      obtain ⟨h1, h2⟩ := ih (j + 1) i h
      constructor
      · omega
      · simp
        omega

theorem findIdx?_some_lt {α : Type} (p : α → Bool) (l : List α) (i : ℕ)
    (h : l.findIdx? p = some i) : i < l.length := by
  obtain ⟨h1, h2⟩ := findIdx?_some_bound p l 0 i h
  omega

theorem roleAt_map (L : List ObjectProxy) (G : ObjectProxy → ObjectProxy)
    (hoi : ∀ p, (G p).objectIndex = p.objectIndex)
    (hmn : ∀ p, (G p).min = p.min) (o : ℕ) (m : Bool) (k : ℕ) :
    roleAt (L.map G) o m k ↔ roleAt L o m k := by
  unfold roleAt
  rw [List.length_map]
  by_cases hk : k < L.length
  · have hget : (L.map G).getD k dummyProxy = G (L.getD k dummyProxy) := by
      rw [List.getD_eq_getElem _ _ (by simpa using hk), List.getD_eq_getElem _ _ hk,
        List.getElem_map]
    rw [hget, hoi, hmn]
  · constructor
    · rintro ⟨h1, _, _⟩
      exact absurd h1 hk
    · rintro ⟨h1, _, _⟩
      exact absurd h1 hk

theorem ordP_map (L : List ObjectProxy) (G : ObjectProxy → ObjectProxy)
    (hoi : ∀ p, (G p).objectIndex = p.objectIndex)
    (hmn : ∀ p, (G p).min = p.min) (i1 i2 : ℕ) :
    ordP (L.map G) i1 i2 ↔ ordP L i1 i2 := by
  unfold ordP
  constructor
  · intro h p1 q2 p2 q1 h1 h2 h3 h4
    exact h p1 q2 p2 q1 ((roleAt_map L G hoi hmn _ _ _).mpr h1)
      ((roleAt_map L G hoi hmn _ _ _).mpr h2)
      ((roleAt_map L G hoi hmn _ _ _).mpr h3)
      ((roleAt_map L G hoi hmn _ _ _).mpr h4)
  · intro h p1 q2 p2 q1 h1 h2 h3 h4
    exact h p1 q2 p2 q1 ((roleAt_map L G hoi hmn _ _ _).mp h1)
      ((roleAt_map L G hoi hmn _ _ _).mp h2)
      ((roleAt_map L G hoi hmn _ _ _).mp h3)
      ((roleAt_map L G hoi hmn _ _ _).mp h4)

theorem listWF_map_value (objs : List BroadphaseObject) (V V' : ℕ → Bool → ℚ)
    (L : List ObjectProxy) (hwf : listWF objs V L) (G : ObjectProxy → ObjectProxy)
    (hoi : ∀ p, (G p).objectIndex = p.objectIndex)
    (hidp : ∀ p, (G p).objectId = p.objectId)
    (hmn : ∀ p, (G p).min = p.min)
    (hmask : ∀ p, (G p).mask = p.mask)
    (hdyn : ∀ p, (G p).dynamic = p.dynamic)
    (hval : ∀ p, p.objectIndex < objs.length → p.value = V p.objectIndex p.min →
      (G p).value = V' p.objectIndex p.min) :
    listWF objs V' (L.map G) := by
  obtain ⟨hlen, hslots, hinj, hex⟩ := hwf
  have hget : ∀ k, k < L.length →
      (L.map G).getD k dummyProxy = G (L.getD k dummyProxy) := by
    intro k hk
    rw [List.getD_eq_getElem _ _ (by simpa using hk), List.getD_eq_getElem _ _ hk,
      List.getElem_map]
  refine ⟨by rw [List.length_map]; exact hlen, ?_, ?_, ?_⟩
  · intro k hk
    have hk' : k < L.length := by simpa using hk
    obtain ⟨hs1, hs2, hs3, hs4, hs5⟩ := hslots k hk'
    rw [hget k hk', hoi, hidp, hmask, hdyn, hmn]
    exact ⟨hs1, hs2, hs3, hs4, hval _ hs1 hs5⟩
  · intro k1 k2 hk1 hk2 ho hm
    have hk1' : k1 < L.length := by simpa using hk1
    have hk2' : k2 < L.length := by simpa using hk2
    rw [hget k1 hk1', hget k2 hk2', hoi, hoi] at ho
    rw [hget k1 hk1', hget k2 hk2', hmn, hmn] at hm
    exact hinj k1 k2 hk1' hk2' ho hm
  · intro o' ho' m
    obtain ⟨k, hk1, hk2, hk3⟩ := hex o' ho' m
    exact ⟨k, (roleAt_map L G hoi hmn o' m k).mpr ⟨hk1, hk2, hk3⟩⟩

/-- The value assignment after `updateDim` rewrites one object's endpoints on one
axis. -/
def updV (V : ℕ → Bool → ℕ → ℚ) (oIdx : ℕ) (box : Box3) (dim : ℕ) :
    ℕ → Bool → ℕ → ℚ :=
  fun i m d => if i = oIdx ∧ d = dim
    then (if m then box.min.getComponent d else box.max.getComponent d)
    else V i m d

theorem updateDim_proj (oIdx : ℕ) (box : Box3) (dim : ℕ)
    (s : SweepAndPruneBroadphase) :
    (updateDim oIdx box dim s).lists = s.lists.set dim ((s.lists.getD dim []).map
      (fun p => if p.objectIndex = oIdx then
        { p with value := (if p.min then box.min else box.max).getComponent dim }
      else p)) ∧
    (updateDim oIdx box dim s).flags = s.flags ∧
    (updateDim oIdx box dim s).intersections = s.intersections ∧
    (updateDim oIdx box dim s).objectToProxies = s.objectToProxies ∧
    (updateDim oIdx box dim s).objectCount = s.objectCount ∧
    (updateDim oIdx box dim s).anyFlagSet = s.anyFlagSet ∧
    (updateDim oIdx box dim s).needsSort = s.needsSort := by
  unfold updateDim
  dsimp only
  exact ⟨rfl, rfl, rfl, rfl, rfl, rfl, rfl⟩

/-- `updateDim` preserves the invariant, with the object's endpoints on the updated
axis rewritten in the value assignment. -/
theorem updateDim_SAPInv (objs : List BroadphaseObject) (V : ℕ → Bool → ℕ → ℚ)
    (s : SweepAndPruneBroadphase) (oIdx : ℕ) (box : Box3) (dim : ℕ) (hdim : dim < 3)
    (hinv : SAPInv objs V s) :
    SAPInv objs (updV V oIdx box dim) (updateDim oIdx box dim s) := by
  obtain ⟨hL, hF, hI, hP, hC, hA, hN⟩ := updateDim_proj oIdx box dim s
  have hN3 : dim < s.lists.length := by rw [hinv.listsLen]; exact hdim
  have hgetdim : (updateDim oIdx box dim s).lists.getD dim []
      = (s.lists.getD dim []).map (fun p => if p.objectIndex = oIdx then
          { p with value := (if p.min then box.min else box.max).getComponent dim }
        else p) := by
    rw [hL]
    exact getD_set_self _ _ _ _ hN3
  have hgetne : ∀ d, d ≠ dim →
      (updateDim oIdx box dim s).lists.getD d [] = s.lists.getD d [] := by
    intro d hd
    rw [hL]
    exact getD_set_ne _ _ _ _ _ (fun h => hd h.symm)
  have hoi : ∀ p : ObjectProxy,
      ((fun p => if p.objectIndex = oIdx then
          { p with value := (if p.min then box.min else box.max).getComponent dim }
        else p) p).objectIndex = p.objectIndex := by
    intro p
    dsimp only
    split_ifs <;> rfl
  have hmn : ∀ p : ObjectProxy,
      ((fun p => if p.objectIndex = oIdx then
          { p with value := (if p.min then box.min else box.max).getComponent dim }
        else p) p).min = p.min := by
    intro p
    dsimp only
    split_ifs <;> rfl
  refine ⟨by rw [hC]; exact hinv.count, by rw [hL, List.length_set]; exact hinv.listsLen,
    by rw [hP]; exact hinv.ids, hinv.idsNodup, by rw [hF]; exact hinv.flagsLen,
    by rw [hF]; exact hinv.flagsSmall, ?_, ?_, by rw [hI]; exact hinv.interNodup, ?_⟩
  · intro d hd
    by_cases hddim : d = dim
    · rw [hddim, hgetdim]
      refine listWF_map_value objs (fun i m => V i m dim)
        (fun i m => updV V oIdx box dim i m dim) _ (hinv.wf dim hdim) _ hoi
        (by intro p; split_ifs <;> rfl) hmn
        (by intro p; split_ifs <;> rfl)
        (by intro p; split_ifs <;> rfl) ?_
      intro p hpN hpv
      dsimp only
      by_cases hpo : p.objectIndex = oIdx
      · rw [if_pos hpo]
        show (if p.min then box.min else box.max).getComponent dim
          = updV V oIdx box dim p.objectIndex p.min dim
        unfold updV
        rw [if_pos (show p.objectIndex = oIdx ∧ dim = dim from ⟨hpo, rfl⟩)]
        cases hpm : p.min <;> rfl
      · rw [if_neg hpo]
        show p.value = updV V oIdx box dim p.objectIndex p.min dim
        unfold updV
        rw [if_neg (fun h => hpo h.1)]
        exact hpv
    · rw [hgetne d hddim]
      obtain ⟨hlen, hslots, hinj, hex⟩ := hinv.wf d hd
      refine ⟨hlen, ?_, hinj, hex⟩
      intro k hk
      obtain ⟨hs1, hs2, hs3, hs4, hs5⟩ := hslots k hk
      refine ⟨hs1, hs2, hs3, hs4, ?_⟩
      show _ = updV V oIdx box dim _ _ d
      unfold updV
      rw [if_neg (fun h => hddim h.2)]
      exact hs5
  · intro i1 i2 h12 h1
    refine ⟨?_, by rw [hF]; exact (hinv.flagBits i1 i2 h12 h1).2⟩
    intro hm d hd
    rw [hF]
    by_cases hddim : d = dim
    · rw [hddim, hgetdim, ordP_map _ _ hoi hmn]
      exact (hinv.flagBits i1 i2 h12 h1).1 hm dim hdim
    · rw [hgetne d hddim]
      exact (hinv.flagBits i1 i2 h12 h1).1 hm d hd
  · intro pr
    rw [hI, hF]
    exact hinv.interIff pr

/-- The object list with one entry's bounding box replaced (the mutation `update`
observes on an already-inserted object). -/
def setBoxAt (objs : List BroadphaseObject) (i : ℕ) (box : Box3) :
    List BroadphaseObject :=
  objs.set i { objs.getD i dummyObject with boundingBox := box }

theorem objAt_setBoxAt_self (objs : List BroadphaseObject) (i : ℕ) (box : Box3)
    (hi : i < objs.length) :
    objAt (setBoxAt objs i box) i = { objs.getD i dummyObject with boundingBox := box } := by
  unfold setBoxAt objAt
  exact getD_set_self _ _ _ _ hi

theorem objAt_setBoxAt_ne (objs : List BroadphaseObject) (i : ℕ) (box : Box3)
    (k : ℕ) (hk : i ≠ k) : objAt (setBoxAt objs i box) k = objAt objs k := by
  unfold setBoxAt objAt
  exact getD_set_ne _ _ _ _ _ hk

theorem setBoxAt_length (objs : List BroadphaseObject) (i : ℕ) (box : Box3) :
    (setBoxAt objs i box).length = objs.length := by
  unfold setBoxAt
  exact List.length_set _ _ _

theorem setBoxAt_map_id (objs : List BroadphaseObject) (i : ℕ) (box : Box3) :
    (setBoxAt objs i box).map BroadphaseObject.id = objs.map BroadphaseObject.id := by
  unfold setBoxAt
  rw [List.map_set]
  by_cases hi : i < objs.length
  · apply List.ext_getElem (by simp)
    intro n h1 h2
    rw [List.getElem_set]
    split
    · next hn =>
      subst hn
      rw [List.getElem_map]
      show (objs.getD i dummyObject).id = (objs[i]).id
      rw [List.getD_eq_getElem _ _ hi]
    · rfl
  · rw [List.set_eq_of_length_le (by simpa using hi)]

theorem updV3_boxesV (objsCur : List BroadphaseObject) (oIdx : ℕ) (box : Box3)
    (hoIdx : oIdx < objsCur.length) :
    ∀ i m d, i < objsCur.length → d < 3 →
      updV (updV (updV (boxesV objsCur) oIdx box 0) oIdx box 1) oIdx box 2 i m d
        = boxesV (setBoxAt objsCur oIdx box) i m d := by
  intro i m d hi hd
  unfold updV boxesV
  by_cases hio : i = oIdx
  · have hobj : objAt (setBoxAt objsCur oIdx box) i
        = { objsCur.getD oIdx dummyObject with boundingBox := box } := by
      rw [hio]
      exact objAt_setBoxAt_self _ _ _ hoIdx
    rw [hobj]
    interval_cases d
    · rw [if_neg (by rintro ⟨_, h⟩; exact absurd h (by norm_num)),
        if_neg (by rintro ⟨_, h⟩; exact absurd h (by norm_num)),
        if_pos (show i = oIdx ∧ (0 : ℕ) = 0 from ⟨hio, rfl⟩)]
    · rw [if_neg (by rintro ⟨_, h⟩; exact absurd h (by norm_num)),
        if_pos (show i = oIdx ∧ (1 : ℕ) = 1 from ⟨hio, rfl⟩)]
    · rw [if_pos (show i = oIdx ∧ (2 : ℕ) = 2 from ⟨hio, rfl⟩)]
  · rw [if_neg (fun h => hio h.1), if_neg (fun h => hio h.1),
      if_neg (fun h => hio h.1),
      objAt_setBoxAt_ne _ _ _ _ (fun h => hio h.symm)]

/-- The invariant only reads the objects' ids, masks and dynamic flags — not their
boxes — so it transfers across a box replacement. -/
theorem SAPInv_objs_congr (objs1 objs2 : List BroadphaseObject)
    (V : ℕ → Bool → ℕ → ℚ) (s : SweepAndPruneBroadphase)
    (hlen : objs2.length = objs1.length)
    (hid : ∀ i, i < objs1.length → (objAt objs2 i).id = (objAt objs1 i).id)
    (hmask : ∀ i, i < objs1.length →
      (objAt objs2 i).collisionDetectionMask = (objAt objs1 i).collisionDetectionMask)
    (hdyn : ∀ i, i < objs1.length → (objAt objs2 i).dynamic = (objAt objs1 i).dynamic)
    (hmapid : objs2.map BroadphaseObject.id = objs1.map BroadphaseObject.id)
    (hinv : SAPInv objs1 V s) : SAPInv objs2 V s := by
  have hmok : ∀ i1 i2, i1 < objs1.length → i2 < objs1.length →
      (maskOK objs2 i1 i2 ↔ maskOK objs1 i1 i2) := by
    intro i1 i2 h1 h2
    unfold maskOK
    rw [hmask i1 h1, hmask i2 h2, hdyn i1 h1, hdyn i2 h2]
  refine ⟨by rw [hlen]; exact hinv.count, hinv.listsLen,
    by rw [hmapid]; exact hinv.ids, by rw [hmapid]; exact hinv.idsNodup,
    by rw [hlen]; exact hinv.flagsLen, hinv.flagsSmall, ?_, ?_, hinv.interNodup, ?_⟩
  · intro d hd
    obtain ⟨hl, hslots, hinj, hex⟩ := hinv.wf d hd
    refine ⟨by rw [hlen]; exact hl, ?_, hinj, ?_⟩
    · intro k hk
      obtain ⟨hs1, hs2, hs3, hs4, hs5⟩ := hslots k hk
      exact ⟨by omega, by rw [hid _ hs1]; exact hs2, by rw [hmask _ hs1]; exact hs3,
        by rw [hdyn _ hs1]; exact hs4, hs5⟩
    · intro o' ho' m
      exact hex o' (by omega) m
  · intro i1 i2 h12 h1
    have h1' : i1 < objs1.length := by omega
    have hcast : ((objs2.length : ℕ) : ℤ) = ((objs1.length : ℕ) : ℤ) := by
      rw [hlen]
    constructor
    · intro hm d hd
      rw [hcast]
      exact (hinv.flagBits i1 i2 h12 h1').1 ((hmok i1 i2 h1' (by omega)).mp hm) d hd
    · intro hnm
      rw [hcast]
      exact (hinv.flagBits i1 i2 h12 h1').2
        (fun hm => hnm ((hmok i1 i2 h1' (by omega)).mpr hm))
  · intro pr
    rw [hinv.interIff pr]
    constructor
    · rintro ⟨i1, i2, h12, h1, hpr, h7⟩
      exact ⟨i1, i2, h12, by omega,
        by rw [hid i1 h1, hid i2 (by omega)]; exact hpr, by rw [hlen]; exact h7⟩
    · rintro ⟨i1, i2, h12, h1, hpr, h7⟩
      have h1' : i1 < objs1.length := by omega
      exact ⟨i1, i2, h12, h1',
        by rw [← hid i1 h1', ← hid i2 (by omega)]; exact hpr,
        by rw [← hlen]; exact h7⟩

/-- The effect of one `update(object)` call on the tracked object list: replace the
box of the object with that id, or append the object when it was never inserted
(`update` falls back to `insert`). -/
def applyUp (objsCur : List BroadphaseObject) (u : BroadphaseObject) :
    List BroadphaseObject :=
  match (objsCur.map BroadphaseObject.id).findIdx? (fun x => x == u.id) with
  | none => objsCur ++ [u]
  | some oIdx => setBoxAt objsCur oIdx u.boundingBox

/-- The tracked object list after a batch of `update` calls. -/
def applyUps (objsCur : List BroadphaseObject) (ups : List BroadphaseObject) :
    List BroadphaseObject :=
  ups.foldl applyUp objsCur

/-- `update` preserves the invariant against the tracked object list. -/
theorem update_SAPInv (objsCur : List BroadphaseObject) (s : SweepAndPruneBroadphase)
    (u : BroadphaseObject)
    (hinv : SAPInv objsCur (boxesV objsCur) s) (hzero : ZeroInv s) :
    SAPInv (applyUp objsCur u) (boxesV (applyUp objsCur u)) (s.update u)
      ∧ ZeroInv (s.update u) := by
  cases hfind : (objsCur.map BroadphaseObject.id).findIdx? (fun x => x == u.id) with
  | none =>
    have hupd : s.update u = s.insert u := by
      unfold SweepAndPruneBroadphase.update
      rw [hinv.ids, hfind]
    have happ : applyUp objsCur u = objsCur ++ [u] := by
      unfold applyUp
      rw [hfind]
    have hid : u.id ∉ objsCur.map BroadphaseObject.id := by
      intro hm
      have := findIdx?_none_forall _ _ _ hfind u.id hm
      simp at this
    rw [hupd, happ]
    obtain ⟨h1, h2⟩ := insert_SAPInv objsCur (boxesV objsCur) s u hinv hzero hid
    rw [extendV_boxesV] at h1
    exact ⟨h1, h2⟩
  | some oIdx =>
    have hoIdx : oIdx < objsCur.length := by
      have := findIdx?_some_lt _ _ _ hfind
      simpa using this
    have hupd : s.update u = { updateDim oIdx u.boundingBox 2
        (updateDim oIdx u.boundingBox 1 (updateDim oIdx u.boundingBox 0 s))
        with needsSort := true } := by
      unfold SweepAndPruneBroadphase.update
      rw [hinv.ids, hfind]
    have happ : applyUp objsCur u = setBoxAt objsCur oIdx u.boundingBox := by
      unfold applyUp
      rw [hfind]
    rw [hupd, happ]
    have h1 := updateDim_SAPInv _ _ _ oIdx u.boundingBox 0 (by norm_num) hinv
    have h2 := updateDim_SAPInv _ _ _ oIdx u.boundingBox 1 (by norm_num) h1
    have h3 := updateDim_SAPInv _ _ _ oIdx u.boundingBox 2 (by norm_num) h2
    have h4 := SAPInv_V_congr objsCur _ (boxesV (setBoxAt objsCur oIdx u.boundingBox)) _
      (fun i m d hi hd => updV3_boxesV objsCur oIdx u.boundingBox hoIdx i m d hi hd) h3
    have h5 := SAPInv_objs_congr objsCur (setBoxAt objsCur oIdx u.boundingBox)
      (boxesV (setBoxAt objsCur oIdx u.boundingBox)) _
      (setBoxAt_length _ _ _)
      (fun i hi => by
        by_cases hio : oIdx = i
        · rw [← hio, objAt_setBoxAt_self _ _ _ hoIdx]
          rfl
        · rw [objAt_setBoxAt_ne _ _ _ _ hio])
      (fun i hi => by
        by_cases hio : oIdx = i
        · rw [← hio, objAt_setBoxAt_self _ _ _ hoIdx]
          rfl
        · rw [objAt_setBoxAt_ne _ _ _ _ hio])
      (fun i hi => by
        by_cases hio : oIdx = i
        · rw [← hio, objAt_setBoxAt_self _ _ _ hoIdx]
          rfl
        · rw [objAt_setBoxAt_ne _ _ _ _ hio])
      (setBoxAt_map_id _ _ _) h4
    have p0 := updateDim_proj oIdx u.boundingBox 0 s
    have p1 := updateDim_proj oIdx u.boundingBox 1 (updateDim oIdx u.boundingBox 0 s)
    have p2 := updateDim_proj oIdx u.boundingBox 2
      (updateDim oIdx u.boundingBox 1 (updateDim oIdx u.boundingBox 0 s))
    refine ⟨SAPInv_setNeedsSort _ _ _ _ h5, ?_, ?_, ?_⟩
    · show (updateDim oIdx u.boundingBox 2
        (updateDim oIdx u.boundingBox 1 (updateDim oIdx u.boundingBox 0 s))).anyFlagSet
        = false
      rw [p2.2.2.2.2.2.1, p1.2.2.2.2.2.1, p0.2.2.2.2.2.1]
      exact hzero.1
    · show ∀ v ∈ (updateDim oIdx u.boundingBox 2
        (updateDim oIdx u.boundingBox 1 (updateDim oIdx u.boundingBox 0 s))).flags, v = 0
      rw [p2.2.1, p1.2.1, p0.2.1]
      exact hzero.2.1
    · show (updateDim oIdx u.boundingBox 2
        (updateDim oIdx u.boundingBox 1 (updateDim oIdx u.boundingBox 0 s))).intersections
        = []
      rw [p2.2.2.1, p1.2.2.1, p0.2.2.1]
      exact hzero.2.2

theorem runUpdates_SAPInv : ∀ (ups : List BroadphaseObject)
    (objsCur : List BroadphaseObject) (s : SweepAndPruneBroadphase),
    SAPInv objsCur (boxesV objsCur) s → ZeroInv s →
    SAPInv (applyUps objsCur ups) (boxesV (applyUps objsCur ups)) (runUpdates s ups)
      ∧ ZeroInv (runUpdates s ups) := by
  intro ups
  induction ups with
  | nil =>
    intro objsCur s hinv hzero
    exact ⟨hinv, hzero⟩
  | cons u rest ih =>
    intro objsCur s hinv hzero
    obtain ⟨h1, h2⟩ := update_SAPInv objsCur s u hinv hzero
    exact ih (applyUp objsCur u) (s.update u) h1 h2

/-- The full C1 scenario (inserts, updates, one `recompute`) ends in a state
satisfying the sweep-and-prune invariant against the tracked objects and their
current boxes. -/
theorem runScenario_SAPInv (objs ups : List BroadphaseObject)
    (hnd : (objs.map BroadphaseObject.id).Nodup) :
    SAPInv (applyUps objs ups) (boxesV (applyUps objs ups)) (runScenario objs ups) := by
  obtain ⟨hinv0, hzero0⟩ := SAPInv_init
  obtain ⟨hinv1, hzero1⟩ := runInserts_SAPInv objs [] SweepAndPruneBroadphase.init
    hinv0 hzero0 (by simpa using hnd)
  rw [List.nil_append] at hinv1
  obtain ⟨hinv2, _⟩ := runUpdates_SAPInv ups objs
    (runInserts SweepAndPruneBroadphase.init objs) hinv1 hzero1
  exact recompute_SAPInv _ _ _ hinv2

/-! ## The sort pass really sorts -/

/-- The pure list effect of `sortInner`: bubble the element at `j` down over
strictly greater predecessors. -/
def listBubble (start : ℕ) : ℕ → List ObjectProxy → List ObjectProxy
  | 0, l => l
  | j + 1, l =>
    if start < j + 1 ∧
        (l.getD j dummyProxy).value > (l.getD (j + 1) dummyProxy).value then
      listBubble start j (swapAdj l j)
    else l

theorem listBubble_length (start : ℕ) :
    ∀ (j : ℕ) (l : List ObjectProxy), (listBubble start j l).length = l.length := by
  intro j
  induction j with
  | zero =>
    intro l
    rfl
  | succ j ih =>
    intro l
    rw [listBubble]
    split_ifs
    · rw [ih, swapAdj_length]
    · rfl

/-- The first `n` positions hold nondecreasing values. -/
def sortedPfx (l : List ObjectProxy) (n : ℕ) : Prop :=
  ∀ a b, a < b → b < n →
    (l.getD a dummyProxy).value ≤ (l.getD b dummyProxy).value

/-- Bubbling the mover at `j` through a prefix that is sorted apart from it yields
a sorted prefix. -/
theorem listBubble_Q (i : ℕ) :
    ∀ (j : ℕ) (l : List ObjectProxy), j ≤ i → i < l.length →
    (∀ a b, a < b → b ≤ i → a ≠ j → b ≠ j →
      (l.getD a dummyProxy).value ≤ (l.getD b dummyProxy).value) →
    (∀ b, j < b → b ≤ i →
      (l.getD j dummyProxy).value ≤ (l.getD b dummyProxy).value) →
    ∀ a b, a < b → b ≤ i →
      ((listBubble 0 j l).getD a dummyProxy).value
        ≤ ((listBubble 0 j l).getD b dummyProxy).value := by
  intro j
  induction j with
  | zero =>
    intro l _ hi hQ1 hQ2 a b hab hbi
    show (l.getD a dummyProxy).value ≤ (l.getD b dummyProxy).value
    by_cases ha0 : a = 0
    · rw [ha0]
      exact hQ2 b (by omega) hbi
    · exact hQ1 a b hab hbi ha0 (by omega)
  | succ j ih =>
    intro l hji hi hQ1 hQ2
    have hj1 : j + 1 < l.length := by omega
    rw [listBubble]
    split_ifs with hg
    · obtain ⟨_, hgv⟩ := hg
      have hswget := swapAdj_getD l j hj1
      have hvalj : ((swapAdj l j).getD j dummyProxy).value
          = (l.getD (j + 1) dummyProxy).value := by
        rw [hswget j, if_pos rfl]
      have hvalj1 : ((swapAdj l j).getD (j + 1) dummyProxy).value
          = (l.getD j dummyProxy).value := by
        rw [hswget (j + 1), if_neg (by omega), if_pos rfl]
      have hvalo : ∀ m, m ≠ j → m ≠ j + 1 →
          ((swapAdj l j).getD m dummyProxy).value = (l.getD m dummyProxy).value := by
        intro m h1 h2
        rw [hswget m, if_neg h1, if_neg h2]
      apply ih (swapAdj l j) (by omega) (by rw [swapAdj_length]; omega)
      · intro a b hab hbi ha hb
        by_cases hbj1 : b = j + 1
        · rw [hbj1, hvalj1]
          by_cases haj1 : a = j + 1
          · omega
          · rw [hvalo a ha haj1]
            by_cases haj : a = j
            · omega
            · exact hQ1 a j (by omega) (by omega) haj1 (by omega)
        · by_cases haj1 : a = j + 1
          · rw [haj1, hvalj1, hvalo b hb hbj1]
            exact hQ1 j b (by omega) hbi (by omega) hbj1
          · rw [hvalo a ha haj1, hvalo b hb hbj1]
            exact hQ1 a b hab hbi haj1 hbj1
      · intro b hjb hbi
        rw [hvalj]
        by_cases hbj1 : b = j + 1
        · rw [hbj1, hvalj1]
          exact le_of_lt hgv
        · rw [hvalo b (by omega) hbj1]
          exact hQ2 b (by omega) hbi
    · have hle : (l.getD j dummyProxy).value ≤ (l.getD (j + 1) dummyProxy).value := by
        by_contra h
        exact hg ⟨by omega, lt_of_not_le h⟩
      intro a b hab hbi
      show (l.getD a dummyProxy).value ≤ (l.getD b dummyProxy).value
      by_cases hbj1 : b = j + 1
      · rw [hbj1]
        by_cases haj : a = j
        · rw [haj]
          exact hle
        · calc (l.getD a dummyProxy).value
              ≤ (l.getD j dummyProxy).value :=
                hQ1 a j (by omega) (by omega) (by omega) (by omega)
            _ ≤ (l.getD (j + 1) dummyProxy).value := hle
      · by_cases haj1 : a = j + 1
        · rw [haj1]
          exact hQ2 b (by omega) hbi
        · exact hQ1 a b hab hbi haj1 hbj1

/-- The outer `for` loop of the sort is a full insertion sort of positions
`0 .. k`. -/
theorem insertionPass_sorted : ∀ (k : ℕ) (l : List ObjectProxy), k < l.length →
    sortedPfx ((List.range' 1 k).foldl (fun acc i => listBubble 0 i acc) l) (k + 1)
      ∧ ((List.range' 1 k).foldl (fun acc i => listBubble 0 i acc) l).length
          = l.length := by
  intro k
  induction k with
  | zero =>
    intro l hl
    refine ⟨?_, rfl⟩
    intro a b hab hb1
    omega
  | succ k ih =>
    intro l hl
    have hconcat : List.range' 1 (k + 1) = List.range' 1 k ++ [1 + k] := by
      have h := @List.range'_concat 1 1 k
      simpa using h
    obtain ⟨hsort, hlen⟩ := ih l (by omega)
    have h1k : 1 + k = k + 1 := by omega
    rw [hconcat, List.foldl_append, List.foldl_cons, List.foldl_nil, h1k]
    constructor
    · intro a b hab hbk
      refine listBubble_Q (k + 1) (k + 1) _ le_rfl (by rw [hlen]; omega) ?_ ?_ a b hab
        (by omega)
      · intro a' b' hab' hbk' ha' hb'
        exact hsort a' b' hab' (by omega)
      · intro b' hb1 hb2
        omega
    · rw [listBubble_length, hlen]

theorem sortInner_getD (dim start : ℕ) :
    ∀ (j : ℕ) (s : SweepAndPruneBroadphase), dim < s.lists.length →
      j < (s.lists.getD dim []).length →
      (sortInner dim start j s).lists.getD dim []
          = listBubble start j (s.lists.getD dim []) ∧
      (∀ d, d ≠ dim →
        (sortInner dim start j s).lists.getD d [] = s.lists.getD d []) ∧
      (sortInner dim start j s).lists.length = s.lists.length := by
  intro j
  induction j with
  | zero =>
    intro s _ _
    exact ⟨rfl, fun d _ => rfl, rfl⟩
  | succ j ih =>
    intro s hd hj
    rw [sortInner_succ_eq dim start j s hj, listBubble]
    split_ifs with hg
    · have hd' : dim < (stepState dim j s).lists.length := by
        rw [stepState_lists, List.length_set]
        exact hd
      have hstep : (stepState dim j s).lists.getD dim []
          = swapAdj (s.lists.getD dim []) j := by
        rw [stepState_lists]
        exact getD_set_self _ _ _ _ hd
      have hj' : j < ((stepState dim j s).lists.getD dim []).length := by
        rw [hstep, swapAdj_length]
        omega
      obtain ⟨ih1, ih2, ih3⟩ := ih (stepState dim j s) hd' hj'
      refine ⟨?_, ?_, ?_⟩
      · rw [ih1, hstep]
      · intro d hdd
        rw [ih2 d hdd, stepState_lists, getD_set_ne _ _ _ _ _ (fun h => hdd h.symm)]
      · rw [ih3, stepState_lists, List.length_set]
    · exact ⟨rfl, fun d _ => rfl, rfl⟩

theorem sortInner_windows (dim start : ℕ) :
    ∀ (j : ℕ) (s : SweepAndPruneBroadphase),
      (sortInner dim start j s).sortStarts = s.sortStarts ∧
      (sortInner dim start j s).sortEnds = s.sortEnds := by
  intro j
  induction j with
  | zero =>
    intro s
    exact ⟨rfl, rfl⟩
  | succ j ih =>
    intro s
    rw [sortInner]
    dsimp only
    split_ifs with hg htog
    · obtain ⟨ih1, ih2⟩ := ih _
      rw [ih1, ih2]
      exact ⟨(applyToggle_proj _ _ _ _).2.2.2.1, (applyToggle_proj _ _ _ _).2.2.2.2.1⟩
    · exact ih _
    · exact ⟨rfl, rfl⟩

theorem foldl_sortInner_getD (dim start : ℕ) :
    ∀ (is : List ℕ) (s : SweepAndPruneBroadphase), dim < s.lists.length →
      (∀ i ∈ is, i < (s.lists.getD dim []).length) →
      (is.foldl (fun acc i => sortInner dim start i acc) s).lists.getD dim []
          = is.foldl (fun acc i => listBubble start i acc) (s.lists.getD dim []) ∧
      (∀ d, d ≠ dim →
        (is.foldl (fun acc i => sortInner dim start i acc) s).lists.getD d []
          = s.lists.getD d []) ∧
      (is.foldl (fun acc i => sortInner dim start i acc) s).lists.length
          = s.lists.length ∧
      (is.foldl (fun acc i => sortInner dim start i acc) s).sortStarts = s.sortStarts ∧
      (is.foldl (fun acc i => sortInner dim start i acc) s).sortEnds = s.sortEnds := by
  intro is
  induction is with
  | nil =>
    intro s _ _
    exact ⟨rfl, fun d _ => rfl, rfl, rfl, rfl⟩
  | cons i rest ih =>
    intro s hd hbound
    rw [List.foldl_cons, List.foldl_cons]
    obtain ⟨g1, g2, g3⟩ := sortInner_getD dim start i s hd
      (hbound i (List.mem_cons_self i rest))
    obtain ⟨w1, w2⟩ := sortInner_windows dim start i s
    have hd' : dim < (sortInner dim start i s).lists.length := by
      rw [g3]
      exact hd
    have hbound' : ∀ x ∈ rest, x < ((sortInner dim start i s).lists.getD dim []).length := by
      intro x hx
      rw [g1, listBubble_length]
      exact hbound x (List.mem_cons_of_mem i hx)
    obtain ⟨f1, f2, f3, f4, f5⟩ := ih (sortInner dim start i s) hd' hbound'
    refine ⟨?_, ?_, ?_, ?_, ?_⟩
    · rw [f1, g1]
    · intro d hdd
      rw [f2 d hdd, g2 d hdd]
    · rw [f3, g3]
    · rw [f4, w1]
    · rw [f5, w2]

/-- The whole-list sort window `sort` resets every axis to (line 117-118). -/
def windowE (s : SweepAndPruneBroadphase) : WithBot ℤ :=
  ((((s.lists.getD 0 []).length : ℤ) - 1 : ℤ) : WithBot ℤ)

theorem foldl_listBubble_length (start : ℕ) :
    ∀ (is : List ℕ) (l : List ObjectProxy),
      (is.foldl (fun acc i => listBubble start i acc) l).length = l.length := by
  intro is
  induction is with
  | nil =>
    intro l
    rfl
  | cons i rest ih =>
    intro l
    rw [List.foldl_cons, ih, listBubble_length]

theorem sort_proj (s : SweepAndPruneBroadphase) (dim : ℕ) :
    (s.sort dim).lists
      = ((List.range' 1 ((s.lists.getD 0 []).length - 1)).foldl
          (fun acc i => sortInner dim 0 i acc)
          { s with
            sortStarts := [((0 : ℤ) : WithTop ℤ), ((0 : ℤ) : WithTop ℤ),
              ((0 : ℤ) : WithTop ℤ)],
            sortEnds := [windowE s, windowE s, windowE s] }).lists ∧
    (s.sort dim).sortStarts
      = ((List.range' 1 ((s.lists.getD 0 []).length - 1)).foldl
          (fun acc i => sortInner dim 0 i acc)
          { s with
            sortStarts := [((0 : ℤ) : WithTop ℤ), ((0 : ℤ) : WithTop ℤ),
              ((0 : ℤ) : WithTop ℤ)],
            sortEnds := [windowE s, windowE s, windowE s] }).sortStarts.set dim ⊤ ∧
    (s.sort dim).sortEnds
      = ((List.range' 1 ((s.lists.getD 0 []).length - 1)).foldl
          (fun acc i => sortInner dim 0 i acc)
          { s with
            sortStarts := [((0 : ℤ) : WithTop ℤ), ((0 : ℤ) : WithTop ℤ),
              ((0 : ℤ) : WithTop ℤ)],
            sortEnds := [windowE s, windowE s, windowE s] }).sortEnds.set dim ⊥ := by
  unfold SweepAndPruneBroadphase.sort windowE
  dsimp only
  simp only [Nat.zero_add, Nat.sub_zero]
  exact ⟨trivial, trivial, trivial⟩

/-- `sort(dimension)` fully sorts the per-axis list (the pass always covers
positions `1 .. length - 1` because the windows were just reset), leaves the other
axes' lists untouched, and parks the sorted axis's window at
`Infinity`/`-Infinity`. -/
theorem sort_facts (s : SweepAndPruneBroadphase) (dim : ℕ) (hdim : dim < 3)
    (h3 : s.lists.length = 3)
    (hlen0 : (s.lists.getD dim []).length = (s.lists.getD 0 []).length) :
    sortedPfx ((s.sort dim).lists.getD dim []) ((s.lists.getD dim []).length) ∧
    (∀ d, d ≠ dim → (s.sort dim).lists.getD d [] = s.lists.getD d []) ∧
    ((s.sort dim).lists.getD dim []).length = (s.lists.getD dim []).length ∧
    (s.sort dim).lists.length = 3 ∧
    (s.sort dim).sortStarts.getD dim ⊤ = ⊤ ∧
    (s.sort dim).sortEnds.getD dim ⊥ = ⊥ := by
  obtain ⟨hpl, hps, hpe⟩ := sort_proj s dim
  have hfold := foldl_sortInner_getD dim 0
    (List.range' 1 ((s.lists.getD 0 []).length - 1))
    { s with
      sortStarts := [((0 : ℤ) : WithTop ℤ), ((0 : ℤ) : WithTop ℤ),
        ((0 : ℤ) : WithTop ℤ)],
      sortEnds := [windowE s, windowE s, windowE s] }
    (by show dim < s.lists.length; rw [h3]; exact hdim)
    (by
      intro i hi
      obtain ⟨h1i, h2i⟩ := List.mem_range'_1.mp hi
      show i < (s.lists.getD dim []).length
      rw [hlen0]
      omega)
  obtain ⟨f1, f2, f3, f4, f5⟩ := hfold
  refine ⟨?_, ?_, ?_, ?_, ?_, ?_⟩
  · rw [hpl, f1]
    by_cases h0 : (s.lists.getD 0 []).length = 0
    · intro a b hab hb
      rw [hlen0, h0] at hb
      omega
    · have hk : (s.lists.getD 0 []).length - 1
          < (({ s with
              sortStarts := [((0 : ℤ) : WithTop ℤ), ((0 : ℤ) : WithTop ℤ),
                ((0 : ℤ) : WithTop ℤ)],
              sortEnds := [windowE s, windowE s, windowE s] }
            : SweepAndPruneBroadphase).lists.getD dim []).length := by
        show (s.lists.getD 0 []).length - 1 < (s.lists.getD dim []).length
        rw [hlen0]
        omega
      have hpass := insertionPass_sorted ((s.lists.getD 0 []).length - 1) _ hk
      have hlen' : (s.lists.getD dim []).length
          = ((s.lists.getD 0 []).length - 1) + 1 := by
        rw [hlen0]
        omega
      rw [hlen']
      exact hpass.1
  · intro d hdd
    rw [hpl, f2 d hdd]
  · rw [hpl, f1]
    show ((List.range' 1 ((s.lists.getD 0 []).length - 1)).foldl
        (fun acc i => listBubble 0 i acc) (s.lists.getD dim [])).length
      = (s.lists.getD dim []).length
    rw [foldl_listBubble_length]
  · rw [hpl, f3]
    show s.lists.length = 3
    exact h3
  · rw [hps, f4]
    show (([((0 : ℤ) : WithTop ℤ), ((0 : ℤ) : WithTop ℤ),
        ((0 : ℤ) : WithTop ℤ)]).set dim ⊤).getD dim ⊤ = ⊤
    rw [getD_set_self _ _ _ _ (by simpa using hdim)]
  · rw [hpe, f5]
    show (([windowE s, windowE s, windowE s]).set dim ⊥).getD dim ⊥ = ⊥
    rw [getD_set_self _ _ _ _ (by simpa using hdim)]

/-- On a fully sorted axis list with pairwise-distinct endpoint values, even order
parity (`¬ordP`) says exactly that the two objects' intervals strictly overlap on
that axis. -/
theorem not_ordP_iff_overlap (objs : List BroadphaseObject) (V : ℕ → Bool → ℚ)
    (L : List ObjectProxy) (hwf : listWF objs V L)
    (hsorted : sortedPfx L L.length)
    (hdist : ∀ i1 m1 i2 m2, i1 < objs.length → i2 < objs.length →
      ¬(i1 = i2 ∧ m1 = m2) → V i1 m1 ≠ V i2 m2)
    (hminmax : ∀ i, i < objs.length → V i true < V i false)
    (i1 i2 : ℕ) (h12 : i2 < i1) (h1 : i1 < objs.length) :
    (¬ ordP L i1 i2 ↔ (V i1 true < V i2 false ∧ V i2 true < V i1 false)) := by
  obtain ⟨p1, hp1⟩ := hwf.2.2.2 i1 h1 true
  obtain ⟨q1, hq1⟩ := hwf.2.2.2 i1 h1 false
  obtain ⟨p2, hp2⟩ := hwf.2.2.2 i2 (by omega) true
  obtain ⟨q2, hq2⟩ := hwf.2.2.2 i2 (by omega) false
  have hOrd := ordP_iff_at objs V L hwf i1 i2 p1 q2 p2 q1 hp1 hq2 hp2 hq1
  have hv : ∀ o m k, roleAt L o m k → (L.getD k dummyProxy).value = V o m := by
    intro o m k hk
    have h := (hwf.2.1 k hk.1).2.2.2.2
    rw [hk.2.1, hk.2.2] at h
    exact h
  have hlt : ∀ o m k o' m' k', roleAt L o m k → roleAt L o' m' k' →
      o < objs.length → o' < objs.length → ¬(o = o' ∧ m = m') →
      (k < k' ↔ V o m < V o' m') := by
    intro o m k o' m' k' hk hk' ho ho' hne
    have hkk' : k ≠ k' := roleAt_ne_pos L o m o' m' k k' hk hk' (by tauto)
    have hvk := hv o m k hk
    have hvk' := hv o' m' k' hk'
    have hVne : V o m ≠ V o' m' := hdist o m o' m' ho ho' hne
    constructor
    · intro hlt'
      have hle := hsorted k k' hlt' hk'.1
      rw [hvk, hvk'] at hle
      exact lt_of_le_of_ne hle hVne
    · intro hV
      by_contra hge
      have hk'k : k' < k := by omega
      have hle := hsorted k' k hk'k hk.1
      rw [hvk, hvk'] at hle
      exact lt_irrefl _ (lt_of_le_of_lt hle hV)
  have hC1 : (p1 < q2 ↔ V i1 true < V i2 false) :=
    hlt i1 true p1 i2 false q2 hp1 hq2 h1 (by omega) (by rintro ⟨he, _⟩; omega)
  have hC2 : (p2 < q1 ↔ V i2 true < V i1 false) :=
    hlt i2 true p2 i1 false q1 hp2 hq1 (by omega) h1 (by rintro ⟨he, _⟩; omega)
  have hC1' : (q2 < p1 ↔ V i2 false < V i1 true) :=
    hlt i2 false q2 i1 true p1 hq2 hp1 (by omega) h1 (by rintro ⟨he, _⟩; omega)
  have hC2' : (q1 < p2 ↔ V i1 false < V i2 true) :=
    hlt i1 false q1 i2 true p2 hq1 hp2 h1 (by omega) (by rintro ⟨he, _⟩; omega)
  rw [hOrd]
  unfold Xor'
  constructor
  · intro hn
    by_cases ha : p1 < q2
    · by_cases hb : p2 < q1
      · exact ⟨hC1.mp ha, hC2.mp hb⟩
      · exact absurd (Or.inl ⟨ha, hb⟩) hn
    · by_cases hb : p2 < q1
      · exact absurd (Or.inr ⟨hb, ha⟩) hn
      · exfalso
        have hne1 : p1 ≠ q2 :=
          roleAt_ne_pos L i1 true i2 false p1 q2 hp1 hq2 (Or.inl (by omega))
        have hne2 : p2 ≠ q1 :=
          roleAt_ne_pos L i2 true i1 false p2 q1 hp2 hq1 (Or.inl (by omega))
        have hq2p1 : q2 < p1 := by omega
        have hq1p2 : q1 < p2 := by omega
        have hv1 := hC1'.mp hq2p1
        have hv2 := hC2'.mp hq1p2
        have hm1 := hminmax i1 h1
        have hm2 := hminmax i2 (by omega)
        have : V i1 true < V i1 true := by
          calc V i1 true < V i1 false := hm1
            _ < V i2 true := hv2
            _ < V i2 false := hm2
            _ < V i1 true := hv1
        exact lt_irrefl _ this
  · rintro ⟨hA, hB⟩
    rintro (⟨_, hnb⟩ | ⟨_, hna⟩)
    · exact hnb (hC2.mpr hB)
    · exact hna (hC1.mpr hA)

/-- After a full sort of all three axes, a pair's flag reads 7 exactly when the
pair is maskable and the boxes strictly overlap on every axis. -/
theorem flag7_iff_overlap (objs : List BroadphaseObject) (V : ℕ → Bool → ℕ → ℚ)
    (s : SweepAndPruneBroadphase) (hinv : SAPInv objs V s)
    (hsorted : ∀ d, d < 3 → sortedPfx (s.lists.getD d []) (2 * objs.length))
    (hdist : ∀ d, d < 3 → ∀ i1 m1 i2 m2, i1 < objs.length → i2 < objs.length →
      ¬(i1 = i2 ∧ m1 = m2) → V i1 m1 d ≠ V i2 m2 d)
    (hminmax : ∀ i, i < objs.length → ∀ d, d < 3 → V i true d < V i false d)
    (i1 i2 : ℕ) (h12 : i2 < i1) (h1 : i1 < objs.length) :
    flagsRead s.flags (flagIndexZ (objs.length : ℤ) (i1 : ℤ) (i2 : ℤ)) = 7
      ↔ (maskOK objs i1 i2 ∧
          ∀ d, d < 3 → V i1 true d < V i2 false d ∧ V i2 true d < V i1 false d) := by
  by_cases hmok : maskOK objs i1 i2
  · have hbase : ∀ d, d < 3 →
        ((flagsRead s.flags
            (flagIndexZ (objs.length : ℤ) (i1 : ℤ) (i2 : ℤ))).testBit d = true
          ↔ (V i1 true d < V i2 false d ∧ V i2 true d < V i1 false d)) := by
      intro d hd
      have hfb := (hinv.flagBits i1 i2 h12 h1).1 hmok d hd
      have hsl : sortedPfx (s.lists.getD d []) ((s.lists.getD d []).length) := by
        rw [(hinv.wf d hd).1]
        exact hsorted d hd
      have hnot := not_ordP_iff_overlap objs (fun i m => V i m d) (s.lists.getD d [])
        (hinv.wf d hd) hsl
        (fun j1 m1 j2 m2 hj1 hj2 hne => hdist d hd j1 m1 j2 m2 hj1 hj2 hne)
        (fun i hi => hminmax i hi d hd) i1 i2 h12 h1
      constructor
      · intro hb
        apply hnot.mp
        intro ho
        have hf := hfb.mp ho
        rw [hb] at hf
        simp at hf
      · intro hov
        have hno := hnot.mpr hov
        cases hbit : (flagsRead s.flags
            (flagIndexZ (objs.length : ℤ) (i1 : ℤ) (i2 : ℤ))).testBit d
        · exact absurd (hfb.mpr hbit) hno
        · rfl
    constructor
    · intro h7
      refine ⟨hmok, ?_⟩
      intro d hd
      refine (hbase d hd).mp ?_
      rw [h7]
      interval_cases d <;> decide
    · rintro ⟨_, hov⟩
      rw [eq_seven_iff _ (flagsRead_lt8 _ hinv.flagsSmall _)]
      refine ⟨?_, ?_, ?_⟩
      · exact (hbase 0 (by norm_num)).mpr (hov 0 (by norm_num))
      · exact (hbase 1 (by norm_num)).mpr (hov 1 (by norm_num))
      · exact (hbase 2 (by norm_num)).mpr (hov 2 (by norm_num))
  · have h0 := (hinv.flagBits i1 i2 h12 h1).2 hmok
    rw [h0]
    constructor
    · intro h
      exact absurd h (by norm_num)
    · rintro ⟨hm, _⟩
      exact absurd hm hmok

theorem insert_needsSort (s : SweepAndPruneBroadphase) (o : BroadphaseObject) :
    (s.insert o).needsSort = true := rfl

theorem update_needsSort (s : SweepAndPruneBroadphase) (u : BroadphaseObject) :
    (s.update u).needsSort = true := by
  unfold SweepAndPruneBroadphase.update
  cases hfind : s.objectToProxies.findIdx? (fun x => x == u.id) <;> rfl

theorem runInserts_needsSort : ∀ (objs : List BroadphaseObject)
    (s : SweepAndPruneBroadphase), (objs ≠ [] ∨ s.needsSort = true) →
    (runInserts s objs).needsSort = true := by
  intro objs
  induction objs with
  | nil =>
    intro s h
    rcases h with h | h
    · exact absurd rfl h
    · exact h
  | cons o rest ih =>
    intro s _
    exact ih (s.insert o) (Or.inr (insert_needsSort s o))

theorem runUpdates_needsSort : ∀ (ups : List BroadphaseObject)
    (s : SweepAndPruneBroadphase), (ups ≠ [] ∨ s.needsSort = true) →
    (runUpdates s ups).needsSort = true := by
  intro ups
  induction ups with
  | nil =>
    intro s h
    rcases h with h | h
    · exact absurd rfl h
    · exact h
  | cons u rest ih =>
    intro s _
    exact ih (s.update u) (Or.inr (update_needsSort s u))

/-- When a recompute actually sorts (the dirty flag is set), every axis list comes
out fully sorted. -/
theorem recompute_sorted (objs : List BroadphaseObject) (V : ℕ → Bool → ℕ → ℚ)
    (s : SweepAndPruneBroadphase) (hinv : SAPInv objs V s) (hns : s.needsSort = true) :
    ∀ d, d < 3 → sortedPfx (s.recompute.lists.getD d []) (2 * objs.length) := by
  have hrec : s.recompute = { ((s.sort 0).sort 1).sort 2 with needsSort := false } := by
    unfold SweepAndPruneBroadphase.recompute
    rw [if_pos hns]
  have hinv1 := sort_SAPInv objs V s 0 (by norm_num) hinv
  have hinv2 := sort_SAPInv objs V (s.sort 0) 1 (by norm_num) hinv1
  have F0 := sort_facts s 0 (by norm_num) hinv.listsLen rfl
  have F1 := sort_facts (s.sort 0) 1 (by norm_num) hinv1.listsLen
    (by rw [(hinv1.wf 1 (by norm_num)).1, (hinv1.wf 0 (by norm_num)).1])
  have F2 := sort_facts ((s.sort 0).sort 1) 2 (by norm_num) hinv2.listsLen
    (by rw [(hinv2.wf 2 (by norm_num)).1, (hinv2.wf 0 (by norm_num)).1])
  intro d hd
  have hgoal : s.recompute.lists.getD d []
      = (((s.sort 0).sort 1).sort 2).lists.getD d [] := by
    rw [hrec]
  rw [hgoal]
  interval_cases d
  · rw [F2.2.1 0 (by norm_num), F1.2.1 0 (by norm_num),
      ← (hinv.wf 0 (by norm_num)).1]
    exact F0.1
  · rw [F2.2.1 1 (by norm_num), ← (hinv1.wf 1 (by norm_num)).1]
    exact F1.1
  · rw [← (hinv2.wf 2 (by norm_num)).1]
    exact F2.1

/-- C1 (amended): for any batch of inserts with distinct object ids followed by any
batch of `update` calls and one `recompute()`, and provided the tracked boxes are
nonempty and have pairwise-distinct endpoint values on every axis (no ties, which
the toggle skips), the reported intersection list holds, without duplicates,
exactly the unordered pairs of distinct tracked objects whose boxes strictly
overlap on all three axes, whose collision masks intersect, and of which at least
one is dynamic — the brute-force all-pairs overlap test.  (`boxesV O i true d` /
`boxesV O i false d` are object `i`'s min/max endpoints on axis `d`.) -/
theorem C1_amended_recompute_equals_brute_force
    (objs ups : List BroadphaseObject)
    (hnd : (objs.map BroadphaseObject.id).Nodup)
    (hdist : ∀ d, d < 3 → ∀ i1, i1 < (applyUps objs ups).length →
      ∀ i2, i2 < (applyUps objs ups).length → ∀ m1 m2 : Bool,
      ¬(i1 = i2 ∧ m1 = m2) →
      boxesV (applyUps objs ups) i1 m1 d ≠ boxesV (applyUps objs ups) i2 m2 d)
    (hmm : ∀ i, i < (applyUps objs ups).length → ∀ d, d < 3 →
      boxesV (applyUps objs ups) i true d < boxesV (applyUps objs ups) i false d) :
    (runScenario objs ups).intersections.Nodup ∧
    ∀ pr : ℕ × ℕ, pr ∈ (runScenario objs ups).intersections ↔
      ∃ i1 i2, i2 < i1 ∧ i1 < (applyUps objs ups).length ∧
        pr = ((objAt (applyUps objs ups) i1).id, (objAt (applyUps objs ups) i2).id) ∧
        (maskOK (applyUps objs ups) i1 i2 ∧
          ∀ d, d < 3 →
            boxesV (applyUps objs ups) i1 true d < boxesV (applyUps objs ups) i2 false d ∧
            boxesV (applyUps objs ups) i2 true d < boxesV (applyUps objs ups) i1 false d) := by
  obtain ⟨hinv0, hzero0⟩ := SAPInv_init
  obtain ⟨hinv1, hzero1⟩ := runInserts_SAPInv objs [] _ hinv0 hzero0 (by simpa using hnd)
  rw [List.nil_append] at hinv1
  obtain ⟨hinv2, hzero2⟩ := runUpdates_SAPInv ups objs _ hinv1 hzero1
  have hfin : SAPInv (applyUps objs ups) (boxesV (applyUps objs ups))
      (runScenario objs ups) := recompute_SAPInv _ _ _ hinv2
  refine ⟨hfin.interNodup, ?_⟩
  intro pr
  rw [hfin.interIff pr]
  by_cases hcase : objs = [] ∧ ups = []
  · obtain ⟨h1, h2⟩ := hcase
    subst h1
    subst h2
    have hzlen : (applyUps ([] : List BroadphaseObject) []).length = 0 := rfl
    constructor
    · rintro ⟨i1, i2, h12, hL, _⟩
      omega
    · rintro ⟨i1, i2, h12, hL, _⟩
      omega
  · have hns : (runUpdates (runInserts SweepAndPruneBroadphase.init objs) ups).needsSort
        = true := by
      rcases not_and_or.mp hcase with h | h
      · exact runUpdates_needsSort ups _
          (Or.inr (runInserts_needsSort objs _ (Or.inl h)))
      · exact runUpdates_needsSort ups _ (Or.inl h)
    have hsorted := recompute_sorted (applyUps objs ups) (boxesV (applyUps objs ups))
      _ hinv2 hns
    have hdist' : ∀ d, d < 3 → ∀ i1 m1 i2 m2,
        i1 < (applyUps objs ups).length → i2 < (applyUps objs ups).length →
        ¬(i1 = i2 ∧ m1 = m2) →
        boxesV (applyUps objs ups) i1 m1 d ≠ boxesV (applyUps objs ups) i2 m2 d :=
      fun d hd i1 m1 i2 m2 h1 h2 hne => hdist d hd i1 h1 i2 h2 m1 m2 hne
    constructor
    · rintro ⟨i1, i2, h12, h1, hpr, h7⟩
      exact ⟨i1, i2, h12, h1, hpr,
        (flag7_iff_overlap _ _ _ hfin hsorted hdist' hmm i1 i2 h12 h1).mp h7⟩
    · rintro ⟨i1, i2, h12, h1, hpr, hov⟩
      exact ⟨i1, i2, h12, h1, hpr,
        (flag7_iff_overlap _ _ _ hfin hsorted hdist' hmm i1 i2 h12 h1).mpr hov⟩

/-- Box `[0,2]³`, id 10, for the C1 witness (distinct endpoints from its partner). -/
def c1wA : BroadphaseObject := ⟨10, ⟨⟨0, 0, 0⟩, ⟨2, 2, 2⟩⟩, 1, true⟩

/-- Box `[1,3]³`, id 20, strictly overlapping `c1wA` on every axis. -/
def c1wB : BroadphaseObject := ⟨20, ⟨⟨1, 1, 1⟩, ⟨3, 3, 3⟩⟩, 1, true⟩

theorem C1_amended_witness :
    (([c1wA, c1wB].map BroadphaseObject.id).Nodup) ∧
    (∀ d, d < 3 → ∀ i1, i1 < (applyUps [c1wA, c1wB] []).length →
      ∀ i2, i2 < (applyUps [c1wA, c1wB] []).length → ∀ m1 m2 : Bool,
      ¬(i1 = i2 ∧ m1 = m2) →
      boxesV (applyUps [c1wA, c1wB] []) i1 m1 d
        ≠ boxesV (applyUps [c1wA, c1wB] []) i2 m2 d) ∧
    (∀ i, i < (applyUps [c1wA, c1wB] []).length → ∀ d, d < 3 →
      boxesV (applyUps [c1wA, c1wB] []) i true d
        < boxesV (applyUps [c1wA, c1wB] []) i false d) ∧
    ((runScenario [c1wA, c1wB] []).intersections.Nodup ∧
      ∀ pr : ℕ × ℕ, pr ∈ (runScenario [c1wA, c1wB] []).intersections ↔
        ∃ i1 i2, i2 < i1 ∧ i1 < (applyUps [c1wA, c1wB] []).length ∧
          pr = ((objAt (applyUps [c1wA, c1wB] []) i1).id,
            (objAt (applyUps [c1wA, c1wB] []) i2).id) ∧
          (maskOK (applyUps [c1wA, c1wB] []) i1 i2 ∧
            ∀ d, d < 3 →
              boxesV (applyUps [c1wA, c1wB] []) i1 true d
                < boxesV (applyUps [c1wA, c1wB] []) i2 false d ∧
              boxesV (applyUps [c1wA, c1wB] []) i2 true d
                < boxesV (applyUps [c1wA, c1wB] []) i1 false d)) :=
  ⟨by decide,
    by
      intro d hd i1 h1 i2 h2 m1 m2 hne
      have h1' : i1 < 2 := h1
      have h2' : i2 < 2 := h2
      interval_cases i1 <;> interval_cases i2 <;> interval_cases d <;>
        cases m1 <;> cases m2 <;> revert hne <;> decide,
    by
      intro i hi d hd
      have hi' : i < 2 := hi
      interval_cases i <;> interval_cases d <;> decide,
    C1_amended_recompute_equals_brute_force [c1wA, c1wB] [] (by decide)
      (by
        intro d hd i1 h1 i2 h2 m1 m2 hne
        have h1' : i1 < 2 := h1
        have h2' : i2 < 2 := h2
        interval_cases i1 <;> interval_cases i2 <;> interval_cases d <;>
          cases m1 <;> cases m2 <;> revert hne <;> decide)
      (by
        intro i hi d hd
        have hi' : i < 2 := hi
        interval_cases i <;> interval_cases d <;> decide)⟩

/-- C6 (amended): `sort(axis)` does not restrict its pass to the accumulated dirty
window: it first resets every axis's window to the full range, so its result is
independent of whatever `sortStarts`/`sortEnds` the preceding `update` calls
accumulated, and its single insertion-sort pass sorts the whole per-axis list
(positions `1` to `length - 1`); afterwards it parks the sorted axis's window at
`Infinity`/`-Infinity`. -/
theorem C6_amended_sort_ignores_window_and_sorts_fully :
    (∀ (s : SweepAndPruneBroadphase) (W1 : List (WithTop ℤ)) (W2 : List (WithBot ℤ))
      (dim : ℕ),
      ({ s with sortStarts := W1, sortEnds := W2 } : SweepAndPruneBroadphase).sort dim
        = s.sort dim) ∧
    (∀ (s : SweepAndPruneBroadphase) (dim : ℕ), dim < 3 → s.lists.length = 3 →
      (s.lists.getD dim []).length = (s.lists.getD 0 []).length →
      sortedPfx ((s.sort dim).lists.getD dim []) ((s.lists.getD dim []).length) ∧
      (s.sort dim).sortStarts.getD dim ⊤ = ⊤ ∧
      (s.sort dim).sortEnds.getD dim ⊥ = ⊥) := by
  constructor
  · intro s W1 W2 dim
    rfl
  · intro s dim hdim h3 hlen0
    obtain ⟨f1, _, _, _, f5, f6⟩ := sort_facts s dim hdim h3 hlen0
    exact ⟨f1, f5, f6⟩

theorem C6_amended_witness :
    ((2 : ℕ) < 3 ∧ c6State.lists.length = 3 ∧
      (c6State.lists.getD 2 []).length = (c6State.lists.getD 0 []).length) ∧
    (({ c6State with sortStarts := [⊤, ⊤, ⊤], sortEnds := [⊥, ⊥, ⊥] }
        : SweepAndPruneBroadphase).sort 2 = c6State.sort 2) ∧
    (sortedPfx ((c6State.sort 2).lists.getD 2 []) ((c6State.lists.getD 2 []).length) ∧
      (c6State.sort 2).sortStarts.getD 2 ⊤ = ⊤ ∧
      (c6State.sort 2).sortEnds.getD 2 ⊥ = ⊥) :=
  ⟨⟨by decide, by decide, by decide⟩,
    C6_amended_sort_ignores_window_and_sorts_fully.1 c6State [⊤, ⊤, ⊤] [⊥, ⊥, ⊥] 2,
    C6_amended_sort_ignores_window_and_sorts_fully.2 c6State 2 (by decide) (by decide)
      (by decide)⟩

/-- C7: the state invariant relating intersections to the 3-bit pair flags — a pair
of distinct inserted objects is stored in the flat intersections array (once, as the
pair of the two objects' ids, higher insertion index first) exactly when its flag
slot reads 7 — is preserved by every single swap-plus-toggle step of the sort's
inner loop and by every whole `sort(dimension)` call, so it holds at every point
during and after `sort`. -/
theorem C7_intersections_iff_flag7 (objs : List BroadphaseObject)
    (V : ℕ → Bool → ℕ → ℚ) (s : SweepAndPruneBroadphase) (hinv : SAPInv objs V s) :
    (∀ dim j, dim < 3 → j + 1 < (s.lists.getD dim []).length →
      SAPInv objs V (stepState dim j s) ∧
      (∀ pr : ℕ × ℕ, pr ∈ (stepState dim j s).intersections ↔
        ∃ i1 i2, i2 < i1 ∧ i1 < objs.length ∧
          pr = ((objAt objs i1).id, (objAt objs i2).id) ∧
          flagsRead (stepState dim j s).flags
            (flagIndexZ (objs.length : ℤ) (i1 : ℤ) (i2 : ℤ)) = 7)) ∧
    (∀ dim, dim < 3 →
      SAPInv objs V (s.sort dim) ∧
      (∀ pr : ℕ × ℕ, pr ∈ (s.sort dim).intersections ↔
        ∃ i1 i2, i2 < i1 ∧ i1 < objs.length ∧
          pr = ((objAt objs i1).id, (objAt objs i2).id) ∧
          flagsRead (s.sort dim).flags
            (flagIndexZ (objs.length : ℤ) (i1 : ℤ) (i2 : ℤ)) = 7)) := by
  constructor
  · intro dim j hdim hj
    have h := stepState_SAPInv objs V s dim j hdim hj hinv
    exact ⟨h, h.interIff⟩
  · intro dim hdim
    have h := sort_SAPInv objs V s dim hdim hinv
    exact ⟨h, h.interIff⟩

theorem C7_witness :
    ((0 : ℕ) + 1
        < ((runInserts SweepAndPruneBroadphase.init [c1wA, c1wB]).lists.getD 0
            []).length) ∧
    (SAPInv [c1wA, c1wB] (boxesV [c1wA, c1wB])
        (stepState 0 0 (runInserts SweepAndPruneBroadphase.init [c1wA, c1wB])) ∧
      (∀ pr : ℕ × ℕ,
        pr ∈ (stepState 0 0 (runInserts SweepAndPruneBroadphase.init
            [c1wA, c1wB])).intersections ↔
          ∃ i1 i2, i2 < i1 ∧ i1 < ([c1wA, c1wB] : List BroadphaseObject).length ∧
            pr = ((objAt [c1wA, c1wB] i1).id, (objAt [c1wA, c1wB] i2).id) ∧
            flagsRead (stepState 0 0 (runInserts SweepAndPruneBroadphase.init
                [c1wA, c1wB])).flags
              (flagIndexZ (([c1wA, c1wB] : List BroadphaseObject).length : ℤ)
                (i1 : ℤ) (i2 : ℤ)) = 7)) :=
  ⟨by decide,
    (C7_intersections_iff_flag7 [c1wA, c1wB] (boxesV [c1wA, c1wB])
        (runInserts SweepAndPruneBroadphase.init [c1wA, c1wB])
        (runInserts_SAPInv [c1wA, c1wB] [] SweepAndPruneBroadphase.init
          SAPInv_init.1 SAPInv_init.2 (by decide)).1).1 0 0 (by decide) (by decide)⟩
